import Mathlib

/-!
# ViSi-Genie Arduino library: link protocol engine

A shallow embedding of `genieArduino.cpp` (link state stack, per-byte frame
accumulation in `genieDoEvents`, the circular event queue, the idle wait and
the command encoders) together with theorems about it.

Conventions of the embedding

* The static variables of the translation unit are the fields of `GenieState`.
* The serial port, the millisecond clock and the user's event handler are
  external: the state carries a script of future `read` results
  (`rxScript`), a script of future `millis()` readings (`clockScript`), the
  log of transmitted bytes (`txLog`) and a count of handler invocations.
* `uint8_t` values are naturals reduced `% 256`, `uint16_t` values are
  reduced `% 65536`, `unsigned long` values are reduced `% 2 ^ 32`.
* A store outside a fixed-size array, a call through a null handler and a
  missing return value have no defined result in C++; the embedding stops
  there with a `GenieFault` that carries the state reached so far.
* The header `genieArduino.h` is not part of the sources; its constants are
  the fields of `GenieConsts`.
-/

namespace Genie

/-! ## Constants -/

/-- Modelled from the spec: the macro `GENIE_FRAME_SIZE` of the absent header
`genieArduino.h`; the spec gives a frame as 6 bytes and the source declares the
accumulation buffer as `rx_data[6]`. -/
def GENIE_FRAME_SIZE : Nat := 6

/-- Link state "idle", value documented at `_genieSetLinkState`. -/
def GENIE_LINK_IDLE : Nat := 0
/-- Link state "waiting for Ack or Nak", value documented at `_genieSetLinkState`. -/
def GENIE_LINK_WFAN : Nat := 1
/-- Link state "waiting for a report frame", value documented at `_genieSetLinkState`. -/
def GENIE_LINK_WF_RXREPORT : Nat := 2
/-- Link state "receiving a report frame", value documented at `_genieSetLinkState`. -/
def GENIE_LINK_RXREPORT : Nat := 3
/-- Link state "receiving an event frame", value documented at `_genieSetLinkState`. -/
def GENIE_LINK_RXEVENT : Nat := 4
/-- Link state "shut down", value documented at `_genieSetLinkState`. -/
def GENIE_LINK_SHDN : Nat := 5

/-- Number of entries of the array `_genieLinkStates[5]`. -/
def LINK_STACK_SIZE : Nat := 5

/-- The constants of the absent header `genieArduino.h` that the source uses,
and the width of `unsigned int` on the target. They are parameters of the
embedding. -/
structure GenieConsts where
  /-- Number of slots of the event queue. -/
  MAX_GENIE_EVENTS : Nat
  GENIE_ACK : Nat
  GENIE_NAK : Nat
  GENIE_REPORT_EVENT : Nat
  GENIE_REPORT_OBJ : Nat
  GENIE_READ_OBJ : Nat
  GENIE_WRITE_OBJ : Nat
  GENIE_WRITE_STR : Nat
  GENIE_WRITE_STRU : Nat
  GENIE_WRITE_CONTRAST : Nat
  ERROR_NONE : Int
  ERROR_TIMEOUT : Int
  ERROR_NOHANDLER : Int
  ERROR_NOCHAR : Int
  ERROR_NAK : Int
  ERROR_REPLY_OVR : Int
  ERROR_BAD_CS : Int
  GENIE_EVENT_NONE : Nat
  GENIE_EVENT_RXCHAR : Nat
  TIMEOUT_PERIOD : Int
  /-- Width in bits of `unsigned int` (16 on AVR, 32 on ARM). -/
  UINT_BITS : Nat
deriving DecidableEq, Repr

/-- What the source needs of the header to compile and to tell a received byte
from "no byte": the four markers are single bytes and pairwise distinct (they
are `case` labels of one `switch`), the five opcodes are single bytes, the "no
character" code differs from the "no error" code, and `unsigned int` has at
least 16 bits. -/
def GenieConsts.WellFormed (K : GenieConsts) : Prop :=
  K.GENIE_ACK < 256 ∧ K.GENIE_NAK < 256 ∧
  K.GENIE_REPORT_EVENT < 256 ∧ K.GENIE_REPORT_OBJ < 256 ∧
  K.GENIE_ACK ≠ K.GENIE_NAK ∧ K.GENIE_ACK ≠ K.GENIE_REPORT_EVENT ∧
  K.GENIE_ACK ≠ K.GENIE_REPORT_OBJ ∧ K.GENIE_NAK ≠ K.GENIE_REPORT_EVENT ∧
  K.GENIE_NAK ≠ K.GENIE_REPORT_OBJ ∧ K.GENIE_REPORT_EVENT ≠ K.GENIE_REPORT_OBJ ∧
  K.GENIE_READ_OBJ < 256 ∧ K.GENIE_WRITE_OBJ < 256 ∧ K.GENIE_WRITE_STR < 256 ∧
  K.GENIE_WRITE_STRU < 256 ∧ K.GENIE_WRITE_CONTRAST < 256 ∧
  K.ERROR_NOCHAR ≠ K.ERROR_NONE ∧ 16 ≤ K.UINT_BITS

instance (K : GenieConsts) : Decidable K.WellFormed := by
  unfold GenieConsts.WellFormed; infer_instance

/-- The constants as published for the ViSi-Genie protocol on an AVR target;
used to evaluate the embedding on concrete inputs. -/
def visiGenie : GenieConsts where
  MAX_GENIE_EVENTS := 16
  GENIE_ACK := 6
  GENIE_NAK := 21
  GENIE_REPORT_EVENT := 7
  GENIE_REPORT_OBJ := 5
  GENIE_READ_OBJ := 0
  GENIE_WRITE_OBJ := 1
  GENIE_WRITE_STR := 2
  GENIE_WRITE_STRU := 3
  GENIE_WRITE_CONTRAST := 4
  ERROR_NONE := 0
  ERROR_TIMEOUT := -1
  ERROR_NOHANDLER := -2
  ERROR_NOCHAR := -3
  ERROR_NAK := -4
  ERROR_REPLY_OVR := -5
  ERROR_BAD_CS := -8
  GENIE_EVENT_NONE := 0
  GENIE_EVENT_RXCHAR := 1
  TIMEOUT_PERIOD := 500
  UINT_BITS := 16

/-! ## State -/

/-- Modelled from the spec: the struct `genieEventQueueStruct` of the absent
header `genieArduino.h`, with the members the source uses: the frame slots
(`MAX_GENIE_EVENTS` of them, each a frame of `GENIE_FRAME_SIZE` bytes), the read
index, the write index and the number of queued events. -/
structure genieEventQueueStruct where
  frames : List (List Nat)
  rd_index : Nat
  wr_index : Nat
  n_events : Nat
deriving DecidableEq, Repr

/-- The static variables of `genieArduino.cpp`, followed by the environment
(serial port, clock, user handler). -/
structure GenieState where
  /-- `static genieEventQueueStruct _genieEventQueue` -/
  _genieEventQueue : genieEventQueueStruct
  /-- `static uint8_t _genieLinkStates[5]` -/
  _genieLinkStates : List Nat
  /-- `static uint8_t *_genieLinkState`, as an index into `_genieLinkStates` -/
  _genieLinkState : Nat
  /-- `static int _genieTimeout` -/
  _genieTimeout : Int
  /-- `static int _genieError` -/
  _genieError : Int
  /-- `static uint8_t rxframe_count` -/
  rxframe_count : Nat
  /-- `static uint8_t rx_data[6]` of `genieDoEvents` -/
  rx_data : List Nat
  /-- `static uint8_t checksum` of `genieDoEvents` -/
  checksum : Nat
  /-- whether `_geniePutCharHandler` is non-null -/
  putCharBound : Bool
  /-- whether `_genieGetCharHandler` is non-null -/
  getCharBound : Bool
  /-- whether `_genieUserHandler` is non-null -/
  userHandlerBound : Bool
  /-- results of the future reads of the serial port: `some b` is a byte,
  `none` (or the end of the script) is "nothing available" -/
  rxScript : List (Option Nat)
  /-- the future readings of `millis()` -/
  clockScript : List Nat
  /-- the bytes written to the serial port so far, oldest first -/
  txLog : List Nat
  /-- how many times the user's event handler has been invoked -/
  userHandlerCalls : Nat
deriving DecidableEq, Repr

/-- Where the embedding stops because C++ defines no result. -/
inductive GenieFault where
  /-- `millis()` is called after the end of the clock script -/
  | clockExhausted
  /-- store to `rx_data[i]` with `i` outside the array -/
  | rxDataOverflow
  /-- store through `_genieLinkState` outside `_genieLinkStates` -/
  | linkStackOverflow
  /-- call through a null `_genieUserHandler` -/
  | nullUserHandler
  /-- `genieDoEvents` reaches its closing brace without a `return` -/
  | noReturnValue
deriving DecidableEq, Repr

/-- A run either completes with a value or stops at a fault; the fault keeps
the state reached, so what was transmitted before it stays observable. -/
abbrev Run (α : Type) : Type := Except (GenieFault × GenieState) α

/-- The state a run ends in, completed or not. -/
def Run.finalState : Run GenieState → GenieState
  | .ok s => s
  | .error (_, s) => s

/-- Conversion to `uint8_t`. -/
def toU8 (n : Nat) : Nat := n % 256

/-- Conversion of an `int` to `uint8_t`. -/
def intToU8 (i : Int) : Nat := (i % 256).toNat

/-! ## Link state stack -/

/-- `_genieGetLinkState`: `return *_genieLinkState;` -/
def _genieGetLinkState (s : GenieState) : Nat :=
  s._genieLinkStates.getD s._genieLinkState 0

/-- `_genieSetLinkState`: store `newstate` at the stack pointer; entering
`GENIE_LINK_RXREPORT` or `GENIE_LINK_RXEVENT` zeroes `rxframe_count`. -/
def _genieSetLinkState (newstate : Nat) (s : GenieState) : Run GenieState :=
  if s._genieLinkState < LINK_STACK_SIZE then
    let s1 := { s with _genieLinkStates := s._genieLinkStates.set s._genieLinkState (toU8 newstate) }
    if newstate = GENIE_LINK_RXREPORT ∨ newstate = GENIE_LINK_RXEVENT then
      .ok { s1 with rxframe_count := 0 }
    else
      .ok s1
  else
    .error (.linkStackOverflow, s)

/-- `_geniePushLinkState`: `_genieLinkState++; _genieSetLinkState(newstate);` -/
def _geniePushLinkState (newstate : Nat) (s : GenieState) : Run GenieState :=
  _genieSetLinkState newstate { s with _genieLinkState := s._genieLinkState + 1 }

/-- `_geniePopLinkState`: above the bottom entry, overwrite the top with `0xFF`
and step the pointer down; at the bottom entry do nothing. -/
def _geniePopLinkState (s : GenieState) : GenieState :=
  if s._genieLinkState > 0 then
    { s with _genieLinkStates := s._genieLinkStates.set s._genieLinkState 0xFF,
             _genieLinkState := s._genieLinkState - 1 }
  else s

/-- `_handleError`: its body is commented out in the source. -/
def _handleError (s : GenieState) : GenieState := s

/-! ## Serial port and user handler -/

/-- `_genieGetchar_Serial` (and its siblings for the other ports): with nothing
available set `_genieError = ERROR_NOCHAR` and return that code, else return
`Serial.read() & 0xFF`. -/
def _genieGetchar_Serial (K : GenieConsts) (s : GenieState) : Nat × GenieState :=
  match s.rxScript with
  | some b :: rest => (b % 256, { s with rxScript := rest })
  | none :: rest =>
      ((K.ERROR_NOCHAR % 65536).toNat, { s with rxScript := rest, _genieError := K.ERROR_NOCHAR })
  | [] => ((K.ERROR_NOCHAR % 65536).toNat, { s with _genieError := K.ERROR_NOCHAR })

/-- `_genieGetchar`: clear `_genieError`; without a handler set and return
`ERROR_NOHANDLER`, else return the handler's result converted to `uint8_t`. -/
def _genieGetchar (K : GenieConsts) (s : GenieState) : Nat × GenieState :=
  let s1 := { s with _genieError := K.ERROR_NONE }
  if s1.getCharBound then
    let r := _genieGetchar_Serial K s1
    (toU8 r.1, r.2)
  else
    (intToU8 K.ERROR_NOHANDLER, { s1 with _genieError := K.ERROR_NOHANDLER })

/-- `_geniePutchar`: with a handler bound, write the byte `c` (a `uint8_t`
parameter) to the port; without one do nothing. -/
def _geniePutchar (c : Nat) (s : GenieState) : GenieState :=
  if s.putCharBound then { s with txLog := s.txLog ++ [toU8 c] } else s

/-- The call `(_genieUserHandler)()`. The handler is user code outside the
library: the embedding counts the invocation and leaves the library state as it
is. -/
def callUserHandler (s : GenieState) : Run GenieState :=
  if s.userHandlerBound then .ok { s with userHandlerCalls := s.userHandlerCalls + 1 }
  else .error (.nullUserHandler, s)

/-- `millis()`: the next reading of the 32-bit millisecond clock. -/
def millis (s : GenieState) : Run (Nat × GenieState) :=
  match s.clockScript with
  | t :: rest => .ok (t % 2 ^ 32, { s with clockScript := rest })
  | [] => .error (.clockExhausted, s)

/-! ## Event queue -/

/-- `memcpy (dst, src, n)` on byte lists. -/
def memcpy (dst src : List Nat) (n : Nat) : List Nat := src.take n ++ dst.drop n

/-- `_genieFlushEventQueue`: zero the two indices and the count. -/
def _genieFlushEventQueue (s : GenieState) : GenieState :=
  { s with _genieEventQueue := { s._genieEventQueue with rd_index := 0, wr_index := 0, n_events := 0 } }

/-- `genieDequeueEvent`: with an event queued, copy the frame at the read index
to the caller's buffer, advance the read index under the mask, decrement the
count and return `TRUE`; else return `FALSE`. The result is the new state, the
caller's buffer and the return value. -/
def genieDequeueEvent (K : GenieConsts) (buff : List Nat) (s : GenieState) :
    GenieState × List Nat × Bool :=
  let q := s._genieEventQueue
  if q.n_events > 0 then
    let buff1 := memcpy buff (q.frames.getD q.rd_index []) GENIE_FRAME_SIZE
    let q1 := { q with rd_index := (q.rd_index + 1) &&& (K.MAX_GENIE_EVENTS - 1),
                       n_events := q.n_events - 1 }
    ({ s with _genieEventQueue := q1 }, buff1, true)
  else
    (s, buff, false)

/-- `_genieEnqueueEvent`: with fewer than `MAX_GENIE_EVENTS - 2` events queued,
copy the frame to the slot at the write index, advance the write index under
the mask, increment the count and return `TRUE`; else set
`_genieError = ERROR_REPLY_OVR` and return `FALSE`. -/
def _genieEnqueueEvent (K : GenieConsts) (data : List Nat) (s : GenieState) :
    GenieState × Bool :=
  let q := s._genieEventQueue
  if q.n_events < K.MAX_GENIE_EVENTS - 2 then
    let slot := memcpy (q.frames.getD q.wr_index []) data GENIE_FRAME_SIZE
    let q1 := { q with frames := q.frames.set q.wr_index slot,
                       wr_index := (q.wr_index + 1) &&& (K.MAX_GENIE_EVENTS - 1),
                       n_events := q.n_events + 1 }
    ({ s with _genieEventQueue := q1 }, true)
  else
    (_handleError { s with _genieError := K.ERROR_REPLY_OVR }, false)

/-! ## The state machine `genieDoEvents` -/

/-- How the `switch` on the link state ends: with a `return GENIE_EVENT_RXCHAR`
inside it, or by reaching the frame accumulation code that follows it. -/
inductive SwitchExit where
  | returned (s : GenieState)
  | accumulate (s : GenieState)
deriving DecidableEq, Repr

/-- The `switch (_genieGetLinkState())` of `genieDoEvents` for the byte `c`. -/
def genieDoEvents_switch (K : GenieConsts) (c : Nat) (s : GenieState) : Run SwitchExit :=
  if _genieGetLinkState s = GENIE_LINK_IDLE then
    if c = K.GENIE_REPORT_EVENT then
      (_geniePushLinkState GENIE_LINK_RXEVENT s).map SwitchExit.accumulate
    else
      .ok (.returned s)
  else if _genieGetLinkState s = GENIE_LINK_WFAN then
    if c = K.GENIE_ACK then
      .ok (.returned (_geniePopLinkState s))
    else if c = K.GENIE_NAK then
      .ok (.returned (_handleError { _geniePopLinkState s with _genieError := K.ERROR_NAK }))
    else if c = K.GENIE_REPORT_EVENT then
      (_geniePushLinkState GENIE_LINK_RXEVENT s).map SwitchExit.accumulate
    else
      .ok (.returned s)
  else if _genieGetLinkState s = GENIE_LINK_WF_RXREPORT then
    if c = K.GENIE_REPORT_EVENT then
      (_geniePushLinkState GENIE_LINK_RXEVENT s).map SwitchExit.accumulate
    else if c = K.GENIE_REPORT_OBJ then
      (_geniePushLinkState GENIE_LINK_RXREPORT (_geniePopLinkState s)).map SwitchExit.accumulate
    else
      .ok (.returned s)
  else
    .ok (.accumulate s)

/-- The frame accumulation code at the end of `genieDoEvents` for the byte `c`:
update the running checksum, store the byte at `rx_data[rxframe_count]`; at the
last position enqueue the frame, zero the count and pop the link state when the
checksum is zero, else set `ERROR_BAD_CS`; in the remaining cases increment the
count. -/
def genieDoEvents_accumulate (K : GenieConsts) (c : Nat) (s : GenieState) :
    Run (GenieState × Nat) :=
  if _genieGetLinkState s = GENIE_LINK_RXREPORT ∨ _genieGetLinkState s = GENIE_LINK_RXEVENT then
    let s1 := { s with checksum := if s.rxframe_count = 0 then c else toU8 (s.checksum ^^^ c) }
    if s1.rxframe_count < 6 then
      let s2 := { s1 with rx_data := s1.rx_data.set s1.rxframe_count c }
      if s2.rxframe_count = GENIE_FRAME_SIZE - 1 then
        if s2.checksum = 0 then
          let s3 := (_genieEnqueueEvent K s2.rx_data s2).1
          let s4 := { s3 with rxframe_count := 0 }
          .ok (_geniePopLinkState s4, K.GENIE_EVENT_RXCHAR)
        else
          let s3 := _handleError { s2 with _genieError := K.ERROR_BAD_CS }
          .ok ({ s3 with rxframe_count := toU8 (s3.rxframe_count + 1) }, K.GENIE_EVENT_RXCHAR)
      else
        .ok ({ s2 with rxframe_count := toU8 (s2.rxframe_count + 1) }, K.GENIE_EVENT_RXCHAR)
    else
      .error (.rxDataOverflow, s1)
  else
    .error (.noReturnValue, s)

/-- `genieDoEvents`: read one character; with none available call the user's
handler if events are queued and return `GENIE_EVENT_NONE`; else run the link
state `switch` and, unless it returned, the frame accumulation. -/
def genieDoEvents (K : GenieConsts) (s : GenieState) : Run (GenieState × Nat) :=
  let r := _genieGetchar K s
  let c := r.1
  let s1 := r.2
  if s1._genieError = K.ERROR_NOCHAR then
    if s1._genieEventQueue.n_events > 0 then
      (callUserHandler s1).map fun s2 => (s2, K.GENIE_EVENT_NONE)
    else
      .ok (s1, K.GENIE_EVENT_NONE)
  else
    match genieDoEvents_switch K c s1 with
    | .error e => .error e
    | .ok (.returned s2) => .ok (s2, K.GENIE_EVENT_RXCHAR)
    | .ok (.accumulate s2) => genieDoEvents_accumulate K c s2

/-! ## Idle wait -/

/-- The value of `millis() + _genieTimeout` for the clock reading `now`: the
`int` is converted to `unsigned long`, the sum wraps at `2 ^ 32`, and the
`long` that holds it is converted back to `unsigned long` by the comparison
`millis() < timeout`. -/
def timeoutAfter (s : GenieState) (now : Nat) : Nat :=
  (((now : Int) + s._genieTimeout) % 2 ^ 32).toNat

/-- The `for ( ; millis() < timeout; )` loop of `_genieWaitForIdle`. Every
iteration reads the clock, so a `fuel` above the length of the clock script is
never used up. -/
def _genieWaitForIdle_loop (K : GenieConsts) : Nat → Nat → GenieState → Run GenieState
  | 0, _, s => .error (.clockExhausted, s)
  | fuel + 1, timeout, s =>
    match millis s with
    | .error e => .error e
    | .ok (now, s1) =>
      if now < timeout then
        match genieDoEvents K s1 with
        | .error e => .error e
        | .ok (s2, do_event_result) =>
          if do_event_result = K.GENIE_EVENT_RXCHAR then
            match millis s2 with
            | .error e => .error e
            | .ok (t, s3) =>
              if _genieGetLinkState s3 = GENIE_LINK_IDLE then .ok s3
              else _genieWaitForIdle_loop K fuel (timeoutAfter s3 t) s3
          else
            if _genieGetLinkState s2 = GENIE_LINK_IDLE then .ok s2
            else _genieWaitForIdle_loop K fuel timeout s2
      else
        .ok (_handleError { s1 with _genieError := K.ERROR_TIMEOUT })

/-- `_genieWaitForIdle`: poll `genieDoEvents` until the link is idle or the
clock reaches the deadline, which restarts whenever a character was received;
at the deadline set `_genieError = ERROR_TIMEOUT`. -/
def _genieWaitForIdle (K : GenieConsts) (s : GenieState) : Run GenieState :=
  match millis s with
  | .error e => .error e
  | .ok (t0, s1) => _genieWaitForIdle_loop K (s1.clockScript.length + 1) (timeoutAfter s1 t0) s1

/-! ## Command encoders -/

/-- Conversion to `uint16_t`. -/
def toU16 (n : Nat) : Nat := n % 65536

/-- The Arduino macro `lowByte(w)`: `(uint8_t) ((w) & 0xff)`. -/
def lowByte (w : Nat) : Nat := toU8 (w &&& 0xff)

/-- The Arduino macro `highByte(w)`: `(uint8_t) ((w) >> 8)`. -/
def highByte (w : Nat) : Nat := toU8 (w >>> 8)

/-- `genieReadObject`: flush the event queue, wait for idle, clear the error,
send `GENIE_READ_OBJ`, object, index and the checksum, push
`GENIE_LINK_WF_RXREPORT` and return `TRUE`. -/
def genieReadObject (K : GenieConsts) (object index : Nat) (s : GenieState) :
    Run (GenieState × Bool) :=
  match _genieWaitForIdle K (_genieFlushEventQueue s) with
  | .error e => .error e
  | .ok s1 =>
    let s2 := { s1 with _genieError := K.ERROR_NONE }
    let s3 := _geniePutchar K.GENIE_READ_OBJ s2
    let checksum0 := toU8 K.GENIE_READ_OBJ
    let s4 := _geniePutchar (toU16 object) s3
    let checksum1 := toU8 (checksum0 ^^^ toU16 object)
    let s5 := _geniePutchar (toU16 index) s4
    let checksum2 := toU8 (checksum1 ^^^ toU16 index)
    let s6 := _geniePutchar checksum2 s5
    (_geniePushLinkState GENIE_LINK_WF_RXREPORT s6).map fun s7 => (s7, true)

/-- `genieWriteObject`: wait for idle, clear the error, send `GENIE_WRITE_OBJ`,
object, index, the high and the low byte of the data and the checksum, then
push `GENIE_LINK_WFAN`. (The source has no `return` statement; the value is
left out.) -/
def genieWriteObject (K : GenieConsts) (object index data : Nat) (s : GenieState) :
    Run GenieState :=
  match _genieWaitForIdle K s with
  | .error e => .error e
  | .ok s1 =>
    let lsb := lowByte (toU16 data)
    let msb := highByte (toU16 data)
    let s2 := { s1 with _genieError := K.ERROR_NONE }
    let s3 := _geniePutchar K.GENIE_WRITE_OBJ s2
    let checksum0 := toU8 K.GENIE_WRITE_OBJ
    let s4 := _geniePutchar (toU16 object) s3
    let checksum1 := toU8 (checksum0 ^^^ toU16 object)
    let s5 := _geniePutchar (toU16 index) s4
    let checksum2 := toU8 (checksum1 ^^^ toU16 index)
    let s6 := _geniePutchar msb s5
    let checksum3 := toU8 (checksum2 ^^^ msb)
    let s7 := _geniePutchar lsb s6
    let checksum4 := toU8 (checksum3 ^^^ lsb)
    let s8 := _geniePutchar checksum4 s7
    _geniePushLinkState GENIE_LINK_WFAN s8

/-- `genieWriteContrast`: wait for idle, send `GENIE_WRITE_CONTRAST`, the value
and the checksum (an `unsigned int`), then push `GENIE_LINK_WFAN`. -/
def genieWriteContrast (K : GenieConsts) (value : Nat) (s : GenieState) : Run GenieState :=
  match _genieWaitForIdle K s with
  | .error e => .error e
  | .ok s1 =>
    let s2 := _geniePutchar K.GENIE_WRITE_CONTRAST s1
    let checksum0 := K.GENIE_WRITE_CONTRAST % 2 ^ K.UINT_BITS
    let s3 := _geniePutchar (toU16 value) s2
    let checksum1 := (checksum0 ^^^ toU16 value) % 2 ^ K.UINT_BITS
    let s4 := _geniePutchar checksum1 s3
    _geniePushLinkState GENIE_LINK_WFAN s4

/-- The C string at `string`: the bytes in memory before the terminating NUL.
The list is the memory from the pointer on, with the NUL implied at its end. -/
def cstring (string : List Nat) : List Nat :=
  (string.map toU8).takeWhile fun b => b ≠ 0

/-- `strlen (string)`. The result is assigned to an `int`; a string fits in the
target's memory, so the length is taken to be representable. -/
def strlen (string : List Nat) : Nat := (cstring string).length

/-- The value of the `char` with bit pattern `b` in an `unsigned int`
expression: a byte of 0x80 and above is a negative `char` and is sign-extended
to the width of `unsigned int`. -/
def charToUInt (K : GenieConsts) (b : Nat) : Nat :=
  if b < 128 then b else b + (2 ^ K.UINT_BITS - 256)

/-- The loop `for (p = string ; *p ; ++p)` of `_genieWriteStrX`: send each
character and fold it into the checksum. -/
def _genieWriteStrX_loop (K : GenieConsts) : List Nat → Nat → GenieState → Nat × GenieState
  | [], checksum, s => (checksum, s)
  | p :: rest, checksum, s =>
    _genieWriteStrX_loop K rest ((checksum ^^^ charToUInt K p) % 2 ^ K.UINT_BITS)
      (_geniePutchar p s)

/-- `_genieWriteStrX`: return -1 for a string longer than 255; else wait for
idle, send the code, the index, the length, the characters and the checksum,
push `GENIE_LINK_WFAN` and return 0. -/
def _genieWriteStrX (K : GenieConsts) (code index : Nat) (string : List Nat) (s : GenieState) :
    Run (GenieState × Int) :=
  let len := strlen string
  if len > 255 then
    .ok (s, -1)
  else
    match _genieWaitForIdle K s with
    | .error e => .error e
    | .ok s1 =>
      let s2 := _geniePutchar (toU16 code) s1
      let checksum0 := toU16 code % 2 ^ K.UINT_BITS
      let s3 := _geniePutchar (toU16 index) s2
      let checksum1 := (checksum0 ^^^ toU16 index) % 2 ^ K.UINT_BITS
      let s4 := _geniePutchar (toU8 len) s3
      let checksum2 := (checksum1 ^^^ len) % 2 ^ K.UINT_BITS
      let r := _genieWriteStrX_loop K (cstring string) checksum2 s4
      let s5 := _geniePutchar r.1 r.2
      (_geniePushLinkState GENIE_LINK_WFAN s5).map fun s6 => (s6, 0)

/-- `genieWriteStr`: `_genieWriteStrX (GENIE_WRITE_STR, index, string)`, the
`int` result converted to `uint16_t`. -/
def genieWriteStr (K : GenieConsts) (index : Nat) (string : List Nat) (s : GenieState) :
    Run (GenieState × Nat) :=
  (_genieWriteStrX K K.GENIE_WRITE_STR (toU16 index) string s).map
    fun r => (r.1, (r.2 % 65536).toNat)

/-- `genieWriteStrU`: `_genieWriteStrX (GENIE_WRITE_STRU, index, string)`, the
`int` result converted to `uint16_t`. -/
def genieWriteStrU (K : GenieConsts) (index : Nat) (string : List Nat) (s : GenieState) :
    Run (GenieState × Nat) :=
  (_genieWriteStrX K K.GENIE_WRITE_STRU (toU16 index) string s).map
    fun r => (r.1, (r.2 % 65536).toNat)

/-- `genieGetEventData`: `(e->reportObject.data_msb << 8) + e->reportObject.data_lsb`
returned as `uint16_t`; `data_msb` and `data_lsb` are the fourth and fifth byte
of the frame. The shift and the sum are done in `int`; where `int` has 16 bits
and `data_msb` is 0x80 or above they wrap, and the conversion of the result to
`uint16_t` yields the same residue modulo 65536 as the exact sum taken here. -/
def genieGetEventData (e : List Nat) : Nat :=
  toU16 ((e.getD 3 0 <<< 8) + e.getD 4 0)

/-! ## Feeding bytes -/

/-- Call `genieDoEvents` `n` times in a row, stopping at the first fault. -/
def genieDoEventsTimes (K : GenieConsts) : Nat → GenieState → Run GenieState
  | 0, s => .ok s
  | n + 1, s =>
    match genieDoEvents K s with
    | .error e => .error e
    | .ok (s1, _) => genieDoEventsTimes K n s1

/-- XOR of a list of bytes. -/
def xorAll (bytes : List Nat) : Nat := bytes.foldl (fun a b => a ^^^ b) 0

/-! ## Declared sizes and the initial state -/

/-- The sizes the declarations give the arrays: five link states, six bytes of
`rx_data`, `MAX_GENIE_EVENTS` queue slots of `GENIE_FRAME_SIZE` bytes each. -/
def GenieState.Layout (K : GenieConsts) (s : GenieState) : Prop :=
  s._genieLinkStates.length = LINK_STACK_SIZE ∧ s.rx_data.length = 6 ∧
  s._genieEventQueue.frames.length = K.MAX_GENIE_EVENTS ∧
  ∀ f ∈ s._genieEventQueue.frames, f.length = GENIE_FRAME_SIZE

instance (K : GenieConsts) (s : GenieState) : Decidable (s.Layout K) := by
  unfold GenieState.Layout; infer_instance

/-- The statics as initialised at program start, with an empty environment. -/
def initialState (K : GenieConsts) : GenieState where
  _genieEventQueue :=
    { frames := List.replicate K.MAX_GENIE_EVENTS (List.replicate GENIE_FRAME_SIZE 0),
      rd_index := 0, wr_index := 0, n_events := 0 }
  _genieLinkStates := [GENIE_LINK_IDLE, 0, 0, 0, 0]
  _genieLinkState := 0
  _genieTimeout := K.TIMEOUT_PERIOD
  _genieError := K.ERROR_NONE
  rxframe_count := 0
  rx_data := [0, 0, 0, 0, 0, 0]
  checksum := 0
  putCharBound := false
  getCharBound := false
  userHandlerBound := false
  rxScript := []
  clockScript := []
  txLog := []
  userHandlerCalls := 0

/-! ## Repeated queue calls and run results -/

/-- Enqueue the frames in order with `_genieEnqueueEvent`; the result is the
final state and the return values. -/
def enqueueAll (K : GenieConsts) : List (List Nat) → GenieState → GenieState × List Bool
  | [], s => (s, [])
  | f :: fs, s =>
    let r := _genieEnqueueEvent K f s
    let rest := enqueueAll K fs r.1
    (rest.1, r.2 :: rest.2)

/-- Call `genieDequeueEvent` `n` times on the same caller buffer; the result is
the buffer contents and return value after each call, and the final state. -/
def dequeueTimes (K : GenieConsts) : Nat → List Nat → GenieState →
    List (List Nat × Bool) × GenieState
  | 0, _, s => ([], s)
  | n + 1, buff, s =>
    let r := genieDequeueEvent K buff s
    let rest := dequeueTimes K n r.2.1 r.1
    ((r.2.1, r.2.2) :: rest.1, rest.2)

/-- The state a run of an encoder that returns a value ends in, completed or
not. -/
def Run.endState {α : Type} : Run (GenieState × α) → GenieState
  | .ok r => r.1
  | .error (_, s) => s

/-! ## Auxiliary definitions for the proofs -/

/-- The state after `genieDoEvents` has accumulated the byte `b` at a position
before the last one. -/
def rxStore (K : GenieConsts) (b : Nat) (s : GenieState) : GenieState :=
  { s with _genieError := K.ERROR_NONE, rxScript := s.rxScript.tail,
           checksum := if s.rxframe_count = 0 then b else toU8 (s.checksum ^^^ b),
           rx_data := s.rx_data.set s.rxframe_count b,
           rxframe_count := s.rxframe_count + 1 }

/-- The state after `genieDoEvents` has accumulated the byte `b` at the last
position with a zero checksum: the frame is offered to the queue, the count is
zeroed and the link state popped. -/
def rxDeliver (K : GenieConsts) (b : Nat) (s : GenieState) : GenieState :=
  _geniePopLinkState
    { (_genieEnqueueEvent K (s.rx_data.set 5 b)
        { s with _genieError := K.ERROR_NONE, rxScript := s.rxScript.tail, checksum := 0,
                 rx_data := s.rx_data.set 5 b }).1 with rxframe_count := 0 }

/-- The state after `genieDoEvents` has accumulated the byte `b` at the last
position with a non-zero checksum: `ERROR_BAD_CS` is set and the count
incremented. -/
def rxReject (K : GenieConsts) (b : Nat) (s : GenieState) : GenieState :=
  { s with _genieError := K.ERROR_BAD_CS, rxScript := s.rxScript.tail,
           checksum := toU8 (s.checksum ^^^ b), rx_data := s.rx_data.set 5 b,
           rxframe_count := 6 }

/-- The state after `_geniePushLinkState (GENIE_LINK_RXEVENT)` with room on the
stack. -/
def rxPushed (s : GenieState) : GenieState :=
  { s with _genieLinkState := s._genieLinkState + 1,
           _genieLinkStates := s._genieLinkStates.set (s._genieLinkState + 1) GENIE_LINK_RXEVENT,
           rxframe_count := 0 }

/-- The frames held by the queue, oldest first: the `n_events` slots from the
read index on, wrapping at `MAX_GENIE_EVENTS`. -/
def queued (K : GenieConsts) (s : GenieState) : List (List Nat) :=
  (List.range s._genieEventQueue.n_events).map fun i =>
    s._genieEventQueue.frames.getD ((s._genieEventQueue.rd_index + i) % K.MAX_GENIE_EVENTS) []

/-- Shape of the circular queue: declared sizes, read index in range, write
index `n_events` slots after the read index. -/
def QueueInv (K : GenieConsts) (s : GenieState) : Prop :=
  s._genieEventQueue.frames.length = K.MAX_GENIE_EVENTS ∧
  (∀ f ∈ s._genieEventQueue.frames, f.length = GENIE_FRAME_SIZE) ∧
  s._genieEventQueue.rd_index < K.MAX_GENIE_EVENTS ∧
  s._genieEventQueue.wr_index =
    (s._genieEventQueue.rd_index + s._genieEventQueue.n_events) % K.MAX_GENIE_EVENTS

/-- What the encoders' output depends on: the transmit log and whether a
transmit handler is bound. -/
def txView (s : GenieState) : List Nat × Bool := (s.txLog, s.putCharBound)

/-- The link state stack of a state: the array and the pointer. -/
def stackView (s : GenieState) : List Nat × Nat := (s._genieLinkStates, s._genieLinkState)

/-- The state carried by a `SwitchExit`. -/
def SwitchExit.state : SwitchExit → GenieState
  | .returned s => s
  | .accumulate s => s

/-- The state after a call of `genieDoEvents` that finds nothing to read:
`ERROR_NOCHAR` is set, the port script has advanced, and the user's handler has
been invoked once if events are queued. -/
def quietPoll (K : GenieConsts) (s : GenieState) : GenieState :=
  { s with
      _genieError := K.ERROR_NOCHAR, rxScript := s.rxScript.tail,
      userHandlerCalls :=
        if s._genieEventQueue.n_events > 0 then s.userHandlerCalls + 1 else s.userHandlerCalls }

/-- Whether the byte `c` is one the `switch` of `genieDoEvents` discards in the
link state `st`: in idle every byte but the report-event marker, while waiting
for Ack or Nak every byte but Ack, Nak and the report-event marker, while
waiting for a report every byte but the two report markers. -/
def unexpectedByte (K : GenieConsts) (st c : Nat) : Prop :=
  (st = GENIE_LINK_IDLE ∧ c ≠ K.GENIE_REPORT_EVENT) ∨
  (st = GENIE_LINK_WFAN ∧ c ≠ K.GENIE_ACK ∧ c ≠ K.GENIE_NAK ∧ c ≠ K.GENIE_REPORT_EVENT) ∨
  (st = GENIE_LINK_WF_RXREPORT ∧ c ≠ K.GENIE_REPORT_EVENT ∧ c ≠ K.GENIE_REPORT_OBJ)

instance (K : GenieConsts) (st c : Nat) : Decidable (unexpectedByte K st c) := by
  unfold unexpectedByte; infer_instance

/-- The state after `_geniePopLinkState (); _geniePushLinkState (GENIE_LINK_RXREPORT)`
above the bottom entry: the top entry is replaced and the frame byte index
zeroed. -/
def rxReplaced (s : GenieState) : GenieState :=
  { s with
      _genieLinkStates := s._genieLinkStates.set s._genieLinkState GENIE_LINK_RXREPORT,
      rxframe_count := 0 }

/-- Whether the idle wait entered in `s` returns, with the link idle or
`ERROR_TIMEOUT` set on return and nothing transmitted by the wait itself: the
condition under which an encoder goes on to send its command bytes. -/
def sendsAfterWait (K : GenieConsts) (s : GenieState) : Prop :=
  match _genieWaitForIdle K s with
  | .ok s1 =>
    (_genieGetLinkState s1 = GENIE_LINK_IDLE ∨ s1._genieError = K.ERROR_TIMEOUT) ∧
      s1.txLog = s.txLog
  | .error _ => False

instance (K : GenieConsts) (s : GenieState) : Decidable (sendsAfterWait K s) := by
  unfold sendsAfterWait; split <;> infer_instance

/-- The run `r` of an encoder whose idle wait was entered in `s` stopped at a
fault of that wait, with the transmit log as it was in `s`. -/
def stoppedInWait {α : Type} (K : GenieConsts) (s : GenieState) (r : Run α) : Prop :=
  ∃ e, _genieWaitForIdle K s = .error e ∧ r = .error e ∧ e.2.txLog = s.txLog

/-- The state `s` with the event queue record replaced by `q`. -/
def withQueue (q : genieEventQueueStruct) (s : GenieState) : GenieState :=
  { s with _genieEventQueue := q }

/-- Apply `h` to the value of a completed run and `g` to the state a faulted run
stopped in. -/
def Run.over {α : Type} (h : α → α) (g : GenieState → GenieState) : Run α → Run α
  | .ok a => .ok (h a)
  | .error (f, t) => .error (f, g t)

/-- The queue record `q` holds the same queued frames as the queue of `s`: the
same number of events, both in the shape of the circular queue, and the same
frames from the read index on; `rx_data` has its declared size. -/
def SameQueued (K : GenieConsts) (s : GenieState) (q : genieEventQueueStruct) : Prop :=
  q.n_events = s._genieEventQueue.n_events ∧ QueueInv K s ∧ QueueInv K (withQueue q s) ∧
  queued K (withQueue q s) = queued K s ∧ s.rx_data.length = 6

/-- Replace the event queue record in the state a `SwitchExit` carries. -/
def SwitchExit.withQueue (q : genieEventQueueStruct) : SwitchExit → SwitchExit
  | .returned s => .returned (Genie.withQueue q s)
  | .accumulate s => .accumulate (Genie.withQueue q s)

/-- What an encoder whose idle wait is entered in `s` does once the wait has
returned: the wait returned a state `s1` with the link idle or `ERROR_TIMEOUT`
set and transmitted nothing itself; the encoder, ending in the state `t`, then
appended `bytes` to the transmit log (with a transmit handler bound) and moved
the stack pointer up by one; with room on the link state stack it completed
(`completed`) with `reply` current and the entries up to the old top
unchanged. -/
def sendsAndPushes (K : GenieConsts) (s t : GenieState) (completed : Bool) (bytes : List Nat)
    (reply : Nat) : Prop :=
  match _genieWaitForIdle K s with
  | .ok s1 =>
    (_genieGetLinkState s1 = GENIE_LINK_IDLE ∨ s1._genieError = K.ERROR_TIMEOUT) ∧
    s1.txLog = s.txLog ∧
    (s.putCharBound = true → t.txLog = s1.txLog ++ bytes) ∧
    t._genieLinkState = s1._genieLinkState + 1 ∧
    (s1._genieLinkStates.length = LINK_STACK_SIZE → s1._genieLinkState + 1 < LINK_STACK_SIZE →
      completed = true ∧ _genieGetLinkState t = reply ∧
      ∀ i, i ≤ s1._genieLinkState → t._genieLinkStates.getD i 0 = s1._genieLinkStates.getD i 0)
  | .error _ => False

/-! ## Sample states -/

/-- A sample state: the link as `genieBegin` leaves it on a valid port (both
port handlers bound, `GENIE_LINK_IDLE` pushed once), with a user handler
attached. -/
def linkUp : GenieState :=
  { initialState visiGenie with
      _genieLinkStates := [0, 0, 0, 0, 0], _genieLinkState := 1,
      putCharBound := true, getCharBound := true, userHandlerBound := true }

/-- The link of `linkUp` with the link state `state` pushed on the stack and the
given bytes pending on the serial port. -/
def linkUpIn (state : Nat) (bytes : List Nat) : GenieState :=
  { linkUp with
      _genieLinkStates := [0, 0, state, 0, 0], _genieLinkState := 2,
      rxScript := List.map some bytes }

/-- The link of `linkUpIn` with the event queue at capacity
(`MAX_GENIE_EVENTS - 2 = 14` events queued). -/
def linkUpFull (state : Nat) (bytes : List Nat) : GenieState :=
  { linkUpIn state bytes with
      _genieEventQueue := { linkUp._genieEventQueue with wr_index := 14, n_events := 14 } }

/-- The link of `linkUp` with the empty event queue positioned at its last slot,
so that the next enqueue wraps the write index. -/
def linkUpWrap : GenieState :=
  { linkUp with
      _genieEventQueue := { linkUp._genieEventQueue with rd_index := 15, wr_index := 15 } }

/-- The idle sample link with two clock readings to come, 0 and 1 ms. -/
def linkUpIdle : GenieState := { linkUp with clockScript := [0, 1] }

/-- The idle sample link on which nothing is pending at the first poll and an
Ack (byte 6) arrives afterwards. -/
def linkUpAck : GenieState := { linkUpIdle with rxScript := [none, some 6] }

/-- The idle sample link facing a display that never answers: nothing arrives
on the port, and the clock readings are such that the idle wait of the first
command returns at once and the waits of the next three commands time out. -/
def linkUpSilent : GenieState :=
  { linkUp with clockScript := [0, 1, 2, 600, 601, 1200, 1201, 1800] }

/-- The sample link receiving a report frame of which `[5, 1, 2, 3, 4]` is
stored (running XOR 1), with the byte 9 pending as the sixth. -/
def linkUpLastByte : GenieState :=
  { linkUpIn GENIE_LINK_RXREPORT [9] with
      rxframe_count := 5, rx_data := [5, 1, 2, 3, 4, 0], checksum := 1 }

/-- The idle sample link, nothing pending on the port, entered 100 ms before the
millisecond clock wraps at `2 ^ 32`; the next reading is 1 ms later. -/
def linkUpNearWrap : GenieState := { linkUp with clockScript := [4294967196, 4294967197] }

/-- The sample link waiting for the Ack of an earlier command that the display
never sends: nothing arrives, and the second clock reading is 600 ms after the
first. -/
def linkUpTimedOut : GenieState := { linkUpIn GENIE_LINK_WFAN [] with clockScript := [0, 600] }

/-- The idle sample link, nothing pending, on which the second clock reading is
a full timeout period after the first. -/
def linkUpLate : GenieState := { linkUp with clockScript := [0, 500] }

/-- The sample link waiting for an Ack while the display sends one stray byte
(9) and then nothing; the clock readings to come are 0, 400, 401, 800 and 901
ms. -/
def linkUpStray : GenieState :=
  { linkUpIn GENIE_LINK_WFAN [9] with clockScript := [0, 400, 401, 800, 901] }

/-- The idle sample link with the event frame `[7, 0, 0, 0, 0, 1]` (its bytes
XOR to 6) and one further byte pending on the port. -/
def linkUpBadFrame : GenieState := { linkUp with rxScript := List.map some [7, 0, 0, 0, 0, 1, 0] }

/-- The statics as initialised at program start with a receive handler bound,
and the same seven bytes pending. -/
def initialBadFrame : GenieState :=
  { initialState visiGenie with
      getCharBound := true, rxScript := List.map some [7, 0, 0, 0, 0, 1, 0] }

/-- The idle sample link with three events pending in the queue (slots 0 to 2
hold report frames), nothing arriving on the port, and the clock readings 0, 1
and 600 ms to come. -/
def linkUpPending : GenieState :=
  { linkUp with
      _genieEventQueue :=
        { frames := [[5, 0, 0, 0, 1, 4], [5, 0, 1, 0, 2, 6], [5, 0, 2, 0, 3, 4]] ++
            List.replicate 13 [0, 0, 0, 0, 0, 0],
          rd_index := 0, wr_index := 3, n_events := 3 },
      clockScript := [0, 1, 600] }

/-- The sample link waiting for the Ack of an earlier command, nothing
arriving, entered 100 ms before the millisecond clock wraps at `2 ^ 32`; the
next reading is 1 ms later. -/
def linkUpBusyNearWrap : GenieState :=
  { linkUpIn GENIE_LINK_WFAN [] with clockScript := [4294967196, 4294967197] }

/-- The sample link receiving an event frame of which the marker is stored,
with the byte 3 of the frame pending and nothing after it; the clock readings
to come are 0, 400, 401, 800 and 901 ms. -/
def linkUpMidFrame : GenieState :=
  { linkUpIn GENIE_LINK_RXEVENT [3] with
      rxframe_count := 1, rx_data := [7, 0, 0, 0, 0, 0], checksum := 7,
      clockScript := [0, 400, 401, 800, 901] }

/-! ## Lemmas on bytes and on single calls of `genieDoEvents` -/

/-- Reading a list at an index other than the one just written. -/
theorem getD_set_ne {α : Type} (l : List α) (i j : Nat) (v d : α) (h : i ≠ j) :
    (l.set i v).getD j d = l.getD j d := by
  simp [List.getD, List.getElem?_set, h]

theorem mask_eq_mod (K : GenieConsts) (e : Nat) (hpow : K.MAX_GENIE_EVENTS = 2 ^ e) (x : Nat) :
    x &&& (K.MAX_GENIE_EVENTS - 1) = x % K.MAX_GENIE_EVENTS := by
  rw [hpow]; exact Nat.and_pow_two_sub_one_eq_mod x e

theorem slot_ne (M r i n : Nat) (hi : i < n) (hn : n < M) : (r + i) % M ≠ (r + n) % M := by
  intro h
  have h1 : i % M = n % M := Nat.ModEq.add_left_cancel' r h
  rw [Nat.mod_eq_of_lt (by omega), Nat.mod_eq_of_lt hn] at h1
  omega

theorem memcpy_frame (dst src : List Nat) (hd : dst.length = GENIE_FRAME_SIZE)
    (hs : src.length = GENIE_FRAME_SIZE) : memcpy dst src GENIE_FRAME_SIZE = src := by
  unfold memcpy
  rw [List.take_of_length_le (le_of_eq hs), List.drop_of_length_le (le_of_eq hd), List.append_nil]

theorem getD_slot_length (K : GenieConsts) (s : GenieState) (h : QueueInv K s) (i : Nat)
    (hi : i < K.MAX_GENIE_EVENTS) :
    (s._genieEventQueue.frames.getD i []).length = GENIE_FRAME_SIZE := by
  have hi2 : i < s._genieEventQueue.frames.length := by rw [h.1]; exact hi
  rw [List.getD_eq_getElem _ _ hi2]
  exact h.2.1 _ (List.getElem_mem hi2)

/-- One `_genieEnqueueEvent` below capacity appends the frame to the queued
frames and keeps the shape of the queue. -/
theorem _genieEnqueueEvent_queued (K : GenieConsts) (e : Nat) (hpow : K.MAX_GENIE_EVENTS = 2 ^ e)
    (s : GenieState) (f : List Nat) (hinv : QueueInv K s) (hf : f.length = GENIE_FRAME_SIZE)
    (hroom : s._genieEventQueue.n_events < K.MAX_GENIE_EVENTS - 2) :
    (_genieEnqueueEvent K f s).2 = true ∧
    QueueInv K (_genieEnqueueEvent K f s).1 ∧
    (_genieEnqueueEvent K f s).1._genieEventQueue.n_events = s._genieEventQueue.n_events + 1 ∧
    queued K (_genieEnqueueEvent K f s).1 = queued K s ++ [f] := by
  obtain ⟨h1, h2, h3, h4⟩ := hinv
  have hM : 0 < K.MAX_GENIE_EVENTS := by omega
  have hwr : s._genieEventQueue.wr_index < K.MAX_GENIE_EVENTS := by rw [h4]; exact Nat.mod_lt _ hM
  have hm := memcpy_frame (s._genieEventQueue.frames.getD s._genieEventQueue.wr_index []) f
    (getD_slot_length K s ⟨h1, h2, h3, h4⟩ _ hwr) hf
  simp only [_genieEnqueueEvent, hroom, if_true, hm, mask_eq_mod K e hpow]
  refine ⟨trivial, ⟨?_, ?_, h3, ?_⟩, trivial, ?_⟩
  · simp [h1]
  · intro g hg
    rcases List.mem_or_eq_of_mem_set hg with h | h
    · exact h2 g h
    · rw [h]; exact hf
  · show (s._genieEventQueue.wr_index + 1) % K.MAX_GENIE_EVENTS = _
    rw [h4, Nat.mod_add_mod, Nat.add_assoc]
  · simp only [queued]
    rw [List.range_succ, List.map_append]
    congr 1
    · apply List.map_congr_left
      intro i hi
      rw [List.mem_range] at hi
      apply getD_set_ne
      rw [h4]
      exact fun h => slot_ne _ _ i _ hi (by omega) h.symm
    · simp only [List.map_cons, List.map_nil]
      rw [← h4]
      simp [List.getD, h1, hwr]

/-- One `genieDequeueEvent` on a non-empty queue returns the oldest frame and
`TRUE`, and removes that frame from the queued frames. -/
theorem genieDequeueEvent_queued (K : GenieConsts) (e : Nat) (hpow : K.MAX_GENIE_EVENTS = 2 ^ e)
    (s : GenieState) (buff : List Nat) (hinv : QueueInv K s)
    (hbuff : buff.length = GENIE_FRAME_SIZE) (hn : 0 < s._genieEventQueue.n_events) :
    ∃ f, queued K s = f :: queued K (genieDequeueEvent K buff s).1 ∧
      (genieDequeueEvent K buff s).2 = (f, true) ∧ f.length = GENIE_FRAME_SIZE ∧
      QueueInv K (genieDequeueEvent K buff s).1 ∧
      (genieDequeueEvent K buff s).1._genieEventQueue.n_events =
        s._genieEventQueue.n_events - 1 := by
  obtain ⟨h1, h2, h3, h4⟩ := hinv
  have hM : 0 < K.MAX_GENIE_EVENTS := by omega
  have hlen := getD_slot_length K s ⟨h1, h2, h3, h4⟩ _ h3
  have hm := memcpy_frame buff (s._genieEventQueue.frames.getD s._genieEventQueue.rd_index [])
    hbuff hlen
  have hd : genieDequeueEvent K buff s =
      ({ s with _genieEventQueue := { s._genieEventQueue with
            rd_index := (s._genieEventQueue.rd_index + 1) % K.MAX_GENIE_EVENTS,
            n_events := s._genieEventQueue.n_events - 1 } },
        s._genieEventQueue.frames.getD s._genieEventQueue.rd_index [], true) := by
    simp only [genieDequeueEvent, hn, gt_iff_lt, if_true, hm, mask_eq_mod K e hpow]
  rw [hd]
  refine ⟨s._genieEventQueue.frames.getD s._genieEventQueue.rd_index [], ?_, rfl, hlen, ?_, rfl⟩
  · obtain ⟨n, hn1⟩ : ∃ n, s._genieEventQueue.n_events = n + 1 :=
      ⟨_, (Nat.succ_pred_eq_of_pos hn).symm⟩
    simp only [queued, hn1, Nat.add_sub_cancel]
    rw [List.range_succ_eq_map, List.map_cons, List.map_map]
    congr 1
    · rw [Nat.add_zero, Nat.mod_eq_of_lt h3]
    · apply List.map_congr_left
      intro i _
      simp only [Function.comp, Nat.succ_eq_add_one]
      rw [Nat.mod_add_mod, Nat.add_assoc, Nat.add_comm 1 i]
  · refine ⟨h1, h2, Nat.mod_lt _ hM, ?_⟩
    show s._genieEventQueue.wr_index = _
    rw [h4, Nat.mod_add_mod]
    congr 1
    show s._genieEventQueue.rd_index + s._genieEventQueue.n_events =
      s._genieEventQueue.rd_index + 1 + (s._genieEventQueue.n_events - 1)
    omega

/-- `genieDequeueEvent` on an empty queue returns `FALSE` and changes nothing. -/
theorem genieDequeueEvent_empty (K : GenieConsts) (s : GenieState) (buff : List Nat)
    (hn : s._genieEventQueue.n_events = 0) :
    genieDequeueEvent K buff s = (s, buff, false) := by
  simp [genieDequeueEvent, hn]

/-- Enqueueing frames that fit appends them all, each call returning `TRUE`. -/
theorem enqueueAll_queued (K : GenieConsts) (e : Nat) (hpow : K.MAX_GENIE_EVENTS = 2 ^ e) :
    ∀ (fs : List (List Nat)) (s : GenieState), QueueInv K s →
      (∀ f ∈ fs, f.length = GENIE_FRAME_SIZE) →
      s._genieEventQueue.n_events + fs.length ≤ K.MAX_GENIE_EVENTS - 2 →
      (enqueueAll K fs s).2 = fs.map (fun _ => true) ∧
      QueueInv K (enqueueAll K fs s).1 ∧
      (enqueueAll K fs s).1._genieEventQueue.n_events = s._genieEventQueue.n_events + fs.length ∧
      queued K (enqueueAll K fs s).1 = queued K s ++ fs
  | [], s, hinv, _, _ => by simp [enqueueAll, hinv]
  | f :: fs, s, hinv, hfs, hk => by
    simp only [List.length_cons] at hk
    obtain ⟨a1, a2, a3, a4⟩ := _genieEnqueueEvent_queued K e hpow s f hinv
      (hfs f (List.mem_cons_self _ _)) (by omega)
    obtain ⟨b1, b2, b3, b4⟩ := enqueueAll_queued K e hpow fs (_genieEnqueueEvent K f s).1 a2
      (fun g hg => hfs g (List.mem_cons_of_mem _ hg)) (by rw [a3]; omega)
    simp only [enqueueAll, List.map_cons, List.length_cons]
    refine ⟨by rw [a1, b1], b2, by rw [b3, a3]; omega, by rw [b4, a4]; simp⟩

/-- Dequeueing as many times as there are queued frames returns them oldest
first, each call returning `TRUE`, and leaves the queue empty. -/
theorem dequeueTimes_queued (K : GenieConsts) (e : Nat) (hpow : K.MAX_GENIE_EVENTS = 2 ^ e) :
    ∀ (n : Nat) (buff : List Nat) (s : GenieState), QueueInv K s →
      buff.length = GENIE_FRAME_SIZE →
      s._genieEventQueue.n_events = n →
      (dequeueTimes K n buff s).1 = (queued K s).map (fun f => (f, true)) ∧
      (dequeueTimes K n buff s).2._genieEventQueue.n_events = 0
  | 0, buff, s, _, _, hn => by simp [dequeueTimes, queued, hn]
  | n + 1, buff, s, hinv, hbuff, hn => by
    obtain ⟨f, a1, a2, a3, a4, a5⟩ := genieDequeueEvent_queued K e hpow s buff hinv hbuff
      (by omega)
    have hb : (genieDequeueEvent K buff s).2.1 = f := by rw [a2]
    obtain ⟨b1, b2⟩ := dequeueTimes_queued K e hpow n (genieDequeueEvent K buff s).2.1
      (genieDequeueEvent K buff s).1 a4 (by rw [hb]; exact a3) (by rw [a5, hn]; rfl)
    simp only [dequeueTimes]
    refine ⟨?_, b2⟩
    rw [b1, a1, List.map_cons, a2]

/-- The outcome of dequeueing depends on the queue alone. -/
theorem dequeueTimes_congr (K : GenieConsts) :
    ∀ (n : Nat) (buff : List Nat) (s t : GenieState), s._genieEventQueue = t._genieEventQueue →
      (dequeueTimes K n buff s).1 = (dequeueTimes K n buff t).1 ∧
      (dequeueTimes K n buff s).2._genieEventQueue = (dequeueTimes K n buff t).2._genieEventQueue
  | 0, _, _, _, h => ⟨rfl, h⟩
  | n + 1, buff, s, t, h => by
    have h1 : (genieDequeueEvent K buff s).2 = (genieDequeueEvent K buff t).2 := by
      simp only [genieDequeueEvent, h]; split <;> rfl
    have h2 : (genieDequeueEvent K buff s).1._genieEventQueue =
        (genieDequeueEvent K buff t).1._genieEventQueue := by
      simp only [genieDequeueEvent, h]; split
      · rfl
      · exact h
    obtain ⟨a, b⟩ := dequeueTimes_congr K n (genieDequeueEvent K buff s).2.1
      (genieDequeueEvent K buff s).1 (genieDequeueEvent K buff t).1 h2
    simp only [dequeueTimes]
    rw [← h1]
    exact ⟨by rw [a], b⟩

theorem xor_byte (a b : Nat) (ha : a < 256) (hb : b < 256) : a ^^^ b < 256 := by
  have := @Nat.xor_lt_two_pow a b 8 (by simpa using ha) (by simpa using hb)
  simpa using this

theorem WellFormed.nochar {K : GenieConsts} (hK : K.WellFormed) : K.ERROR_NONE ≠ K.ERROR_NOCHAR :=
  fun h => hK.2.2.2.2.2.2.2.2.2.2.2.2.2.2.2.1 h.symm

/-- With a handler bound and a byte at the head of the script, `_genieGetchar`
returns that byte and leaves `ERROR_NONE`. -/
theorem _genieGetchar_byte (K : GenieConsts) (s : GenieState) (b : Nat) (rest : List (Option Nat))
    (hget : s.getCharBound = true) (hrx : s.rxScript = some b :: rest) (hb : b < 256) :
    _genieGetchar K s = (b, { s with _genieError := K.ERROR_NONE, rxScript := rest }) := by
  simp [_genieGetchar, _genieGetchar_Serial, hget, hrx, toU8, Nat.mod_eq_of_lt hb]

/-- In a receiving state the `switch` goes straight to the accumulation. -/
theorem genieDoEvents_switch_rx (K : GenieConsts) (c : Nat) (s : GenieState)
    (hstate : _genieGetLinkState s = GENIE_LINK_RXREPORT ∨ _genieGetLinkState s = GENIE_LINK_RXEVENT) :
    genieDoEvents_switch K c s = .ok (.accumulate s) := by
  unfold genieDoEvents_switch
  rcases hstate with h | h <;> rw [h] <;>
    simp [GENIE_LINK_IDLE, GENIE_LINK_WFAN, GENIE_LINK_WF_RXREPORT, GENIE_LINK_RXREPORT,
      GENIE_LINK_RXEVENT]

/-- Accumulation of a byte that is not the last of its frame. -/
theorem genieDoEvents_accumulate_mid (K : GenieConsts) (c : Nat) (s : GenieState)
    (hstate : _genieGetLinkState s = GENIE_LINK_RXREPORT ∨ _genieGetLinkState s = GENIE_LINK_RXEVENT)
    (hcount : s.rxframe_count < 5) :
    genieDoEvents_accumulate K c s = .ok ({ s with
        checksum := if s.rxframe_count = 0 then c else toU8 (s.checksum ^^^ c),
        rx_data := s.rx_data.set s.rxframe_count c,
        rxframe_count := s.rxframe_count + 1 }, K.GENIE_EVENT_RXCHAR) := by
  have hc1 : s.rxframe_count < 6 := by omega
  have hc2 : s.rxframe_count ≠ 5 := by omega
  have hc3 : (s.rxframe_count + 1) % 256 = s.rxframe_count + 1 := by omega
  unfold genieDoEvents_accumulate
  rw [if_pos hstate]
  simp [hc1, hc2, hc3, GENIE_FRAME_SIZE, toU8]

/-- Accumulation of the last byte of a frame whose checksum comes out zero. -/
theorem genieDoEvents_accumulate_last_good (K : GenieConsts) (c : Nat) (s : GenieState)
    (hstate : _genieGetLinkState s = GENIE_LINK_RXREPORT ∨ _genieGetLinkState s = GENIE_LINK_RXEVENT)
    (hcount : s.rxframe_count = 5) (hcs : toU8 (s.checksum ^^^ c) = 0) :
    genieDoEvents_accumulate K c s = .ok (_geniePopLinkState
        { (_genieEnqueueEvent K (s.rx_data.set 5 c)
            { s with checksum := 0, rx_data := s.rx_data.set 5 c }).1 with rxframe_count := 0 },
        K.GENIE_EVENT_RXCHAR) := by
  unfold genieDoEvents_accumulate
  rw [if_pos hstate]
  simp [hcount, GENIE_FRAME_SIZE, hcs]

/-- Accumulation of the last byte of a frame whose checksum comes out non-zero. -/
theorem genieDoEvents_accumulate_last_bad (K : GenieConsts) (c : Nat) (s : GenieState)
    (hstate : _genieGetLinkState s = GENIE_LINK_RXREPORT ∨ _genieGetLinkState s = GENIE_LINK_RXEVENT)
    (hcount : s.rxframe_count = 5) (hcs : toU8 (s.checksum ^^^ c) ≠ 0) :
    genieDoEvents_accumulate K c s = .ok ({ s with
        checksum := toU8 (s.checksum ^^^ c),
        rx_data := s.rx_data.set 5 c,
        _genieError := K.ERROR_BAD_CS,
        rxframe_count := 6 }, K.GENIE_EVENT_RXCHAR) := by
  have hcs2 : ¬ (s.checksum ^^^ c) % 256 = 0 := hcs
  unfold genieDoEvents_accumulate
  rw [if_pos hstate]
  simp [hcount, GENIE_FRAME_SIZE, hcs2, _handleError, toU8]

/-- A call of `genieDoEvents` that finds a byte in a receiving state is the
accumulation of that byte. -/
theorem genieDoEvents_rx (K : GenieConsts) (hK : K.WellFormed) (s : GenieState)
    (b : Nat) (rest : List (Option Nat))
    (hstate : _genieGetLinkState s = GENIE_LINK_RXREPORT ∨ _genieGetLinkState s = GENIE_LINK_RXEVENT)
    (hget : s.getCharBound = true) (hrx : s.rxScript = some b :: rest) (hb : b < 256) :
    genieDoEvents K s =
      genieDoEvents_accumulate K b { s with _genieError := K.ERROR_NONE, rxScript := rest } := by
  have hsw := genieDoEvents_switch_rx K b { s with _genieError := K.ERROR_NONE, rxScript := rest } hstate
  unfold genieDoEvents
  rw [_genieGetchar_byte K s b rest hget hrx hb]
  simp only [hsw, WellFormed.nochar hK, if_false]

theorem xorAll_cons (b : Nat) (bs : List Nat) : xorAll (b :: bs) = b ^^^ xorAll bs := by
  unfold xorAll
  have h : ∀ (l : List Nat) (a : Nat), l.foldl (fun a b => a ^^^ b) a = a ^^^ l.foldl (fun a b => a ^^^ b) 0 := by
    intro l
    induction l with
    | nil => intro a; simp
    | cons x xs ih => intro a; simp only [List.foldl_cons]; rw [ih (a ^^^ x), ih (0 ^^^ x)]; simp [Nat.xor_assoc]
  simp only [List.foldl_cons]
  rw [h bs (0 ^^^ b)]; simp

theorem genieDoEvents_rxStore (K : GenieConsts) (hK : K.WellFormed) (s : GenieState)
    (b : Nat) (rest : List (Option Nat))
    (hstate : _genieGetLinkState s = GENIE_LINK_RXREPORT ∨ _genieGetLinkState s = GENIE_LINK_RXEVENT)
    (hget : s.getCharBound = true) (hrx : s.rxScript = some b :: rest) (hb : b < 256)
    (hcount : s.rxframe_count < 5) :
    genieDoEvents K s = .ok (rxStore K b s, K.GENIE_EVENT_RXCHAR) := by
  rw [genieDoEvents_rx K hK s b rest hstate hget hrx hb,
    genieDoEvents_accumulate_mid K b { s with _genieError := K.ERROR_NONE, rxScript := rest } hstate hcount]
  simp [rxStore, hrx]

theorem genieDoEvents_rxDeliver (K : GenieConsts) (hK : K.WellFormed) (s : GenieState)
    (b : Nat) (rest : List (Option Nat))
    (hstate : _genieGetLinkState s = GENIE_LINK_RXREPORT ∨ _genieGetLinkState s = GENIE_LINK_RXEVENT)
    (hget : s.getCharBound = true) (hrx : s.rxScript = some b :: rest) (hb : b < 256)
    (hcount : s.rxframe_count = 5) (hcs : toU8 (s.checksum ^^^ b) = 0) :
    genieDoEvents K s = .ok (rxDeliver K b s, K.GENIE_EVENT_RXCHAR) := by
  rw [genieDoEvents_rx K hK s b rest hstate hget hrx hb,
    genieDoEvents_accumulate_last_good K b { s with _genieError := K.ERROR_NONE, rxScript := rest } hstate hcount hcs]
  simp [rxDeliver, hrx]

theorem toU8_xor (a b : Nat) (ha : a < 256) (hb : b < 256) : toU8 (a ^^^ b) = a ^^^ b :=
  Nat.mod_eq_of_lt (xor_byte a b ha hb)

theorem genieDoEvents_rxReject (K : GenieConsts) (hK : K.WellFormed) (s : GenieState)
    (b : Nat) (rest : List (Option Nat))
    (hstate : _genieGetLinkState s = GENIE_LINK_RXREPORT ∨ _genieGetLinkState s = GENIE_LINK_RXEVENT)
    (hget : s.getCharBound = true) (hrx : s.rxScript = some b :: rest) (hb : b < 256)
    (hcount : s.rxframe_count = 5) (hcs : toU8 (s.checksum ^^^ b) ≠ 0) :
    genieDoEvents K s = .ok (rxReject K b s, K.GENIE_EVENT_RXCHAR) := by
  rw [genieDoEvents_rx K hK s b rest hstate hget hrx hb,
    genieDoEvents_accumulate_last_bad K b { s with _genieError := K.ERROR_NONE, rxScript := rest } hstate hcount hcs]
  simp [rxReject, hrx]

theorem genieDoEventsTimes_succ (K : GenieConsts) (n : Nat) (s : GenieState) :
    genieDoEventsTimes K (n + 1) s =
      match genieDoEvents K s with
      | .error e => .error e
      | .ok (s1, _) => genieDoEventsTimes K n s1 := rfl

/-- Feeding bytes that stay before the last frame position stores them one by
one. -/
theorem genieDoEventsTimes_rxStore (K : GenieConsts) (hK : K.WellFormed) (m : Nat) :
    ∀ (bs : List Nat) (s : GenieState) (rest : List (Option Nat)),
      (_genieGetLinkState s = GENIE_LINK_RXREPORT ∨ _genieGetLinkState s = GENIE_LINK_RXEVENT) →
      s.getCharBound = true → s.rxScript = bs.map some ++ rest → (∀ b ∈ bs, b < 256) →
      s.rxframe_count + bs.length ≤ 5 →
      genieDoEventsTimes K (bs.length + m) s =
        genieDoEventsTimes K m (bs.foldl (fun t b => rxStore K b t) s)
  | [], s, rest, _, _, _, _, _ => by simp
  | b :: bs, s, rest, hstate, hget, hrx, hbytes, hcount => by
    have hb : b < 256 := hbytes b (List.mem_cons_self _ _)
    have hlen : (b :: bs).length + m = (bs.length + m) + 1 := by simp; omega
    simp only [List.length_cons] at hcount
    rw [hlen, genieDoEventsTimes_succ,
      genieDoEvents_rxStore K hK s b (bs.map some ++ rest) hstate hget (by simpa using hrx) hb
        (by omega)]
    simp only [List.foldl_cons]
    exact genieDoEventsTimes_rxStore K hK m bs (rxStore K b s) rest hstate hget
      (by simp [rxStore, hrx]) (fun x hx => hbytes x (List.mem_cons_of_mem _ hx))
      (by simp only [rxStore]; omega)

theorem xor5_byte (b0 b1 b2 b3 b4 : Nat) (h0 : b0 < 256) (h1 : b1 < 256) (h2 : b2 < 256)
    (h3 : b3 < 256) (h4 : b4 < 256) :
    toU8 (toU8 (toU8 (toU8 (b0 ^^^ b1) ^^^ b2) ^^^ b3) ^^^ b4) = b0 ^^^ b1 ^^^ b2 ^^^ b3 ^^^ b4 ∧
      b0 ^^^ b1 ^^^ b2 ^^^ b3 ^^^ b4 < 256 := by
  have x1 := xor_byte b0 b1 h0 h1
  have x2 := xor_byte _ b2 x1 h2
  have x3 := xor_byte _ b3 x2 h3
  have x4 := xor_byte _ b4 x3 h4
  rw [toU8_xor b0 b1 h0 h1, toU8_xor _ b2 x1 h2, toU8_xor _ b3 x2 h3, toU8_xor _ b4 x3 h4]
  exact ⟨rfl, x4⟩

/-- Closed form of the state after a whole valid frame has been fed in a
receiving state. -/
theorem genieDoEventsTimes_frame_closed (K : GenieConsts) (hK : K.WellFormed) (s : GenieState) (F : List Nat)
    (rest : List (Option Nat))
    (hlen : F.length = 6) (hbytes : ∀ b ∈ F, b < 256) (hxor : xorAll F = 0)
    (hstate : _genieGetLinkState s = GENIE_LINK_RXREPORT ∨ _genieGetLinkState s = GENIE_LINK_RXEVENT)
    (hcount : s.rxframe_count = 0)
    (hget : s.getCharBound = true)
    (hrx : s.rxScript = F.map some ++ rest)
    (hbuf : s.rx_data.length = 6) :
    genieDoEventsTimes K 6 s = .ok (_geniePopLinkState
        { (_genieEnqueueEvent K F
            { s with checksum := 0, rx_data := F, _genieError := K.ERROR_NONE, rxScript := rest,
                     rxframe_count := 5 }).1 with rxframe_count := 0 }) := by
  match F, hlen with
  | [b0, b1, b2, b3, b4, b5], _ =>
    have hb := hbytes
    simp only [List.mem_cons, List.mem_singleton, forall_eq_or_imp, forall_eq, List.not_mem_nil,
      false_imp_iff, implies_true, and_true] at hb
    obtain ⟨h0, h1, h2, h3, h4, h5⟩ := hb
    have hrun := genieDoEventsTimes_rxStore K hK 1 [b0, b1, b2, b3, b4] s (some b5 :: rest) hstate
      hget (by simpa using hrx) (fun b hb => hbytes b (by simp at hb ⊢; tauto)) (by simp [hcount])
    have hx := xor5_byte b0 b1 b2 b3 b4 h0 h1 h2 h3 h4
    have e5 := genieDoEvents_rxDeliver K hK
      ([b0, b1, b2, b3, b4].foldl (fun t b => rxStore K b t) s) b5 rest
      hstate hget (by simp [rxStore, hrx]) h5 (by simp [rxStore, hcount])
      (by
        simp only [List.foldl, rxStore, hcount]
        simp only [Nat.zero_add, Nat.reduceAdd, OfNat.ofNat_ne_zero, one_ne_zero, if_true, if_false, hx.1]
        rw [toU8_xor _ b5 hx.2 h5]
        simpa [xorAll] using hxor)
    have h6 : (6 : Nat) = [b0, b1, b2, b3, b4].length + 1 := rfl
    rw [h6, hrun, genieDoEventsTimes_succ, e5]
    match hr : s.rx_data, hbuf with
    | [r0, r1, r2, r3, r4, r5], _ =>
      simp [genieDoEventsTimes, rxDeliver, rxStore, hr, hcount, hrx]

/-- A whole valid frame fed in a receiving state is enqueued once and the link
state popped. -/
theorem genieDoEventsTimes_frame (K : GenieConsts) (hK : K.WellFormed) (s : GenieState)
    (F : List Nat) (rest : List (Option Nat))
    (hlay : s.Layout K) (hget : s.getCharBound = true)
    (hlen : F.length = 6) (hbytes : ∀ b ∈ F, b < 256) (hxor : xorAll F = 0)
    (hstate : _genieGetLinkState s = GENIE_LINK_RXREPORT ∨ _genieGetLinkState s = GENIE_LINK_RXEVENT)
    (hcount : s.rxframe_count = 0)
    (hsp : 0 < s._genieLinkState)
    (hroom : s._genieEventQueue.n_events < K.MAX_GENIE_EVENTS - 2)
    (hwr : s._genieEventQueue.wr_index < K.MAX_GENIE_EVENTS)
    (hrx : s.rxScript = F.map some ++ rest) :
    ∃ s1, genieDoEventsTimes K 6 s = .ok s1 ∧
      s1._genieEventQueue.n_events = s._genieEventQueue.n_events + 1 ∧
      s1._genieEventQueue.frames = s._genieEventQueue.frames.set s._genieEventQueue.wr_index F ∧
      s1._genieEventQueue.frames.getD s._genieEventQueue.wr_index [] = F ∧
      s1._genieEventQueue.rd_index = s._genieEventQueue.rd_index ∧
      s1._genieEventQueue.wr_index =
        (s._genieEventQueue.wr_index + 1) &&& (K.MAX_GENIE_EVENTS - 1) ∧
      s1.rxframe_count = 0 ∧
      s1._genieLinkState = s._genieLinkState - 1 ∧
      _genieGetLinkState s1 = s._genieLinkStates.getD (s._genieLinkState - 1) 0 ∧
      (∀ i, i < s._genieLinkState → s1._genieLinkStates.getD i 0 = s._genieLinkStates.getD i 0) ∧
      s1.rxScript = rest := by
  obtain ⟨hl1, hl2, hl3, hl4⟩ := hlay
  refine ⟨_, genieDoEventsTimes_frame_closed K hK s F rest hlen hbytes hxor hstate hcount hget hrx hl2, ?_⟩
  have hslot : (s._genieEventQueue.frames.getD s._genieEventQueue.wr_index []).length = 6 := by
    have hi : s._genieEventQueue.wr_index < s._genieEventQueue.frames.length := by omega
    rw [List.getD_eq_getElem _ _ hi]
    exact hl4 _ (List.getElem_mem hi)
  have hm : memcpy (s._genieEventQueue.frames.getD s._genieEventQueue.wr_index []) F
      GENIE_FRAME_SIZE = F := by
    unfold memcpy GENIE_FRAME_SIZE
    rw [List.take_of_length_le (le_of_eq hlen), List.drop_of_length_le (le_of_eq hslot),
      List.append_nil]
  have hwr2 : s._genieEventQueue.wr_index < s._genieEventQueue.frames.length := by omega
  simp only [_genieEnqueueEvent, hroom, if_true, hm, _geniePopLinkState, hsp, gt_iff_lt,
    _genieGetLinkState]
  refine ⟨trivial, trivial, ?_, trivial, trivial, trivial, trivial, ?_, ?_, trivial⟩
  · simp [List.getD, hwr2]
  · apply getD_set_ne; omega
  · intro i hi; apply getD_set_ne; omega

theorem _geniePushLinkState_rxevent (s : GenieState) (hroom : s._genieLinkState + 1 < LINK_STACK_SIZE) :
    _geniePushLinkState GENIE_LINK_RXEVENT s = .ok (rxPushed s) := by
  simp [_geniePushLinkState, _genieSetLinkState, hroom, rxPushed, toU8, GENIE_LINK_RXEVENT,
    GENIE_LINK_RXREPORT]

theorem _genieGetLinkState_rxPushed (s : GenieState)
    (hlen : s._genieLinkStates.length = LINK_STACK_SIZE)
    (hroom : s._genieLinkState + 1 < LINK_STACK_SIZE) :
    _genieGetLinkState (rxPushed s) = GENIE_LINK_RXEVENT := by
  have h : s._genieLinkState + 1 < s._genieLinkStates.length := by omega
  simp [_genieGetLinkState, rxPushed, List.getD, h]

/-- In `GENIE_LINK_WFAN` or `GENIE_LINK_WF_RXREPORT` the report-event marker makes
the `switch` push `GENIE_LINK_RXEVENT` and go on to the accumulation. -/
theorem genieDoEvents_switch_interrupt (K : GenieConsts) (hK : K.WellFormed) (s : GenieState)
    (hS : _genieGetLinkState s = GENIE_LINK_WFAN ∨ _genieGetLinkState s = GENIE_LINK_WF_RXREPORT)
    (hroom : s._genieLinkState + 1 < LINK_STACK_SIZE) :
    genieDoEvents_switch K K.GENIE_REPORT_EVENT s = .ok (.accumulate (rxPushed s)) := by
  obtain ⟨_, _, _, _, _, h1, _, h2, _, _⟩ := hK
  unfold genieDoEvents_switch
  rcases hS with h | h <;> rw [h] <;>
    simp [GENIE_LINK_IDLE, GENIE_LINK_WFAN, GENIE_LINK_WF_RXREPORT, Ne.symm h1, Ne.symm h2,
      _geniePushLinkState_rxevent _ hroom, Except.map]

/-- The first byte of an event frame that interrupts a wait. -/
theorem genieDoEvents_interrupt (K : GenieConsts) (hK : K.WellFormed) (s : GenieState)
    (rest : List (Option Nat))
    (hS : _genieGetLinkState s = GENIE_LINK_WFAN ∨ _genieGetLinkState s = GENIE_LINK_WF_RXREPORT)
    (hlen : s._genieLinkStates.length = LINK_STACK_SIZE)
    (hroom : s._genieLinkState + 1 < LINK_STACK_SIZE)
    (hget : s.getCharBound = true) (hrx : s.rxScript = some K.GENIE_REPORT_EVENT :: rest) :
    genieDoEvents K s = .ok (rxStore K K.GENIE_REPORT_EVENT (rxPushed s), K.GENIE_EVENT_RXCHAR) := by
  have hb : K.GENIE_REPORT_EVENT < 256 := hK.2.2.1
  have hsw := genieDoEvents_switch_interrupt K hK
    { s with _genieError := K.ERROR_NONE, rxScript := rest } hS hroom
  unfold genieDoEvents
  rw [_genieGetchar_byte K s _ rest hget hrx hb]
  simp only [hsw, WellFormed.nochar hK, if_false]
  rw [genieDoEvents_accumulate_mid K _ _
    (Or.inr (_genieGetLinkState_rxPushed { s with _genieError := K.ERROR_NONE, rxScript := rest } hlen hroom))
    (by simp [rxPushed])]
  simp [rxStore, rxPushed, hrx]

theorem Layout_rxPushed (K : GenieConsts) (s : GenieState) (h : s.Layout K) : (rxPushed s).Layout K := by
  obtain ⟨h1, h2, h3, h4⟩ := h
  exact ⟨by simp [rxPushed, h1], h2, h3, h4⟩

/-! ## Nothing is transmitted while polling -/

theorem _genieGetchar_txView (K : GenieConsts) (s : GenieState) :
    txView (_genieGetchar K s).2 = txView s := by
  simp only [_genieGetchar, _genieGetchar_Serial]
  split
  · split <;> rfl
  · rfl

theorem _geniePopLinkState_txView (s : GenieState) : txView (_geniePopLinkState s) = txView s := by
  unfold _geniePopLinkState; split <;> rfl

theorem _geniePushLinkState_txView (n : Nat) (s t : GenieState)
    (h : _geniePushLinkState n s = .ok t) : txView t = txView s := by
  unfold _geniePushLinkState _genieSetLinkState at h
  split at h
  · split at h <;> (injection h with h; subst h; rfl)
  · exact absurd h (by simp)

theorem _genieEnqueueEvent_txView (K : GenieConsts) (d : List Nat) (s : GenieState) :
    txView (_genieEnqueueEvent K d s).1 = txView s := by
  simp only [_genieEnqueueEvent]; split <;> rfl

theorem _geniePopLinkState_txLog (s : GenieState) :
    (_geniePopLinkState s).txLog = s.txLog ∧
      (_geniePopLinkState s).putCharBound = s.putCharBound := by
  simp only [_geniePopLinkState]; split <;> exact ⟨rfl, rfl⟩

theorem _genieEnqueueEvent_txLog (K : GenieConsts) (d : List Nat) (s : GenieState) :
    (_genieEnqueueEvent K d s).1.txLog = s.txLog ∧
      (_genieEnqueueEvent K d s).1.putCharBound = s.putCharBound := by
  simp only [_genieEnqueueEvent]; split <;> exact ⟨rfl, rfl⟩

theorem map_ok {α β : Type} (f : α → β) (r : Run α) (b : β) (h : r.map f = .ok b) :
    ∃ a, r = .ok a ∧ f a = b := by
  cases r with
  | error e => simp [Except.map] at h
  | ok a => exact ⟨a, rfl, by simpa [Except.map] using h⟩

theorem genieDoEvents_switch_txView (K : GenieConsts) (c : Nat) (s : GenieState) (x : SwitchExit)
    (h : genieDoEvents_switch K c s = .ok x) : txView x.state = txView s := by
  unfold genieDoEvents_switch at h
  repeat' split at h
  all_goals first
    | (obtain ⟨a, ha, hx⟩ := map_ok _ _ _ h
       subst hx
       first
         | exact _geniePushLinkState_txView _ _ _ ha
         | exact (_geniePushLinkState_txView _ _ _ ha).trans (_geniePopLinkState_txView _))
    | (injection h with h; subst h
       first
         | rfl
         | exact _geniePopLinkState_txView _)

theorem genieDoEvents_accumulate_txView (K : GenieConsts) (c : Nat) (s t : GenieState) (r : Nat)
    (h : genieDoEvents_accumulate K c s = .ok (t, r)) : txView t = txView s := by
  simp only [genieDoEvents_accumulate] at h
  split_ifs at h <;> cases h <;>
    first
      | rfl
      | simp [txView, _geniePopLinkState_txLog, _genieEnqueueEvent_txLog]

theorem callUserHandler_txView (s t : GenieState) (h : callUserHandler s = .ok t) :
    txView t = txView s := by
  simp only [callUserHandler] at h
  split at h
  · injection h with h; subst h; rfl
  · exact absurd h (by simp)

/-- `genieDoEvents` transmits nothing and leaves the transmit handler alone. -/
theorem genieDoEvents_txView (K : GenieConsts) (s t : GenieState) (r : Nat)
    (h : genieDoEvents K s = .ok (t, r)) : txView t = txView s := by
  have hg := _genieGetchar_txView K s
  simp only [genieDoEvents] at h
  split at h
  · split at h
    · obtain ⟨a, ha, hx⟩ := map_ok _ _ _ h
      injection hx with h1 h2; subst h1
      exact (callUserHandler_txView _ _ ha).trans hg
    · injection h with h; injection h with h1 h2; subst h1; exact hg
  · split at h
    · exact absurd h (by simp)
    · rename_i s2 hsw
      injection h with h; injection h with h1 h2; subst h1
      exact (genieDoEvents_switch_txView K _ _ _ hsw).trans hg
    · rename_i s2 hsw
      exact (genieDoEvents_accumulate_txView K _ _ _ _ h).trans
        ((genieDoEvents_switch_txView K _ _ _ hsw).trans hg)

theorem millis_txView (s t : GenieState) (n : Nat) (h : millis s = .ok (n, t)) :
    txView t = txView s := by
  simp only [millis] at h
  split at h
  · injection h with h; injection h with h1 h2; subst h2; rfl
  · exact absurd h (by simp)

theorem _genieWaitForIdle_loop_txView (K : GenieConsts) :
    ∀ (fuel timeout : Nat) (s t : GenieState),
      _genieWaitForIdle_loop K fuel timeout s = .ok t → txView t = txView s
  | 0, _, _, _, h => absurd h (by simp [_genieWaitForIdle_loop])
  | fuel + 1, timeout, s, t, h => by
    simp only [_genieWaitForIdle_loop] at h
    split at h
    · exact absurd h (by simp)
    · rename_i now s1 hm
      have h1 := millis_txView _ _ _ hm
      split at h
      · split at h
        · exact absurd h (by simp)
        · rename_i s2 r hd
          have h2 := genieDoEvents_txView K _ _ _ hd
          split at h
          · split at h
            · exact absurd h (by simp)
            · rename_i t3 s3 hm3
              have h3 := millis_txView _ _ _ hm3
              split at h
              · injection h with h; subst h; exact h3.trans (h2.trans h1)
              · exact (_genieWaitForIdle_loop_txView K fuel _ _ _ h).trans (h3.trans (h2.trans h1))
          · split at h
            · injection h with h; subst h; exact h2.trans h1
            · exact (_genieWaitForIdle_loop_txView K fuel _ _ _ h).trans (h2.trans h1)
      · injection h with h; subst h; exact h1

/-- `_genieWaitForIdle` transmits nothing and leaves the transmit handler
alone. -/
theorem _genieWaitForIdle_txView (K : GenieConsts) (s t : GenieState)
    (h : _genieWaitForIdle K s = .ok t) : txView t = txView s := by
  simp only [_genieWaitForIdle] at h
  split at h
  · exact absurd h (by simp)
  · rename_i t0 s1 hm
    exact (_genieWaitForIdle_loop_txView K _ _ _ _ h).trans (millis_txView _ _ _ hm)

/-! ## Lemmas for the encoders -/

theorem xor_mod_two_pow (a b n : Nat) : (a ^^^ b) % 2 ^ n = (a % 2 ^ n) ^^^ (b % 2 ^ n) := by
  apply Nat.eq_of_testBit_eq
  intro i
  simp only [Nat.testBit_mod_two_pow, Nat.testBit_xor]
  by_cases h : i < n <;> simp [h]

theorem toU8_xor_toU8 (a b : Nat) : toU8 (a ^^^ b) = toU8 a ^^^ toU8 b :=
  xor_mod_two_pow a b 8

theorem toU8_toU8 (a : Nat) : toU8 (toU8 a) = toU8 a := Nat.mod_mod _ _

theorem toU8_toU16 (a : Nat) : toU8 (toU16 a) = toU8 a :=
  Nat.mod_mod_of_dvd a (by decide : 256 ∣ 65536)

theorem toU8_mod_uint (K : GenieConsts) (hK : K.WellFormed) (a : Nat) :
    toU8 (a % 2 ^ K.UINT_BITS) = toU8 a := by
  have h16 : 16 ≤ K.UINT_BITS := hK.2.2.2.2.2.2.2.2.2.2.2.2.2.2.2.2
  exact Nat.mod_mod_of_dvd a (Nat.pow_dvd_pow 2 (by omega : 8 ≤ K.UINT_BITS))

theorem toU8_charToUInt (K : GenieConsts) (hK : K.WellFormed) (b : Nat) :
    toU8 (charToUInt K b) = toU8 b := by
  have h16 : 16 ≤ K.UINT_BITS := hK.2.2.2.2.2.2.2.2.2.2.2.2.2.2.2.2
  unfold charToUInt
  split
  · rfl
  · obtain ⟨k, hk⟩ : ∃ k, 2 ^ K.UINT_BITS = 256 * k :=
      Nat.pow_dvd_pow 2 (by omega : 8 ≤ K.UINT_BITS)
    have hk1 : 1 ≤ k := by
      rcases k with _ | k
      · simp at hk
      · omega
    unfold toU8
    rw [hk]
    have : b + (256 * k - 256) = b + 256 * (k - 1) := by omega
    rw [this, Nat.add_mul_mod_self_left]

theorem lowByte_eq (w : Nat) : lowByte w = w % 256 := by
  unfold lowByte toU8
  have : w &&& 0xff = w % 2 ^ 8 := Nat.and_pow_two_sub_one_eq_mod w 8
  rw [this]; simp

theorem highByte_eq (w : Nat) (h : w < 65536) : highByte w = w / 256 := by
  unfold highByte toU8
  rw [Nat.shiftRight_eq_div_pow]
  have : w / 2 ^ 8 < 256 := by
    rw [Nat.div_lt_iff_lt_mul (by decide)]; omega
  exact Nat.mod_eq_of_lt this

theorem xorAll_append (l : List Nat) (x : Nat) : xorAll (l ++ [x]) = xorAll l ^^^ x := by
  simp [xorAll, List.foldl_append]

theorem _geniePutchar_bound (c : Nat) (s : GenieState) (h : s.putCharBound = true) :
    _geniePutchar c s = { s with txLog := s.txLog ++ [toU8 c] } := by
  simp [_geniePutchar, h]

theorem _geniePushLinkState_txLog (n : Nat) (s : GenieState) :
    (Run.finalState (_geniePushLinkState n s)).txLog = s.txLog := by
  simp only [_geniePushLinkState, _genieSetLinkState]
  split
  · split <;> rfl
  · rfl

theorem toU8_of_lt (a : Nat) (h : a < 256) : toU8 a = a := Nat.mod_eq_of_lt h

theorem endState_map {α β : Type} (r : Run (GenieState × α)) (f : GenieState × α → GenieState × β)
    (hf : ∀ x, (f x).1 = x.1) : Run.endState (r.map f) = Run.endState r := by
  cases r with
  | error e => rfl
  | ok a => exact hf a

theorem endState_map_state {α : Type} (r : Run GenieState) (a : α) :
    Run.endState (r.map fun s => (s, a)) = Run.finalState r := by
  cases r with
  | error e => rfl
  | ok s => rfl

theorem cstring_lt (string : List Nat) : ∀ b ∈ cstring string, b < 256 := by
  intro b hb
  have h1 := (List.takeWhile_sublist _).subset hb
  rw [List.mem_map] at h1
  obtain ⟨a, _, ha⟩ := h1
  rw [← ha]
  exact Nat.mod_lt _ (by decide)

/-- A list of non-zero bytes is its own C string. -/
theorem cstring_eq_self (string : List Nat) (h : ∀ b ∈ string, 0 < b ∧ b < 256) :
    cstring string = string := by
  unfold cstring
  have h1 : string.map toU8 = string := by
    conv_rhs => rw [← List.map_id string]
    apply List.map_congr_left
    intro b hb
    exact Nat.mod_eq_of_lt (h b hb).2
  rw [h1, List.takeWhile_eq_self_iff]
  intro b hb
  have := (h b hb).1
  simp; omega

/-- The character loop of `_genieWriteStrX` sends the characters in order and
folds their low bytes into the low byte of the checksum. -/
theorem _genieWriteStrX_loop_spec (K : GenieConsts) (hK : K.WellFormed) :
    ∀ (bs : List Nat) (checksum : Nat) (s : GenieState), s.putCharBound = true →
      (∀ b ∈ bs, b < 256) →
      (_genieWriteStrX_loop K bs checksum s).2.txLog = s.txLog ++ bs ∧
      (_genieWriteStrX_loop K bs checksum s).2.putCharBound = true ∧
      toU8 (_genieWriteStrX_loop K bs checksum s).1 = toU8 checksum ^^^ xorAll bs
  | [], checksum, s, hput, _ => by simp [_genieWriteStrX_loop, hput, xorAll]
  | b :: bs, checksum, s, hput, hbs => by
    have hb : b < 256 := hbs b (List.mem_cons_self _ _)
    obtain ⟨h1, h2, h3⟩ := _genieWriteStrX_loop_spec K hK bs
      ((checksum ^^^ charToUInt K b) % 2 ^ K.UINT_BITS) (_geniePutchar b s)
      (by simp [_geniePutchar, hput]) (fun x hx => hbs x (List.mem_cons_of_mem _ hx))
    simp only [_genieWriteStrX_loop]
    refine ⟨?_, h2, ?_⟩
    · rw [h1]; simp [_geniePutchar, hput, toU8_of_lt b hb]
    · rw [h3, toU8_mod_uint K hK, toU8_xor_toU8, toU8_charToUInt K hK, toU8_of_lt b hb,
        xorAll_cons, Nat.xor_assoc]

/-- The bytes `_genieWriteStrX` transmits for a string of at most 255
characters. -/
theorem _genieWriteStrX_bytes (K : GenieConsts) (hK : K.WellFormed) (code index : Nat)
    (string : List Nat) (s s1 : GenieState) (hcode : code < 256)
    (hlen : strlen string ≤ 255)
    (hput : s.putCharBound = true) (hwait : _genieWaitForIdle K s = .ok s1) :
    (Run.endState (_genieWriteStrX K code index string s)).txLog =
      s.txLog ++ ([code, index % 256, strlen string] ++ cstring string ++
        [xorAll ([code, index % 256, strlen string] ++ cstring string)]) := by
  have hv := _genieWaitForIdle_txView K s s1 hwait
  simp only [txView, Prod.mk.injEq] at hv
  obtain ⟨hlog, hb⟩ := hv
  rw [hput] at hb
  have hnot : ¬ strlen string > 255 := by omega
  simp only [_genieWriteStrX, hnot, if_false, hwait, endState_map_state,
    _geniePushLinkState_txLog]
  obtain ⟨h1, h2, h3⟩ := _genieWriteStrX_loop_spec K hK (cstring string)
    (((toU16 code % 2 ^ K.UINT_BITS ^^^ toU16 index) % 2 ^ K.UINT_BITS ^^^ strlen string) %
      2 ^ K.UINT_BITS)
    (_geniePutchar (toU8 (strlen string)) (_geniePutchar (toU16 index) (_geniePutchar (toU16 code) s1)))
    (by simp [_geniePutchar, hb]) (cstring_lt string)
  rw [_geniePutchar_bound _ _ h2]
  simp only [h1, h3]
  simp only [_geniePutchar, hb, if_true, hlog, toU8_mod_uint K hK, toU8_xor_toU8, toU8_toU8,
    toU8_toU16, toU8_of_lt _ hcode, toU8_of_lt (strlen string) (by omega)]
  simp [xorAll_cons, toU8, Nat.xor_assoc]

/-- In `GENIE_LINK_WFAN` neither Ack nor Nak is the report-event marker, so the
`switch` returns after popping. -/
theorem genieDoEvents_ack (K : GenieConsts) (hK : K.WellFormed) (s : GenieState)
    (rest : List (Option Nat))
    (hstate : _genieGetLinkState s = GENIE_LINK_WFAN)
    (hget : s.getCharBound = true) (hrx : s.rxScript = some K.GENIE_ACK :: rest) :
    genieDoEvents K s =
      .ok (_geniePopLinkState { s with _genieError := K.ERROR_NONE, rxScript := rest },
        K.GENIE_EVENT_RXCHAR) := by
  have hsw : genieDoEvents_switch K K.GENIE_ACK
      { s with _genieError := K.ERROR_NONE, rxScript := rest } =
      .ok (.returned (_geniePopLinkState { s with _genieError := K.ERROR_NONE, rxScript := rest })) := by
    unfold genieDoEvents_switch
    rw [show _genieGetLinkState { s with _genieError := K.ERROR_NONE, rxScript := rest } =
      GENIE_LINK_WFAN from hstate]
    simp [GENIE_LINK_WFAN, GENIE_LINK_IDLE]
  unfold genieDoEvents
  rw [_genieGetchar_byte K s _ rest hget hrx hK.1]
  simp only [hsw, WellFormed.nochar hK, if_false]

theorem genieDoEvents_nak (K : GenieConsts) (hK : K.WellFormed) (s : GenieState)
    (rest : List (Option Nat))
    (hstate : _genieGetLinkState s = GENIE_LINK_WFAN)
    (hget : s.getCharBound = true) (hrx : s.rxScript = some K.GENIE_NAK :: rest) :
    genieDoEvents K s =
      .ok ({ _geniePopLinkState { s with _genieError := K.ERROR_NONE, rxScript := rest } with
              _genieError := K.ERROR_NAK },
        K.GENIE_EVENT_RXCHAR) := by
  have hne : K.GENIE_NAK ≠ K.GENIE_ACK := Ne.symm hK.2.2.2.2.1
  have hsw : genieDoEvents_switch K K.GENIE_NAK
      { s with _genieError := K.ERROR_NONE, rxScript := rest } =
      .ok (.returned ({ _geniePopLinkState { s with _genieError := K.ERROR_NONE, rxScript := rest }
        with _genieError := K.ERROR_NAK })) := by
    unfold genieDoEvents_switch
    rw [show _genieGetLinkState { s with _genieError := K.ERROR_NONE, rxScript := rest } =
      GENIE_LINK_WFAN from hstate]
    simp [GENIE_LINK_WFAN, GENIE_LINK_IDLE, hne, _handleError]
  unfold genieDoEvents
  rw [_genieGetchar_byte K s _ rest hget hrx hK.2.1]
  simp only [hsw, WellFormed.nochar hK, if_false]

/-- What a pop above the bottom entry does to the stack. -/
theorem _geniePopLinkState_spec (s : GenieState) (hsp : 0 < s._genieLinkState) :
    (_geniePopLinkState s)._genieLinkState = s._genieLinkState - 1 ∧
    _genieGetLinkState (_geniePopLinkState s) = s._genieLinkStates.getD (s._genieLinkState - 1) 0 ∧
    (∀ i, i < s._genieLinkState →
      (_geniePopLinkState s)._genieLinkStates.getD i 0 = s._genieLinkStates.getD i 0) ∧
    (_geniePopLinkState s)._genieEventQueue = s._genieEventQueue ∧
    (_geniePopLinkState s)._genieError = s._genieError := by
  simp only [_geniePopLinkState, hsp, gt_iff_lt, if_true, _genieGetLinkState]
  refine ⟨trivial, ?_, ?_, trivial, trivial⟩
  · apply getD_set_ne; omega
  · intro i hi; apply getD_set_ne; omega

/-! ## The idle wait on a quiet, idle link -/

/-- With a handler bound and nothing to read, `_genieGetchar` leaves
`ERROR_NOCHAR`. -/
theorem _genieGetchar_none (K : GenieConsts) (s : GenieState)
    (hget : s.getCharBound = true) (hrx : s.rxScript.head? = none ∨ s.rxScript.head? = some none) :
    (_genieGetchar K s).2 = { s with _genieError := K.ERROR_NOCHAR, rxScript := s.rxScript.tail } := by
  simp only [_genieGetchar, hget, if_true, _genieGetchar_Serial]
  match h : s.rxScript with
  | [] => simp [h]
  | none :: rest => simp [h]
  | some b :: rest => simp [h] at hrx

/-- A poll that finds nothing to read and no queued event changes only the
error code and the port script, and returns `GENIE_EVENT_NONE`. -/
theorem genieDoEvents_quiet (K : GenieConsts) (s : GenieState)
    (hget : s.getCharBound = true) (hrx : s.rxScript.head? = none ∨ s.rxScript.head? = some none)
    (hq : s._genieEventQueue.n_events = 0) :
    genieDoEvents K s =
      .ok ({ s with _genieError := K.ERROR_NOCHAR, rxScript := s.rxScript.tail },
        K.GENIE_EVENT_NONE) := by
  simp only [genieDoEvents, _genieGetchar_none K s hget hrx, if_true, hq, gt_iff_lt,
    Nat.lt_irrefl, if_false]

/-- On an idle link with nothing to read and the deadline ahead,
`_genieWaitForIdle` returns after one poll, without a timeout. -/
theorem _genieWaitForIdle_idle (K : GenieConsts) (s : GenieState) (t0 t1 : Nat) (rest : List Nat)
    (hres : K.GENIE_EVENT_NONE ≠ K.GENIE_EVENT_RXCHAR)
    (hidle : _genieGetLinkState s = GENIE_LINK_IDLE)
    (hget : s.getCharBound = true) (hrx : s.rxScript.head? = none ∨ s.rxScript.head? = some none)
    (hq : s._genieEventQueue.n_events = 0)
    (hclock : s.clockScript = t0 :: t1 :: rest)
    (hahead : t1 % 2 ^ 32 < timeoutAfter s (t0 % 2 ^ 32)) :
    _genieWaitForIdle K s =
      .ok { s with _genieError := K.ERROR_NOCHAR, rxScript := s.rxScript.tail,
                   clockScript := rest } := by
  have hd := genieDoEvents_quiet K { s with clockScript := rest } hget hrx hq
  have hahead2 : t1 % 4294967296 < timeoutAfter { s with clockScript := t1 :: rest } (t0 % 4294967296) :=
    hahead
  simp only [_genieWaitForIdle, millis, hclock, _genieWaitForIdle_loop, List.length_cons,
    Nat.reducePow, hahead2, if_true, hd, hres, if_false]
  have hidle2 : _genieGetLinkState
      { s with
          _genieError := K.ERROR_NOCHAR, rxScript := s.rxScript.tail, clockScript := rest } =
      GENIE_LINK_IDLE := hidle
  rw [if_pos hidle2]

theorem _geniePutchar_stackView (c : Nat) (s : GenieState) :
    stackView (_geniePutchar c s) = stackView s := by
  simp only [_geniePutchar]; split <;> rfl

theorem _genieWriteStrX_loop_stackView (K : GenieConsts) :
    ∀ (bs : List Nat) (checksum : Nat) (s : GenieState),
      stackView (_genieWriteStrX_loop K bs checksum s).2 = stackView s
  | [], _, _ => rfl
  | b :: bs, checksum, s => by
    simp only [_genieWriteStrX_loop]
    rw [_genieWriteStrX_loop_stackView K bs, _geniePutchar_stackView]

/-- A push with room on the stack: the pointer moves up by one, the new top
holds the pushed state, every entry up to the old top is unchanged. -/
theorem _geniePushLinkState_room (n : Nat) (s : GenieState) (v : List Nat × Nat)
    (hv : stackView s = v)
    (hlen : v.1.length = LINK_STACK_SIZE) (hroom : v.2 + 1 < LINK_STACK_SIZE) (hn : n < 256) :
    ∃ t, _geniePushLinkState n s = .ok t ∧ t._genieLinkState = v.2 + 1 ∧
      _genieGetLinkState t = n ∧
      ∀ i, i ≤ v.2 → t._genieLinkStates.getD i 0 = v.1.getD i 0 := by
  subst hv
  simp only [stackView] at hlen hroom ⊢
  have hi : s._genieLinkState + 1 < s._genieLinkStates.length := by omega
  simp only [_geniePushLinkState, _genieSetLinkState, hroom, if_true]
  split
  · refine ⟨_, rfl, rfl, ?_, ?_⟩
    · simp [_genieGetLinkState, List.getD, hi, toU8_of_lt n hn]
    · intro i hi2; apply getD_set_ne; omega
  · refine ⟨_, rfl, rfl, ?_, ?_⟩
    · simp [_genieGetLinkState, List.getD, hi, toU8_of_lt n hn]
    · intro i hi2; apply getD_set_ne; omega

/-- With room on the stack when transmission starts, every encoder pushes its
reply-waiting state: `GENIE_LINK_WFAN` for the writes, `GENIE_LINK_WF_RXREPORT`
for the read; the depth grows by one and the entries beneath are unchanged. -/
theorem encoders_push_with_room (K : GenieConsts) (s s1 : GenieState)
    (hlen : s1._genieLinkStates.length = LINK_STACK_SIZE)
    (hroom : s1._genieLinkState + 1 < LINK_STACK_SIZE) :
    (∀ object index data, _genieWaitForIdle K s = .ok s1 →
      ∃ t, genieWriteObject K object index data s = .ok t ∧
        t._genieLinkState = s1._genieLinkState + 1 ∧ _genieGetLinkState t = GENIE_LINK_WFAN ∧
        ∀ i, i ≤ s1._genieLinkState → t._genieLinkStates.getD i 0 = s1._genieLinkStates.getD i 0) ∧
    (∀ value, _genieWaitForIdle K s = .ok s1 →
      ∃ t, genieWriteContrast K value s = .ok t ∧
        t._genieLinkState = s1._genieLinkState + 1 ∧ _genieGetLinkState t = GENIE_LINK_WFAN ∧
        ∀ i, i ≤ s1._genieLinkState → t._genieLinkStates.getD i 0 = s1._genieLinkStates.getD i 0) ∧
    (∀ code index string, strlen string ≤ 255 → _genieWaitForIdle K s = .ok s1 →
      ∃ t, _genieWriteStrX K code index string s = .ok (t, 0) ∧
        t._genieLinkState = s1._genieLinkState + 1 ∧ _genieGetLinkState t = GENIE_LINK_WFAN ∧
        ∀ i, i ≤ s1._genieLinkState → t._genieLinkStates.getD i 0 = s1._genieLinkStates.getD i 0) ∧
    (∀ object index, _genieWaitForIdle K (_genieFlushEventQueue s) = .ok s1 →
      ∃ t, genieReadObject K object index s = .ok (t, true) ∧
        t._genieLinkState = s1._genieLinkState + 1 ∧
        _genieGetLinkState t = GENIE_LINK_WF_RXREPORT ∧
        ∀ i, i ≤ s1._genieLinkState → t._genieLinkStates.getD i 0 = s1._genieLinkStates.getD i 0) := by
  refine ⟨?_, ?_, ?_, ?_⟩
  · intro object index data hwait
    simp only [genieWriteObject, hwait]
    exact _geniePushLinkState_room GENIE_LINK_WFAN _ (s1._genieLinkStates, s1._genieLinkState)
      (by simp only [_geniePutchar_stackView]; rfl) hlen hroom (by decide)
  · intro value hwait
    simp only [genieWriteContrast, hwait]
    exact _geniePushLinkState_room GENIE_LINK_WFAN _ (s1._genieLinkStates, s1._genieLinkState)
      (by simp only [_geniePutchar_stackView]; rfl) hlen hroom (by decide)
  · intro code index string hstr hwait
    have hnot : ¬ strlen string > 255 := by omega
    simp only [_genieWriteStrX, hnot, if_false, hwait]
    obtain ⟨t, h1, h2⟩ := _geniePushLinkState_room GENIE_LINK_WFAN
      (_geniePutchar
        (_genieWriteStrX_loop K (cstring string)
          (((toU16 code % 2 ^ K.UINT_BITS ^^^ toU16 index) % 2 ^ K.UINT_BITS ^^^ strlen string) %
            2 ^ K.UINT_BITS)
          (_geniePutchar (toU8 (strlen string))
            (_geniePutchar (toU16 index) (_geniePutchar (toU16 code) s1)))).1
        (_genieWriteStrX_loop K (cstring string)
          (((toU16 code % 2 ^ K.UINT_BITS ^^^ toU16 index) % 2 ^ K.UINT_BITS ^^^ strlen string) %
            2 ^ K.UINT_BITS)
          (_geniePutchar (toU8 (strlen string))
            (_geniePutchar (toU16 index) (_geniePutchar (toU16 code) s1)))).2)
      (s1._genieLinkStates, s1._genieLinkState)
      (by simp only [_geniePutchar_stackView, _genieWriteStrX_loop_stackView]; rfl)
      hlen hroom (by decide)
    exact ⟨t, by rw [h1]; rfl, h2⟩
  · intro object index hwait
    simp only [genieReadObject, hwait]
    obtain ⟨t, h1, h2⟩ := _geniePushLinkState_room GENIE_LINK_WF_RXREPORT
      (_geniePutchar (toU8 (toU8 (toU8 K.GENIE_READ_OBJ ^^^ toU16 object) ^^^ toU16 index))
        (_geniePutchar (toU16 index) (_geniePutchar (toU16 object)
          (_geniePutchar K.GENIE_READ_OBJ { s1 with _genieError := K.ERROR_NONE }))))
      (s1._genieLinkStates, s1._genieLinkState)
      (by simp only [_geniePutchar_stackView]; rfl) hlen hroom (by decide)
    exact ⟨t, by rw [h1]; rfl, h2⟩

/-! ## Polls without a byte and discarded bytes -/

/-- A call of `genieDoEvents` that finds nothing to read, with a user handler
attached if events are queued. -/
theorem genieDoEvents_none (K : GenieConsts) (s : GenieState)
    (hget : s.getCharBound = true) (hrx : s.rxScript.head? = none ∨ s.rxScript.head? = some none)
    (hh : 0 < s._genieEventQueue.n_events → s.userHandlerBound = true) :
    genieDoEvents K s = .ok (quietPoll K s, K.GENIE_EVENT_NONE) := by
  simp only [genieDoEvents, _genieGetchar_none K s hget hrx, if_true, gt_iff_lt]
  by_cases hq : 0 < s._genieEventQueue.n_events
  · simp [hq, callUserHandler, hh hq, quietPoll, Except.map]
  · simp [hq, quietPoll]

/-- A byte that the `switch` does not accept in the current link state is
dropped: only `_genieError` (cleared by `_genieGetchar`) and the port script
change. -/
theorem genieDoEvents_unexpected (K : GenieConsts) (hK : K.WellFormed) (s : GenieState)
    (c : Nat) (rest : List (Option Nat))
    (hget : s.getCharBound = true) (hrx : s.rxScript = some c :: rest) (hc : c < 256)
    (hu : unexpectedByte K (_genieGetLinkState s) c) :
    genieDoEvents K s =
      .ok ({ s with _genieError := K.ERROR_NONE, rxScript := rest }, K.GENIE_EVENT_RXCHAR) := by
  have hsw : genieDoEvents_switch K c { s with _genieError := K.ERROR_NONE, rxScript := rest } =
      .ok (.returned { s with _genieError := K.ERROR_NONE, rxScript := rest }) := by
    unfold genieDoEvents_switch
    rw [show _genieGetLinkState { s with _genieError := K.ERROR_NONE, rxScript := rest } =
      _genieGetLinkState s from rfl]
    rcases hu with ⟨h, h1⟩ | ⟨h, h1, h2, h3⟩ | ⟨h, h1, h2⟩
    · rw [h]; simp [h1]
    · rw [h]; simp [GENIE_LINK_WFAN, GENIE_LINK_IDLE, h1, h2, h3]
    · rw [h]; simp [GENIE_LINK_WFAN, GENIE_LINK_IDLE, GENIE_LINK_WF_RXREPORT, h1, h2]
  unfold genieDoEvents
  rw [_genieGetchar_byte K s c rest hget hrx hc]
  simp only [hsw, WellFormed.nochar hK, if_false]

/-! ## The first byte of a report frame -/

theorem pop_push_rxreport (s : GenieState) (hsp : 0 < s._genieLinkState)
    (hin : s._genieLinkState < LINK_STACK_SIZE) :
    _geniePushLinkState GENIE_LINK_RXREPORT (_geniePopLinkState s) = .ok (rxReplaced s) := by
  have h1 : s._genieLinkState - 1 + 1 = s._genieLinkState := by omega
  simp [_geniePushLinkState, _genieSetLinkState, _geniePopLinkState, hsp, h1, hin, rxReplaced,
    toU8, GENIE_LINK_RXREPORT]

/-- A link state other than idle at the top of the stack lies inside the
array. -/
theorem sp_in_stack (s : GenieState) (hlen : s._genieLinkStates.length = LINK_STACK_SIZE)
    (h : _genieGetLinkState s ≠ 0) : s._genieLinkState < LINK_STACK_SIZE := by
  by_contra hn
  apply h
  unfold _genieGetLinkState
  rw [List.getD_eq_default]
  omega

theorem _genieGetLinkState_rxReplaced (s : GenieState)
    (hin : s._genieLinkState < s._genieLinkStates.length) :
    _genieGetLinkState (rxReplaced s) = GENIE_LINK_RXREPORT := by
  simp [_genieGetLinkState, rxReplaced, List.getD, hin]

/-- While a report is awaited the report-object marker makes the `switch`
replace the top of the stack by `GENIE_LINK_RXREPORT` and go on to the
accumulation. -/
theorem genieDoEvents_report_header (K : GenieConsts) (hK : K.WellFormed) (s : GenieState)
    (rest : List (Option Nat))
    (hstate : _genieGetLinkState s = GENIE_LINK_WF_RXREPORT)
    (hlen : s._genieLinkStates.length = LINK_STACK_SIZE)
    (hsp : 0 < s._genieLinkState)
    (hget : s.getCharBound = true) (hrx : s.rxScript = some K.GENIE_REPORT_OBJ :: rest) :
    genieDoEvents K s = .ok (rxStore K K.GENIE_REPORT_OBJ (rxReplaced s), K.GENIE_EVENT_RXCHAR) := by
  have hb : K.GENIE_REPORT_OBJ < 256 := hK.2.2.2.1
  have hne : K.GENIE_REPORT_OBJ ≠ K.GENIE_REPORT_EVENT := Ne.symm hK.2.2.2.2.2.2.2.2.2.1
  have hin : s._genieLinkState < LINK_STACK_SIZE :=
    sp_in_stack s hlen (by rw [hstate]; decide)
  have hsw : genieDoEvents_switch K K.GENIE_REPORT_OBJ
      { s with _genieError := K.ERROR_NONE, rxScript := rest } =
      .ok (.accumulate (rxReplaced { s with _genieError := K.ERROR_NONE, rxScript := rest })) := by
    unfold genieDoEvents_switch
    rw [show _genieGetLinkState { s with _genieError := K.ERROR_NONE, rxScript := rest } =
      GENIE_LINK_WF_RXREPORT from hstate]
    simp [GENIE_LINK_WFAN, GENIE_LINK_IDLE, GENIE_LINK_WF_RXREPORT, hne,
      pop_push_rxreport { s with _genieError := K.ERROR_NONE, rxScript := rest } hsp hin,
      Except.map]
  unfold genieDoEvents
  rw [_genieGetchar_byte K s _ rest hget hrx hb]
  simp only [hsw, WellFormed.nochar hK, if_false]
  rw [genieDoEvents_accumulate_mid K _ _
    (Or.inl (_genieGetLinkState_rxReplaced { s with _genieError := K.ERROR_NONE, rxScript := rest }
      (by rw [hlen]; exact hin)))
    (by simp [rxReplaced])]
  simp [rxStore, rxReplaced, hrx]

theorem Layout_rxReplaced (K : GenieConsts) (s : GenieState) (h : s.Layout K) :
    (rxReplaced s).Layout K := by
  obtain ⟨h1, h2, h3, h4⟩ := h
  exact ⟨by simp [rxReplaced, h1], h2, h3, h4⟩

/-! ## The bytes of `genieWriteObject` and the data of a frame -/

/-- The transmit log after `genieWriteObject` on a link with a transmit handler
bound and an idle wait that returns. -/
theorem genieWriteObject_txLog (K : GenieConsts) (hK : K.WellFormed) (object index data : Nat)
    (s s1 : GenieState) (hdata : data < 65536)
    (hput : s.putCharBound = true) (hwait : _genieWaitForIdle K s = .ok s1) :
    (Run.finalState (genieWriteObject K object index data s)).txLog =
      s.txLog ++ [K.GENIE_WRITE_OBJ, object % 256, index % 256, data / 256, data % 256,
        K.GENIE_WRITE_OBJ ^^^ (object % 256) ^^^ (index % 256) ^^^ (data / 256) ^^^
          (data % 256)] := by
  have hW : K.GENIE_WRITE_OBJ < 256 := hK.2.2.2.2.2.2.2.2.2.2.2.1
  have hv := _genieWaitForIdle_txView K s s1 hwait
  simp only [txView, Prod.mk.injEq] at hv
  obtain ⟨hlog, hb⟩ := hv
  rw [hput] at hb
  have hd : toU16 data = data := Nat.mod_eq_of_lt hdata
  have hmsb : data / 256 < 256 := by rw [Nat.div_lt_iff_lt_mul (by decide)]; omega
  simp only [genieWriteObject, hwait, _geniePushLinkState_txLog]
  simp only [_geniePutchar, hb, if_true, hlog, List.append_assoc, List.singleton_append,
    toU8_xor_toU8, toU8_toU8, toU8_toU16, lowByte_eq, highByte_eq data hdata, hd,
    toU8_of_lt _ hW, toU8_of_lt _ hmsb]
  simp [toU8]

/-- `genieGetEventData` on a frame whose fourth and fifth byte are `msb` and
`lsb`. -/
theorem genieGetEventData_bytes (e : List Nat) (msb lsb : Nat) (h3 : e.getD 3 0 = msb)
    (h4 : e.getD 4 0 = lsb) (hm : msb < 256) (hl : lsb < 256) :
    genieGetEventData e = msb * 256 + lsb := by
  unfold genieGetEventData toU16
  rw [h3, h4, Nat.shiftLeft_eq]
  have h8 : (2 : Nat) ^ 8 = 256 := by decide
  rw [h8]
  exact Nat.mod_eq_of_lt (by omega)

/-! ## How the idle wait ends -/

/-- `millis ()` with a reading left in the script. -/
theorem millis_cons (s : GenieState) (t : Nat) (rest : List Nat) (h : s.clockScript = t :: rest) :
    millis s = .ok (t % 2 ^ 32, { s with clockScript := rest }) := by
  simp [millis, h]

/-- The loop of `_genieWaitForIdle` ends on an idle link or with `ERROR_TIMEOUT`
just set. -/
theorem _genieWaitForIdle_loop_exit (K : GenieConsts) :
    ∀ (fuel timeout : Nat) (s t : GenieState),
      _genieWaitForIdle_loop K fuel timeout s = .ok t →
        _genieGetLinkState t = GENIE_LINK_IDLE ∨ t._genieError = K.ERROR_TIMEOUT
  | 0, _, _, _, h => absurd h (by simp [_genieWaitForIdle_loop])
  | fuel + 1, timeout, s, t, h => by
    simp only [_genieWaitForIdle_loop] at h
    split at h
    · exact absurd h (by simp)
    · split at h
      · split at h
        · exact absurd h (by simp)
        · split at h
          · split at h
            · exact absurd h (by simp)
            · split at h
              · rename_i hidle
                injection h with h; subst h; exact Or.inl hidle
              · exact _genieWaitForIdle_loop_exit K fuel _ _ _ h
          · split at h
            · rename_i hidle
              injection h with h; subst h; exact Or.inl hidle
            · exact _genieWaitForIdle_loop_exit K fuel _ _ _ h
      · injection h with h; subst h; exact Or.inr rfl

/-- `_genieWaitForIdle` returns on an idle link or with `ERROR_TIMEOUT` just
set. -/
theorem _genieWaitForIdle_exit (K : GenieConsts) (s t : GenieState)
    (h : _genieWaitForIdle K s = .ok t) :
    _genieGetLinkState t = GENIE_LINK_IDLE ∨ t._genieError = K.ERROR_TIMEOUT := by
  simp only [_genieWaitForIdle] at h
  split at h
  · exact absurd h (by simp)
  · exact _genieWaitForIdle_loop_exit K _ _ _ _ h

/-- With the second clock reading not below the deadline `_genieWaitForIdle`
sets `ERROR_TIMEOUT` without a single call of `genieDoEvents`. -/
theorem _genieWaitForIdle_immediate_timeout (K : GenieConsts) (s : GenieState) (t0 t1 : Nat)
    (rest : List Nat) (hclock : s.clockScript = t0 :: t1 :: rest)
    (hpast : ¬ t1 % 2 ^ 32 < timeoutAfter s (t0 % 2 ^ 32)) :
    _genieWaitForIdle K s = .ok { s with clockScript := rest, _genieError := K.ERROR_TIMEOUT } := by
  have hpast2 : ¬ t1 % 4294967296 <
      timeoutAfter { s with clockScript := t1 :: rest } (t0 % 4294967296) := hpast
  simp [_genieWaitForIdle, millis, hclock, _genieWaitForIdle_loop, hpast2, _handleError]

/-! ## Nothing is transmitted by a poll or a wait that stops at a fault -/

theorem map_error {α β : Type} (f : α → β) (r : Run α) (e : GenieFault × GenieState)
    (h : r.map f = .error e) : r = .error e := by
  cases r with
  | error e1 => simpa [Except.map] using h
  | ok a => simp [Except.map] at h

theorem _geniePushLinkState_fault_txView (n : Nat) (s t : GenieState) (f : GenieFault)
    (h : _geniePushLinkState n s = .error (f, t)) : txView t = txView s := by
  simp only [_geniePushLinkState, _genieSetLinkState] at h
  split_ifs at h
  cases h
  rfl

theorem genieDoEvents_switch_fault_txView (K : GenieConsts) (c : Nat) (s t : GenieState)
    (f : GenieFault) (h : genieDoEvents_switch K c s = .error (f, t)) : txView t = txView s := by
  simp only [genieDoEvents_switch] at h
  split_ifs at h <;>
    first
      | cases h
      | exact _geniePushLinkState_fault_txView _ _ _ _ (map_error _ _ _ h)
      | exact (_geniePushLinkState_fault_txView _ _ _ _ (map_error _ _ _ h)).trans
          (_geniePopLinkState_txView _)

theorem genieDoEvents_accumulate_fault_txView (K : GenieConsts) (c : Nat) (s t : GenieState)
    (f : GenieFault) (h : genieDoEvents_accumulate K c s = .error (f, t)) :
    txView t = txView s := by
  simp only [genieDoEvents_accumulate] at h
  split_ifs at h <;> cases h <;> rfl

theorem callUserHandler_fault_txView (s t : GenieState) (f : GenieFault)
    (h : callUserHandler s = .error (f, t)) : txView t = txView s := by
  simp only [callUserHandler] at h
  split_ifs at h
  cases h
  rfl

theorem genieDoEvents_fault_txView (K : GenieConsts) (s t : GenieState) (f : GenieFault)
    (h : genieDoEvents K s = .error (f, t)) : txView t = txView s := by
  have hg := _genieGetchar_txView K s
  simp only [genieDoEvents] at h
  split at h
  · split at h
    · exact (callUserHandler_fault_txView _ _ _ (map_error _ _ _ h)).trans hg
    · cases h
  · split at h
    · rename_i e hsw
      cases h
      exact (genieDoEvents_switch_fault_txView K _ _ _ _ hsw).trans hg
    · cases h
    · rename_i s2 hsw
      exact (genieDoEvents_accumulate_fault_txView K _ _ _ _ h).trans
        ((genieDoEvents_switch_txView K _ _ _ hsw).trans hg)

theorem millis_fault_txView (s t : GenieState) (f : GenieFault)
    (h : millis s = .error (f, t)) : txView t = txView s := by
  simp only [millis] at h
  split at h
  · cases h
  · cases h; rfl

theorem _genieWaitForIdle_loop_fault_txView (K : GenieConsts) :
    ∀ (fuel timeout : Nat) (s t : GenieState) (f : GenieFault),
      _genieWaitForIdle_loop K fuel timeout s = .error (f, t) → txView t = txView s
  | 0, _, _, _, _, h => by
    simp only [_genieWaitForIdle_loop] at h
    cases h; rfl
  | fuel + 1, timeout, s, t, f, h => by
    simp only [_genieWaitForIdle_loop] at h
    split at h
    · rename_i e hm
      cases h
      exact millis_fault_txView _ _ _ hm
    · rename_i now s1 hm
      have h1 := millis_txView _ _ _ hm
      split at h
      · split at h
        · rename_i e hd
          cases h
          exact (genieDoEvents_fault_txView K _ _ _ hd).trans h1
        · rename_i s2 r hd
          have h2 := genieDoEvents_txView K _ _ _ hd
          split at h
          · split at h
            · rename_i e hm3
              cases h
              exact (millis_fault_txView _ _ _ hm3).trans (h2.trans h1)
            · rename_i t3 s3 hm3
              have h3 := millis_txView _ _ _ hm3
              split at h
              · cases h
              · exact (_genieWaitForIdle_loop_fault_txView K fuel _ _ _ _ h).trans
                  (h3.trans (h2.trans h1))
          · split at h
            · cases h
            · exact (_genieWaitForIdle_loop_fault_txView K fuel _ _ _ _ h).trans (h2.trans h1)
      · cases h

/-- An idle wait that stops at a fault has transmitted nothing. -/
theorem _genieWaitForIdle_fault_txView (K : GenieConsts) (s t : GenieState) (f : GenieFault)
    (h : _genieWaitForIdle K s = .error (f, t)) : txView t = txView s := by
  simp only [_genieWaitForIdle] at h
  split at h
  · rename_i e hm
    cases h
    exact millis_fault_txView _ _ _ hm
  · rename_i t0 s1 hm
    exact (_genieWaitForIdle_loop_fault_txView K _ _ _ _ _ h).trans (millis_txView _ _ _ hm)

/-! ## The error code across the bytes and the push of an encoder -/

theorem _geniePutchar_genieError (c : Nat) (s : GenieState) :
    (_geniePutchar c s)._genieError = s._genieError := by
  simp only [_geniePutchar]; split <;> rfl

theorem _genieWriteStrX_loop_genieError (K : GenieConsts) :
    ∀ (bs : List Nat) (checksum : Nat) (s : GenieState),
      (_genieWriteStrX_loop K bs checksum s).2._genieError = s._genieError
  | [], _, _ => rfl
  | b :: bs, checksum, s => by
    simp only [_genieWriteStrX_loop]
    rw [_genieWriteStrX_loop_genieError K bs, _geniePutchar_genieError]

theorem _geniePushLinkState_genieError (n : Nat) (s : GenieState) :
    (Run.finalState (_geniePushLinkState n s))._genieError = s._genieError := by
  simp only [_geniePushLinkState, _genieSetLinkState]
  split
  · split <;> rfl
  · rfl

/-- The error code `_genieWriteStrX` returns with, for a string it accepts, is
the one its idle wait left. -/
theorem _genieWriteStrX_genieError (K : GenieConsts) (code index : Nat) (string : List Nat)
    (s s1 : GenieState) (hlen : strlen string ≤ 255) (hwait : _genieWaitForIdle K s = .ok s1) :
    (Run.endState (_genieWriteStrX K code index string s))._genieError = s1._genieError := by
  simp only [_genieWriteStrX, hwait, if_neg (Nat.not_lt.mpr hlen)]
  rw [endState_map_state, _geniePushLinkState_genieError, _geniePutchar_genieError,
    _genieWriteStrX_loop_genieError, _geniePutchar_genieError, _geniePutchar_genieError,
    _geniePutchar_genieError]

/-! ## An encoder sends after its idle wait or not at all -/

theorem sendsAfterWait_of_ok (K : GenieConsts) (s s1 : GenieState)
    (h : _genieWaitForIdle K s = .ok s1) : sendsAfterWait K s := by
  simp only [sendsAfterWait, h]
  exact ⟨_genieWaitForIdle_exit K s s1 h, congrArg Prod.fst (_genieWaitForIdle_txView K s s1 h)⟩

/-- Whatever an encoder does after its wait, the wait has either returned as
`sendsAfterWait` says or stopped the encoder at its fault. -/
theorem sends_or_stopped {α : Type} (K : GenieConsts) (s : GenieState) (r : Run α)
    (hr : ∀ e, _genieWaitForIdle K s = .error e → r = .error e) :
    sendsAfterWait K s ∨ stoppedInWait K s r := by
  cases hw : _genieWaitForIdle K s with
  | error e =>
    obtain ⟨f, t⟩ := e
    exact .inr ⟨(f, t), hw, hr _ hw, congrArg Prod.fst (_genieWaitForIdle_fault_txView K s t f hw)⟩
  | ok s1 => exact .inl (sendsAfterWait_of_ok K s s1 hw)

theorem _genieWriteStrX_sends (K : GenieConsts) (code index : Nat) (string : List Nat)
    (s : GenieState) (f : GenieState × Int → GenieState × Nat) :
    sendsAfterWait K s ∨ stoppedInWait K s ((_genieWriteStrX K code index string s).map f) ∨
      (255 < strlen string ∧
        (_genieWriteStrX K code index string s).map f = .ok (f (s, -1))) := by
  by_cases hlen : 255 < strlen string
  · refine .inr (.inr ⟨hlen, ?_⟩)
    simp only [_genieWriteStrX, gt_iff_lt, if_pos hlen]
    rfl
  · have hr : ∀ e, _genieWaitForIdle K s = .error e →
        (_genieWriteStrX K code index string s).map f = .error e := by
      intro e hw
      simp only [_genieWriteStrX, gt_iff_lt, if_neg hlen, hw]
      rfl
    rcases sends_or_stopped K s _ hr with h | h
    · exact .inl h
    · exact .inr (.inl h)

/-! ## The idle wait on a link that stays busy -/

/-- The loop of the idle wait on a link that is not idle and a port that
delivers nothing: it polls once per clock reading below the deadline `D` and
sets `ERROR_TIMEOUT` at the first reading that is not below it. -/
theorem _genieWaitForIdle_loop_quiet (K : GenieConsts)
    (hres : K.GENIE_EVENT_NONE ≠ K.GENIE_EVENT_RXCHAR) (D tn : Nat) (rest : List Nat)
    (hpast : ¬ tn % 2 ^ 32 < D) :
    ∀ (ts : List Nat) (fuel : Nat) (s : GenieState),
      ts.length < fuel → s.clockScript = ts ++ tn :: rest → (∀ t ∈ ts, t % 2 ^ 32 < D) →
      s.getCharBound = true → (∀ x ∈ s.rxScript, x = none) →
      _genieGetLinkState s ≠ GENIE_LINK_IDLE →
      (0 < s._genieEventQueue.n_events → s.userHandlerBound = true) →
      ∃ t, _genieWaitForIdle_loop K fuel D s = .ok t ∧ t._genieError = K.ERROR_TIMEOUT ∧
        stackView t = stackView s ∧ t._genieEventQueue = s._genieEventQueue ∧
        t.txLog = s.txLog ∧ t.clockScript = rest ∧ t.rxScript = s.rxScript.drop ts.length
  | [], fuel, s, hfuel, hclock, _, _, _, _, _ => by
    obtain ⟨f, rfl⟩ : ∃ f, fuel = f + 1 := ⟨fuel - 1, by simp at hfuel; omega⟩
    have hm : millis s = .ok (tn % 2 ^ 32, { s with clockScript := rest }) :=
      millis_cons s tn rest (by simpa using hclock)
    refine ⟨{ s with clockScript := rest, _genieError := K.ERROR_TIMEOUT }, ?_,
      rfl, rfl, rfl, rfl, rfl, rfl⟩
    simp only [_genieWaitForIdle_loop, hm, if_neg hpast, _handleError]
  | t1 :: ts, fuel, s, hfuel, hclock, hbelow, hget, hrx, hbusy, hh => by
    obtain ⟨f, rfl⟩ : ∃ f, fuel = f + 1 := ⟨fuel - 1, by simp at hfuel; omega⟩
    have hm : millis s = .ok (t1 % 2 ^ 32, { s with clockScript := ts ++ tn :: rest }) :=
      millis_cons s t1 (ts ++ tn :: rest) (by simpa using hclock)
    have hhead : s.rxScript.head? = none ∨ s.rxScript.head? = some none := by
      cases hs : s.rxScript with
      | nil => exact .inl rfl
      | cons x xs =>
        right
        rw [hrx x (by rw [hs]; exact List.mem_cons_self _ _)]
        rfl
    have hd := genieDoEvents_none K { s with clockScript := ts ++ tn :: rest } hget hhead hh
    obtain ⟨t, ht, herr, hstack, hq, htx, hclk, hrxs⟩ :=
      _genieWaitForIdle_loop_quiet K hres D tn rest hpast ts f
        (quietPoll K { s with clockScript := ts ++ tn :: rest })
        (by simp at hfuel; omega) rfl (fun t ht => hbelow t (List.mem_cons_of_mem _ ht)) hget
        (fun x hx => hrx x (List.mem_of_mem_tail hx)) hbusy hh
    refine ⟨t, ?_, herr, hstack, hq, htx, hclk, ?_⟩
    · simp only [_genieWaitForIdle_loop, hm, if_pos (hbelow t1 (List.mem_cons_self _ _)), hd,
        if_neg hres]
      rw [if_neg (show ¬ _genieGetLinkState
        (quietPoll K { s with clockScript := ts ++ tn :: rest }) = GENIE_LINK_IDLE from hbusy)]
      exact ht
    · rw [hrxs]
      show List.drop ts.length s.rxScript.tail = List.drop (ts.length + 1) s.rxScript
      cases s.rxScript with
      | nil => simp
      | cons x xs => rfl

theorem _genieWaitForIdle_loop_succ (K : GenieConsts) (fuel timeout : Nat) (s : GenieState) :
    _genieWaitForIdle_loop K (fuel + 1) timeout s =
      match millis s with
      | .error e => .error e
      | .ok (now, s1) =>
        if now < timeout then
          match genieDoEvents K s1 with
          | .error e => .error e
          | .ok (s2, do_event_result) =>
            if do_event_result = K.GENIE_EVENT_RXCHAR then
              match millis s2 with
              | .error e => .error e
              | .ok (t, s3) =>
                if _genieGetLinkState s3 = GENIE_LINK_IDLE then .ok s3
                else _genieWaitForIdle_loop K fuel (timeoutAfter s3 t) s3
            else
              if _genieGetLinkState s2 = GENIE_LINK_IDLE then .ok s2
              else _genieWaitForIdle_loop K fuel timeout s2
        else
          .ok (_handleError { s1 with _genieError := K.ERROR_TIMEOUT }) := rfl

/-- The idle wait on a link that is not idle and a port that delivers nothing:
`ERROR_TIMEOUT` at the first clock reading not below the deadline set at entry,
after one poll per earlier reading. -/
theorem _genieWaitForIdle_quiet (K : GenieConsts)
    (hres : K.GENIE_EVENT_NONE ≠ K.GENIE_EVENT_RXCHAR) (s : GenieState) (t0 tn : Nat)
    (ts rest : List Nat)
    (hclock : s.clockScript = t0 :: (ts ++ tn :: rest))
    (hget : s.getCharBound = true) (hrx : ∀ x ∈ s.rxScript, x = none)
    (hbusy : _genieGetLinkState s ≠ GENIE_LINK_IDLE)
    (hh : 0 < s._genieEventQueue.n_events → s.userHandlerBound = true)
    (hbelow : ∀ t ∈ ts, t % 2 ^ 32 < timeoutAfter s (t0 % 2 ^ 32))
    (hpast : ¬ tn % 2 ^ 32 < timeoutAfter s (t0 % 2 ^ 32)) :
    ∃ t, _genieWaitForIdle K s = .ok t ∧ t._genieError = K.ERROR_TIMEOUT ∧
      stackView t = stackView s ∧ t._genieEventQueue = s._genieEventQueue ∧
      t.txLog = s.txLog ∧ t.clockScript = rest ∧ t.rxScript = s.rxScript.drop ts.length := by
  simp only [_genieWaitForIdle, millis_cons s t0 _ hclock]
  exact _genieWaitForIdle_loop_quiet K hres _ tn rest hpast ts _
    { s with clockScript := ts ++ tn :: rest } (by simp; omega) rfl hbelow hget hrx hbusy hh

/-- The idle wait on a busy link that receives one byte it discards and then
nothing: the deadline restarts from the clock reading taken after the byte. -/
theorem _genieWaitForIdle_stray (K : GenieConsts) (hK : K.WellFormed)
    (hres : K.GENIE_EVENT_NONE ≠ K.GENIE_EVENT_RXCHAR) (s : GenieState) (c t0 t1 t2 tn : Nat)
    (rxrest : List (Option Nat)) (ts rest : List Nat)
    (hclock : s.clockScript = t0 :: t1 :: t2 :: (ts ++ tn :: rest))
    (hget : s.getCharBound = true)
    (hrx : s.rxScript = some c :: rxrest) (hnone : ∀ x ∈ rxrest, x = none) (hc : c < 256)
    (hu : unexpectedByte K (_genieGetLinkState s) c)
    (hbusy : _genieGetLinkState s ≠ GENIE_LINK_IDLE)
    (hh : 0 < s._genieEventQueue.n_events → s.userHandlerBound = true)
    (hfirst : t1 % 2 ^ 32 < timeoutAfter s (t0 % 2 ^ 32))
    (hbelow : ∀ t ∈ ts, t % 2 ^ 32 < timeoutAfter s (t2 % 2 ^ 32))
    (hpast : ¬ tn % 2 ^ 32 < timeoutAfter s (t2 % 2 ^ 32)) :
    ∃ t, _genieWaitForIdle K s = .ok t ∧ t._genieError = K.ERROR_TIMEOUT ∧
      stackView t = stackView s ∧ t._genieEventQueue = s._genieEventQueue ∧
      t.txLog = s.txLog ∧ t.clockScript = rest ∧ t.rxScript = rxrest.drop ts.length := by
  have hd := genieDoEvents_unexpected K hK
    { s with clockScript := t1 :: t2 :: (ts ++ tn :: rest) } c rxrest hget hrx hc hu
  have hd1 := genieDoEvents_unexpected K hK
    { s with clockScript := t2 :: (ts ++ tn :: rest) } c rxrest hget hrx hc hu
  obtain ⟨t, ht, hrest⟩ := _genieWaitForIdle_loop_quiet K hres (timeoutAfter s (t2 % 2 ^ 32)) tn
    rest hpast ts ((ts ++ tn :: rest).length + 1 + 1)
    { s with
        clockScript := ts ++ tn :: rest, _genieError := K.ERROR_NONE, rxScript := rxrest }
    (by simp only [List.length_append, List.length_cons]; omega) rfl hbelow hget hnone hbusy hh
  refine ⟨t, ?_, hrest⟩
  simp only [_genieWaitForIdle, millis_cons s t0 _ hclock, List.length_cons]
  rw [_genieWaitForIdle_loop_succ]
  rw [millis_cons { s with clockScript := t1 :: t2 :: (ts ++ tn :: rest) } t1 _ rfl]
  simp only []
  rw [if_pos (show t1 % 2 ^ 32 < timeoutAfter
    { s with clockScript := t1 :: t2 :: (ts ++ tn :: rest) } (t0 % 2 ^ 32) from hfirst)]
  rw [hd1]
  simp only [if_true]
  rw [millis_cons _ t2 (ts ++ tn :: rest) rfl]
  simp only []
  rw [if_neg (show ¬ _genieGetLinkState
    { s with
        clockScript := ts ++ tn :: rest, _genieError := K.ERROR_NONE, rxScript := rxrest } =
      GENIE_LINK_IDLE from hbusy)]
  exact ht

/-- The first poll of the idle wait leaves the link idle: the wait returns the
state the poll left, after one more clock reading if a byte was consumed. -/
theorem _genieWaitForIdle_first_poll_idle (K : GenieConsts) (s s2 : GenieState) (t0 t1 r : Nat)
    (rest : List Nat)
    (hclock : s.clockScript = t0 :: t1 :: rest)
    (hfirst : t1 % 2 ^ 32 < timeoutAfter s (t0 % 2 ^ 32))
    (hd : genieDoEvents K { s with clockScript := rest } = .ok (s2, r))
    (hidle : _genieGetLinkState s2 = GENIE_LINK_IDLE) :
    (r ≠ K.GENIE_EVENT_RXCHAR → _genieWaitForIdle K s = .ok s2) ∧
    (r = K.GENIE_EVENT_RXCHAR → ∀ t2 rest2, s2.clockScript = t2 :: rest2 →
      _genieWaitForIdle K s = .ok { s2 with clockScript := rest2 }) := by
  have hw : _genieWaitForIdle K s =
      _genieWaitForIdle_loop K (rest.length + 1 + 1) (timeoutAfter s (t0 % 2 ^ 32))
        { s with clockScript := t1 :: rest } := by
    simp only [_genieWaitForIdle, millis_cons s t0 _ hclock, List.length_cons]
    rfl
  rw [hw, _genieWaitForIdle_loop_succ,
    millis_cons { s with clockScript := t1 :: rest } t1 rest rfl]
  simp only [if_pos hfirst, hd]
  constructor
  · intro hr
    rw [if_neg hr, if_pos hidle]
  · intro hr t2 rest2 hc2
    rw [if_pos hr, millis_cons s2 t2 rest2 hc2]
    simp only []
    rw [if_pos (show _genieGetLinkState { s2 with clockScript := rest2 } = GENIE_LINK_IDLE
      from hidle)]

/-! ## A frame with a bad checksum and the byte after it -/

/-- On the idle link the report-event marker makes the `switch` push
`GENIE_LINK_RXEVENT` and go on to the accumulation. -/
theorem genieDoEvents_switch_idle_event (K : GenieConsts) (s : GenieState)
    (hS : _genieGetLinkState s = GENIE_LINK_IDLE)
    (hroom : s._genieLinkState + 1 < LINK_STACK_SIZE) :
    genieDoEvents_switch K K.GENIE_REPORT_EVENT s = .ok (.accumulate (rxPushed s)) := by
  unfold genieDoEvents_switch
  rw [if_pos hS, if_pos rfl, _geniePushLinkState_rxevent _ hroom]
  rfl

/-- The first byte of an event frame in idle or in one of the two waiting
states: `GENIE_LINK_RXEVENT` is pushed and the marker stored at `rx_data[0]`. -/
theorem genieDoEvents_event_header (K : GenieConsts) (hK : K.WellFormed) (s : GenieState)
    (rest : List (Option Nat))
    (hS : _genieGetLinkState s = GENIE_LINK_IDLE ∨ _genieGetLinkState s = GENIE_LINK_WFAN ∨
      _genieGetLinkState s = GENIE_LINK_WF_RXREPORT)
    (hlen : s._genieLinkStates.length = LINK_STACK_SIZE)
    (hroom : s._genieLinkState + 1 < LINK_STACK_SIZE)
    (hget : s.getCharBound = true) (hrx : s.rxScript = some K.GENIE_REPORT_EVENT :: rest) :
    genieDoEvents K s = .ok (rxStore K K.GENIE_REPORT_EVENT (rxPushed s), K.GENIE_EVENT_RXCHAR) := by
  rcases hS with hS | hS
  · have hb : K.GENIE_REPORT_EVENT < 256 := hK.2.2.1
    have hsw := genieDoEvents_switch_idle_event K
      { s with _genieError := K.ERROR_NONE, rxScript := rest } hS hroom
    unfold genieDoEvents
    rw [_genieGetchar_byte K s _ rest hget hrx hb]
    simp only [hsw, WellFormed.nochar hK, if_false]
    rw [genieDoEvents_accumulate_mid K _ _
      (Or.inr (_genieGetLinkState_rxPushed
        { s with _genieError := K.ERROR_NONE, rxScript := rest } hlen hroom))
      (by simp [rxPushed])]
    simp [rxStore, rxPushed, hrx]
  · exact genieDoEvents_interrupt K hK s rest hS hlen hroom hget hrx

/-- Accumulation with the frame byte index at 6 or above: the store
`rx_data[rxframe_count] = c` is outside the array. -/
theorem genieDoEvents_accumulate_overflow (K : GenieConsts) (c : Nat) (s : GenieState)
    (hstate : _genieGetLinkState s = GENIE_LINK_RXREPORT ∨ _genieGetLinkState s = GENIE_LINK_RXEVENT)
    (hcount : 6 ≤ s.rxframe_count) :
    genieDoEvents_accumulate K c s =
      .error (.rxDataOverflow, { s with checksum := toU8 (s.checksum ^^^ c) }) := by
  have h0 : s.rxframe_count ≠ 0 := by omega
  have h6 : ¬ s.rxframe_count < 6 := by omega
  unfold genieDoEvents_accumulate
  rw [if_pos hstate]
  simp [h0, h6]

/-- A byte read in a receiving state with the frame byte index at 6 or above
is stored outside `rx_data`. -/
theorem genieDoEvents_overflow (K : GenieConsts) (hK : K.WellFormed) (s : GenieState)
    (c : Nat) (rest : List (Option Nat))
    (hstate : _genieGetLinkState s = GENIE_LINK_RXREPORT ∨ _genieGetLinkState s = GENIE_LINK_RXEVENT)
    (hget : s.getCharBound = true) (hrx : s.rxScript = some c :: rest) (hc : c < 256)
    (hcount : 6 ≤ s.rxframe_count) :
    genieDoEvents K s = .error (.rxDataOverflow,
      { s with
          _genieError := K.ERROR_NONE, rxScript := rest,
          checksum := toU8 (s.checksum ^^^ c) }) := by
  rw [genieDoEvents_rx K hK s c rest hstate hget hrx hc,
    genieDoEvents_accumulate_overflow K c { s with _genieError := K.ERROR_NONE, rxScript := rest }
      hstate hcount]

/-- An event frame whose bytes do not XOR to zero, arriving in idle or in a
waiting state, leaves the link in `GENIE_LINK_RXEVENT` with the frame byte index
at 6; the byte after it is then stored outside `rx_data`. -/
theorem genieDoEventsTimes_bad_event_frame (K : GenieConsts) (hK : K.WellFormed)
    (s : GenieState) (F : List Nat) (c : Nat) (rest : List (Option Nat))
    (hS : _genieGetLinkState s = GENIE_LINK_IDLE ∨ _genieGetLinkState s = GENIE_LINK_WFAN ∨
      _genieGetLinkState s = GENIE_LINK_WF_RXREPORT)
    (hstack : s._genieLinkStates.length = LINK_STACK_SIZE)
    (hroom : s._genieLinkState + 1 < LINK_STACK_SIZE)
    (hget : s.getCharBound = true)
    (hlen : F.length = 6) (hbytes : ∀ b ∈ F, b < 256) (hxor : xorAll F ≠ 0)
    (hmark : F.head? = some K.GENIE_REPORT_EVENT) (hc : c < 256)
    (hrx : s.rxScript = F.map some ++ some c :: rest) :
    ∃ s6, genieDoEventsTimes K 6 s = .ok s6 ∧ s6.rxframe_count = 6 ∧
      _genieGetLinkState s6 = GENIE_LINK_RXEVENT ∧ s6._genieError = K.ERROR_BAD_CS ∧
      s6._genieEventQueue = s._genieEventQueue ∧
      ∃ s7, genieDoEvents K s6 = .error (.rxDataOverflow, s7) ∧ s7.rxframe_count = 6 := by
  match F, hlen with
  | [b0, b1, b2, b3, b4, b5], _ =>
    have hb := hbytes
    simp only [List.mem_cons, List.mem_singleton, forall_eq_or_imp, forall_eq, List.not_mem_nil,
      false_imp_iff, implies_true, and_true] at hb
    obtain ⟨h0, h1, h2, h3, h4, h5⟩ := hb
    have hm : b0 = K.GENIE_REPORT_EVENT := by simpa using hmark
    subst hm
    have hst : _genieGetLinkState (rxPushed s) = GENIE_LINK_RXEVENT :=
      _genieGetLinkState_rxPushed s hstack hroom
    have e0 := genieDoEvents_event_header K hK s
      (List.map some [b1, b2, b3, b4, b5] ++ some c :: rest) hS hstack hroom hget
      (by simpa using hrx)
    have hrun := genieDoEventsTimes_rxStore K hK 1 [b1, b2, b3, b4]
      (rxStore K K.GENIE_REPORT_EVENT (rxPushed s)) (some b5 :: some c :: rest) (Or.inr hst) hget
      (by simp [rxStore, rxPushed, hrx]) (fun b hb => hbytes b (by simp at hb ⊢; tauto))
      (by simp [rxStore, rxPushed])
    have hx := xor5_byte K.GENIE_REPORT_EVENT b1 b2 b3 b4 h0 h1 h2 h3 h4
    have e5 := genieDoEvents_rxReject K hK
      ([b1, b2, b3, b4].foldl (fun t b => rxStore K b t)
        (rxStore K K.GENIE_REPORT_EVENT (rxPushed s))) b5 (some c :: rest)
      (Or.inr hst) hget (by simp [rxStore, rxPushed, hrx]) h5 (by simp [rxStore, rxPushed])
      (by
        simp only [List.foldl, rxStore, rxPushed]
        simp only [Nat.zero_add, Nat.reduceAdd, OfNat.ofNat_ne_zero, one_ne_zero, if_true,
          if_false, hx.1]
        rw [toU8_xor _ b5 hx.2 h5]
        simpa [xorAll] using hxor)
    have e6 := genieDoEvents_overflow K hK
      (rxReject K b5 ([b1, b2, b3, b4].foldl (fun t b => rxStore K b t)
        (rxStore K K.GENIE_REPORT_EVENT (rxPushed s)))) c rest
      (Or.inr hst) hget (by simp [rxReject, rxStore, rxPushed, hrx]) hc (by simp [rxReject])
    have h6 : (6 : Nat) = ([b1, b2, b3, b4].length + 1) + 1 := rfl
    rw [h6, genieDoEventsTimes_succ, e0]
    simp only []
    rw [hrun, genieDoEventsTimes_succ, e5]
    exact ⟨_, rfl, rfl, hst, rfl, rfl, _, e6, rfl⟩

/-! ## Where the frame byte index can pass the last position -/

theorem _geniePushLinkState_count (n : Nat) (s t : GenieState)
    (h : _geniePushLinkState n s = .ok t) : t.rxframe_count ≤ s.rxframe_count := by
  simp only [_geniePushLinkState, _genieSetLinkState] at h
  split_ifs at h <;> cases h
  · exact Nat.zero_le _
  · exact Nat.le_refl _

theorem _geniePushLinkState_fault (n : Nat) (s t : GenieState) (f : GenieFault)
    (h : _geniePushLinkState n s = .error (f, t)) : f = .linkStackOverflow := by
  simp only [_geniePushLinkState, _genieSetLinkState] at h
  split_ifs at h
  cases h
  rfl

theorem _geniePopLinkState_count (s : GenieState) :
    (_geniePopLinkState s).rxframe_count = s.rxframe_count := by
  unfold _geniePopLinkState; split <;> rfl

theorem _genieGetchar_count (K : GenieConsts) (s : GenieState) :
    (_genieGetchar K s).2.rxframe_count = s.rxframe_count := by
  simp only [_genieGetchar, _genieGetchar_Serial]
  split
  · split <;> rfl
  · rfl

theorem genieDoEvents_switch_count (K : GenieConsts) (c : Nat) (s : GenieState) (x : SwitchExit)
    (h : genieDoEvents_switch K c s = .ok x) : x.state.rxframe_count ≤ s.rxframe_count := by
  unfold genieDoEvents_switch at h
  split_ifs at h <;>
    first
      | (cases h; exact Nat.le_refl _)
      | (cases h; exact Nat.le_of_eq (_geniePopLinkState_count _))
      | (obtain ⟨t, ht, rfl⟩ := map_ok _ _ _ h
         exact _geniePushLinkState_count _ _ _ ht)
      | (obtain ⟨t, ht, rfl⟩ := map_ok _ _ _ h
         exact (_geniePushLinkState_count _ _ _ ht).trans
           (Nat.le_of_eq (_geniePopLinkState_count _)))

theorem genieDoEvents_switch_fault (K : GenieConsts) (c : Nat) (s t : GenieState)
    (f : GenieFault) (h : genieDoEvents_switch K c s = .error (f, t)) :
    f = .linkStackOverflow := by
  simp only [genieDoEvents_switch] at h
  split_ifs at h <;>
    first
      | cases h
      | exact _geniePushLinkState_fault _ _ _ _ (map_error _ _ _ h)

/-- The accumulation with the index inside the buffer: the store is in bounds,
and the index stays inside unless this byte completes a frame with a bad
checksum. -/
theorem genieDoEvents_accumulate_count (K : GenieConsts) (c : Nat) (s : GenieState)
    (hcount : s.rxframe_count ≤ 5) :
    match genieDoEvents_accumulate K c s with
    | .ok (t, _) =>
      t.rxframe_count ≤ 5 ∨ (t.rxframe_count = 6 ∧ t._genieError = K.ERROR_BAD_CS)
    | .error (f, _) => f ≠ .rxDataOverflow := by
  by_cases hst : _genieGetLinkState s = GENIE_LINK_RXREPORT ∨
      _genieGetLinkState s = GENIE_LINK_RXEVENT
  · by_cases h5 : s.rxframe_count = 5
    · by_cases hcs : toU8 (s.checksum ^^^ c) = 0
      · rw [genieDoEvents_accumulate_last_good K c s hst h5 hcs]
        left
        show (_geniePopLinkState _).rxframe_count ≤ 5
        rw [_geniePopLinkState_count]
        exact Nat.zero_le _
      · rw [genieDoEvents_accumulate_last_bad K c s hst h5 hcs]
        exact .inr ⟨rfl, rfl⟩
    · rw [genieDoEvents_accumulate_mid K c s hst (by omega)]
      left
      show s.rxframe_count + 1 ≤ 5
      omega
  · unfold genieDoEvents_accumulate
    rw [if_neg hst]
    simp

/-- One call of `genieDoEvents` entered with the frame byte index inside the
buffer does not store outside it, and leaves the index inside unless the call
ends a frame with a bad checksum, which leaves it at 6. -/
theorem genieDoEvents_count (K : GenieConsts) (s : GenieState) (hcount : s.rxframe_count ≤ 5) :
    match genieDoEvents K s with
    | .ok (t, _) =>
      t.rxframe_count ≤ 5 ∨ (t.rxframe_count = 6 ∧ t._genieError = K.ERROR_BAD_CS)
    | .error (f, _) => f ≠ .rxDataOverflow := by
  have hg := _genieGetchar_count K s
  unfold genieDoEvents
  simp only []
  split_ifs with hno hq
  · cases hu : callUserHandler (_genieGetchar K s).2 with
    | error e =>
      simp only [callUserHandler] at hu
      split_ifs at hu
      cases hu
      simp [Except.map]
    | ok t =>
      simp only [callUserHandler] at hu
      split_ifs at hu
      cases hu
      simp only [Except.map]
      left
      show (_genieGetchar K s).2.rxframe_count ≤ 5
      omega
  · simp only []
    left
    omega
  · cases hsw : genieDoEvents_switch K (_genieGetchar K s).1 (_genieGetchar K s).2 with
    | error e =>
      obtain ⟨f, t⟩ := e
      have := genieDoEvents_switch_fault K _ _ _ _ hsw
      subst this
      simp
    | ok x =>
      have hx := genieDoEvents_switch_count K _ _ x hsw
      cases x with
      | returned s2 =>
        simp only []
        left
        have : s2.rxframe_count ≤ (_genieGetchar K s).2.rxframe_count := hx
        omega
      | accumulate s2 =>
        simp only []
        have : s2.rxframe_count ≤ (_genieGetchar K s).2.rxframe_count := hx
        exact genieDoEvents_accumulate_count K _ s2 (by omega)

/-! ## The engine on two event queues that hold the same frames -/

theorem SameQueued.keep {K : GenieConsts} {s t : GenieState} {q : genieEventQueueStruct}
    (h : SameQueued K s q) (hq : t._genieEventQueue = s._genieEventQueue)
    (hd : t.rx_data.length = s.rx_data.length) : SameQueued K t q := by
  obtain ⟨h1, h2, h3, h4, h5⟩ := h
  refine ⟨by rw [hq]; exact h1, ?_, h3, ?_, by rw [hd]; exact h5⟩
  · unfold QueueInv at h2 ⊢
    rw [hq]; exact h2
  · have e : queued K t = queued K s := by unfold queued; rw [hq]
    rw [e]; exact h4

theorem millis_withQueue (q : genieEventQueueStruct) (s : GenieState) :
    millis (withQueue q s) = Run.over (fun p => (p.1, withQueue q p.2)) (withQueue q) (millis s) := by
  simp only [millis, withQueue]
  split <;> rfl

theorem _genieGetchar_withQueue (K : GenieConsts) (q : genieEventQueueStruct) (s : GenieState) :
    _genieGetchar K (withQueue q s) = ((_genieGetchar K s).1, withQueue q (_genieGetchar K s).2) := by
  simp only [_genieGetchar, _genieGetchar_Serial, withQueue]
  split
  · split <;> rfl
  · rfl

theorem callUserHandler_withQueue (q : genieEventQueueStruct) (s : GenieState) :
    callUserHandler (withQueue q s) = Run.over (withQueue q) (withQueue q) (callUserHandler s) := by
  simp only [callUserHandler, withQueue]
  split <;> rfl

theorem _geniePushLinkState_withQueue (n : Nat) (q : genieEventQueueStruct) (s : GenieState) :
    _geniePushLinkState n (withQueue q s) =
      Run.over (withQueue q) (withQueue q) (_geniePushLinkState n s) := by
  simp only [_geniePushLinkState, _genieSetLinkState, withQueue]
  split
  · split <;> rfl
  · rfl

theorem _geniePopLinkState_withQueue (q : genieEventQueueStruct) (s : GenieState) :
    _geniePopLinkState (withQueue q s) = withQueue q (_geniePopLinkState s) := by
  simp only [_geniePopLinkState, withQueue]
  split <;> rfl

theorem _geniePutchar_withQueue (c : Nat) (q : genieEventQueueStruct) (s : GenieState) :
    _geniePutchar c (withQueue q s) = withQueue q (_geniePutchar c s) := by
  simp only [_geniePutchar, withQueue]
  split <;> rfl

theorem genieDoEvents_switch_withQueue (K : GenieConsts) (c : Nat) (q : genieEventQueueStruct)
    (s : GenieState) :
    genieDoEvents_switch K c (withQueue q s) =
      Run.over (SwitchExit.withQueue q) (withQueue q) (genieDoEvents_switch K c s) := by
  unfold genieDoEvents_switch
  rw [show _genieGetLinkState (withQueue q s) = _genieGetLinkState s from rfl]
  split_ifs <;>
    first
      | rfl
      | (rw [_geniePushLinkState_withQueue]
         cases _geniePushLinkState GENIE_LINK_RXEVENT s <;> rfl)
      | (rw [_geniePopLinkState_withQueue, _geniePushLinkState_withQueue]
         cases _geniePushLinkState GENIE_LINK_RXREPORT (_geniePopLinkState s) <;> rfl)
      | (rw [_geniePopLinkState_withQueue]; rfl)

/-! Functions that leave the event queue and the size of `rx_data` alone. -/

theorem millis_keep (s t : GenieState) (n : Nat) (h : millis s = .ok (n, t)) :
    t._genieEventQueue = s._genieEventQueue ∧ t.rx_data.length = s.rx_data.length := by
  simp only [millis] at h
  split at h
  · cases h; exact ⟨rfl, rfl⟩
  · cases h

theorem millis_fault_keep (s t : GenieState) (f : GenieFault) (h : millis s = .error (f, t)) :
    t = s := by
  simp only [millis] at h
  split at h
  · cases h
  · cases h; rfl

theorem _genieGetchar_keep (K : GenieConsts) (s : GenieState) :
    (_genieGetchar K s).2._genieEventQueue = s._genieEventQueue ∧
      (_genieGetchar K s).2.rx_data.length = s.rx_data.length := by
  simp only [_genieGetchar, _genieGetchar_Serial]
  split
  · split <;> exact ⟨rfl, rfl⟩
  · exact ⟨rfl, rfl⟩

theorem callUserHandler_keep (s : GenieState) :
    (Run.finalState (callUserHandler s))._genieEventQueue = s._genieEventQueue ∧
      (Run.finalState (callUserHandler s)).rx_data.length = s.rx_data.length := by
  simp only [callUserHandler]
  split <;> exact ⟨rfl, rfl⟩

theorem _geniePushLinkState_keep (n : Nat) (s : GenieState) :
    (Run.finalState (_geniePushLinkState n s))._genieEventQueue = s._genieEventQueue ∧
      (Run.finalState (_geniePushLinkState n s)).rx_data.length = s.rx_data.length := by
  simp only [_geniePushLinkState, _genieSetLinkState]
  split
  · split <;> exact ⟨rfl, rfl⟩
  · exact ⟨rfl, rfl⟩

theorem _geniePopLinkState_keep (s : GenieState) :
    (_geniePopLinkState s)._genieEventQueue = s._genieEventQueue ∧
      (_geniePopLinkState s).rx_data.length = s.rx_data.length := by
  simp only [_geniePopLinkState]
  split <;> exact ⟨rfl, rfl⟩

theorem _geniePutchar_keep (c : Nat) (s : GenieState) :
    (_geniePutchar c s)._genieEventQueue = s._genieEventQueue ∧
      (_geniePutchar c s).rx_data.length = s.rx_data.length := by
  simp only [_geniePutchar]
  split <;> exact ⟨rfl, rfl⟩

theorem genieDoEvents_switch_keep (K : GenieConsts) (c : Nat) (s : GenieState) :
    match genieDoEvents_switch K c s with
    | .ok x => x.state._genieEventQueue = s._genieEventQueue ∧
        x.state.rx_data.length = s.rx_data.length
    | .error (_, t) => t._genieEventQueue = s._genieEventQueue ∧
        t.rx_data.length = s.rx_data.length := by
  have hpush : ∀ n (u : GenieState), u._genieEventQueue = s._genieEventQueue →
      u.rx_data.length = s.rx_data.length →
      match (_geniePushLinkState n u).map SwitchExit.accumulate with
      | .ok x => x.state._genieEventQueue = s._genieEventQueue ∧
          x.state.rx_data.length = s.rx_data.length
      | .error (_, t) => t._genieEventQueue = s._genieEventQueue ∧
          t.rx_data.length = s.rx_data.length := by
    intro n u h1 h2
    have hk := _geniePushLinkState_keep n u
    cases hp : _geniePushLinkState n u with
    | error e =>
      rw [hp] at hk
      exact ⟨hk.1.trans h1, hk.2.trans h2⟩
    | ok v =>
      rw [hp] at hk
      exact ⟨hk.1.trans h1, hk.2.trans h2⟩
  have hpop := _geniePopLinkState_keep s
  unfold genieDoEvents_switch
  split_ifs <;>
    first
      | exact ⟨rfl, rfl⟩
      | exact hpush _ s rfl rfl
      | exact hpush _ _ hpop.1 hpop.2
      | exact hpop

/-! The enqueue on the two queues. -/

theorem _genieEnqueueEvent_withQueue (K : GenieConsts) (data : List Nat)
    (q : genieEventQueueStruct) (s : GenieState)
    (hn : q.n_events = s._genieEventQueue.n_events) :
    (_genieEnqueueEvent K data (withQueue q s)).1 =
      withQueue (_genieEnqueueEvent K data (withQueue q s)).1._genieEventQueue
        (_genieEnqueueEvent K data s).1 := by
  simp only [_genieEnqueueEvent, withQueue, hn]
  split <;> rfl

theorem _genieEnqueueEvent_rx_data (K : GenieConsts) (data : List Nat) (s : GenieState) :
    (_genieEnqueueEvent K data s).1.rx_data = s.rx_data := by
  simp only [_genieEnqueueEvent]
  split <;> rfl

theorem _genieEnqueueEvent_sameQueued (K : GenieConsts) (e : Nat)
    (hpow : K.MAX_GENIE_EVENTS = 2 ^ e) (data : List Nat) (q : genieEventQueueStruct)
    (s : GenieState) (h : SameQueued K s q) (hd : data.length = GENIE_FRAME_SIZE) :
    SameQueued K (_genieEnqueueEvent K data s).1
      (_genieEnqueueEvent K data (withQueue q s)).1._genieEventQueue := by
  obtain ⟨h1, h2, h3, h4, h5⟩ := h
  have hw := _genieEnqueueEvent_withQueue K data q s h1
  by_cases hroom : s._genieEventQueue.n_events < K.MAX_GENIE_EVENTS - 2
  · obtain ⟨_, a2, a3, a4⟩ := _genieEnqueueEvent_queued K e hpow s data h2 hd hroom
    obtain ⟨_, b2, b3, b4⟩ := _genieEnqueueEvent_queued K e hpow (withQueue q s) data h3 hd
      (by show q.n_events < _; rw [h1]; exact hroom)
    refine ⟨?_, a2, ?_, ?_, ?_⟩
    · rw [b3, a3]
      show q.n_events + 1 = _
      rw [h1]
    · rw [← hw]; exact b2
    · rw [← hw, b4, a4, h4]
    · rw [_genieEnqueueEvent_rx_data]; exact h5
  · have hs : _genieEnqueueEvent K data s = ({ s with _genieError := K.ERROR_REPLY_OVR }, false) := by
      simp [_genieEnqueueEvent, hroom, _handleError]
    have hroom2 : ¬ (withQueue q s)._genieEventQueue.n_events < K.MAX_GENIE_EVENTS - 2 := by
      show ¬ q.n_events < _
      rw [h1]; exact hroom
    have hs2 : _genieEnqueueEvent K data (withQueue q s) =
        ({ withQueue q s with _genieError := K.ERROR_REPLY_OVR }, false) := by
      simp [_genieEnqueueEvent, hroom2, _handleError]
    rw [hs, hs2]
    exact ⟨h1, h2, h3, h4, h5⟩

/-- The frame accumulation on two queues that hold the same frames gives the
same result and again two such queues. -/
theorem genieDoEvents_accumulate_sameQueued (K : GenieConsts) (e : Nat)
    (hpow : K.MAX_GENIE_EVENTS = 2 ^ e) (c : Nat) (q : genieEventQueueStruct) (s : GenieState)
    (h : SameQueued K s q) :
    ∃ q2, genieDoEvents_accumulate K c (withQueue q s) =
        Run.over (fun p => (withQueue q2 p.1, p.2)) (withQueue q2)
          (genieDoEvents_accumulate K c s) ∧
      SameQueued K (Run.endState (genieDoEvents_accumulate K c s)) q2 := by
  by_cases hst : _genieGetLinkState s = GENIE_LINK_RXREPORT ∨
      _genieGetLinkState s = GENIE_LINK_RXEVENT
  · have hst2 : _genieGetLinkState (withQueue q s) = GENIE_LINK_RXREPORT ∨
        _genieGetLinkState (withQueue q s) = GENIE_LINK_RXEVENT := hst
    by_cases h6 : s.rxframe_count < 6
    · by_cases h5 : s.rxframe_count = 5
      · by_cases hcs : toU8 (s.checksum ^^^ c) = 0
        · rw [genieDoEvents_accumulate_last_good K c s hst h5 hcs,
            genieDoEvents_accumulate_last_good K c (withQueue q s) hst2 h5 hcs]
          have hlen : (s.rx_data.set 5 c).length = GENIE_FRAME_SIZE := by
            rw [List.length_set]; exact h.2.2.2.2
          have hs1 : SameQueued K { s with checksum := 0, rx_data := s.rx_data.set 5 c } q :=
            h.keep rfl (by simp)
          have hq := _genieEnqueueEvent_sameQueued K e hpow (s.rx_data.set 5 c) q _ hs1 hlen
          have hw := _genieEnqueueEvent_withQueue K (s.rx_data.set 5 c) q
            { s with checksum := 0, rx_data := s.rx_data.set 5 c } h.1
          refine ⟨_, ?_, hq.keep (_geniePopLinkState_keep _).1 (_geniePopLinkState_keep _).2⟩
          show Except.ok (_geniePopLinkState
            { (_genieEnqueueEvent K (s.rx_data.set 5 c)
                (withQueue q { s with checksum := 0, rx_data := s.rx_data.set 5 c })).1 with
              rxframe_count := 0 }, K.GENIE_EVENT_RXCHAR) = _
          rw [hw]
          simp only [Run.over]
          rw [← _geniePopLinkState_withQueue]
          rfl
        · rw [genieDoEvents_accumulate_last_bad K c s hst h5 hcs,
            genieDoEvents_accumulate_last_bad K c (withQueue q s) hst2 h5 hcs]
          exact ⟨q, rfl, h.keep rfl
            (by show (s.rx_data.set 5 c).length = _; rw [List.length_set])⟩
      · rw [genieDoEvents_accumulate_mid K c s hst (by omega),
          genieDoEvents_accumulate_mid K c (withQueue q s) hst2 (by show s.rxframe_count < 5; omega)]
        exact ⟨q, rfl, h.keep rfl
          (by show (s.rx_data.set s.rxframe_count c).length = _; rw [List.length_set])⟩
    · rw [genieDoEvents_accumulate_overflow K c s hst (by omega),
        genieDoEvents_accumulate_overflow K c (withQueue q s) hst2
          (by show 6 ≤ s.rxframe_count; omega)]
      exact ⟨q, rfl, h.keep rfl rfl⟩
  · have hst2 : ¬ (_genieGetLinkState (withQueue q s) = GENIE_LINK_RXREPORT ∨
        _genieGetLinkState (withQueue q s) = GENIE_LINK_RXEVENT) := hst
    unfold genieDoEvents_accumulate
    rw [if_neg hst, if_neg hst2]
    exact ⟨q, rfl, h⟩

/-- One call of `genieDoEvents` on two queues that hold the same frames gives
the same result and again two such queues. -/
theorem genieDoEvents_sameQueued (K : GenieConsts) (e : Nat)
    (hpow : K.MAX_GENIE_EVENTS = 2 ^ e) (q : genieEventQueueStruct) (s : GenieState)
    (h : SameQueued K s q) :
    ∃ q2, genieDoEvents K (withQueue q s) =
        Run.over (fun p => (withQueue q2 p.1, p.2)) (withQueue q2) (genieDoEvents K s) ∧
      SameQueued K (Run.endState (genieDoEvents K s)) q2 := by
  have hk := _genieGetchar_keep K s
  have h1 : SameQueued K (_genieGetchar K s).2 q := h.keep hk.1 hk.2
  unfold genieDoEvents
  simp only [_genieGetchar_withQueue]
  by_cases hno : (_genieGetchar K s).2._genieError = K.ERROR_NOCHAR
  · have hno2 : (withQueue q (_genieGetchar K s).2)._genieError = K.ERROR_NOCHAR := hno
    rw [if_pos hno, if_pos hno2]
    by_cases hq : (_genieGetchar K s).2._genieEventQueue.n_events > 0
    · have hq2 : (withQueue q (_genieGetchar K s).2)._genieEventQueue.n_events > 0 := by
        show q.n_events > 0
        rw [h1.1]; exact hq
      rw [if_pos hq, if_pos hq2, callUserHandler_withQueue]
      refine ⟨q, ?_, ?_⟩
      · cases callUserHandler (_genieGetchar K s).2 with
        | error e => rfl
        | ok t => rfl
      · have hc := callUserHandler_keep (_genieGetchar K s).2
        rw [endState_map_state]
        exact h1.keep hc.1 hc.2
    · have hq2 : ¬ (withQueue q (_genieGetchar K s).2)._genieEventQueue.n_events > 0 := by
        show ¬ q.n_events > 0
        rw [h1.1]; exact hq
      rw [if_neg hq, if_neg hq2]
      exact ⟨q, rfl, h1⟩
  · have hno2 : ¬ (withQueue q (_genieGetchar K s).2)._genieError = K.ERROR_NOCHAR := hno
    rw [if_neg hno, if_neg hno2, genieDoEvents_switch_withQueue]
    have hsk := genieDoEvents_switch_keep K (_genieGetchar K s).1 (_genieGetchar K s).2
    cases hsw : genieDoEvents_switch K (_genieGetchar K s).1 (_genieGetchar K s).2 with
    | error e =>
      obtain ⟨f, t⟩ := e
      rw [hsw] at hsk
      exact ⟨q, rfl, h1.keep hsk.1 hsk.2⟩
    | ok x =>
      rw [hsw] at hsk
      cases x with
      | returned s2 => exact ⟨q, rfl, h1.keep hsk.1 hsk.2⟩
      | accumulate s2 =>
        exact genieDoEvents_accumulate_sameQueued K e hpow _ q s2 (h1.keep hsk.1 hsk.2)

/-- The loop of the idle wait on two queues that hold the same frames. -/
theorem _genieWaitForIdle_loop_sameQueued (K : GenieConsts) (e : Nat)
    (hpow : K.MAX_GENIE_EVENTS = 2 ^ e) :
    ∀ (fuel timeout : Nat) (q : genieEventQueueStruct) (s : GenieState), SameQueued K s q →
      ∃ q2, _genieWaitForIdle_loop K fuel timeout (withQueue q s) =
          Run.over (withQueue q2) (withQueue q2) (_genieWaitForIdle_loop K fuel timeout s) ∧
        SameQueued K (Run.finalState (_genieWaitForIdle_loop K fuel timeout s)) q2
  | 0, _, q, _, h => ⟨q, rfl, h⟩
  | fuel + 1, timeout, q, s, h => by
    rw [_genieWaitForIdle_loop_succ, _genieWaitForIdle_loop_succ, millis_withQueue]
    cases hm : millis s with
    | error e =>
      obtain ⟨f, t⟩ := e
      have ht := millis_fault_keep s t f hm
      subst ht
      exact ⟨q, rfl, h⟩
    | ok p =>
      obtain ⟨now, s1⟩ := p
      have hk := millis_keep s s1 now hm
      have h1 : SameQueued K s1 q := h.keep hk.1 hk.2
      simp only [Run.over]
      by_cases hlt : now < timeout
      · rw [if_pos hlt, if_pos hlt]
        obtain ⟨q2, hd, hs2⟩ := genieDoEvents_sameQueued K e hpow q s1 h1
        rw [hd]
        cases hde : genieDoEvents K s1 with
        | error e =>
          obtain ⟨f, t⟩ := e
          rw [hde] at hs2
          exact ⟨q2, rfl, hs2⟩
        | ok p =>
          obtain ⟨s2, r⟩ := p
          rw [hde] at hs2
          have hs2' : SameQueued K s2 q2 := hs2
          simp only [Run.over]
          by_cases hr : r = K.GENIE_EVENT_RXCHAR
          · rw [if_pos hr, if_pos hr, millis_withQueue]
            cases hm2 : millis s2 with
            | error e =>
              obtain ⟨f, t⟩ := e
              have ht := millis_fault_keep s2 t f hm2
              subst ht
              exact ⟨q2, rfl, hs2'⟩
            | ok p =>
              obtain ⟨t, s3⟩ := p
              have hk3 := millis_keep s2 s3 t hm2
              have h3 : SameQueued K s3 q2 := hs2'.keep hk3.1 hk3.2
              simp only [Run.over]
              by_cases hidle : _genieGetLinkState s3 = GENIE_LINK_IDLE
              · have hidle2 : _genieGetLinkState (withQueue q2 s3) = GENIE_LINK_IDLE := hidle
                rw [if_pos hidle, if_pos hidle2]
                exact ⟨q2, rfl, h3⟩
              · have hidle2 : ¬ _genieGetLinkState (withQueue q2 s3) = GENIE_LINK_IDLE := hidle
                rw [if_neg hidle, if_neg hidle2]
                exact _genieWaitForIdle_loop_sameQueued K e hpow fuel (timeoutAfter s3 t) q2 s3 h3
          · rw [if_neg hr, if_neg hr]
            by_cases hidle : _genieGetLinkState s2 = GENIE_LINK_IDLE
            · have hidle2 : _genieGetLinkState (withQueue q2 s2) = GENIE_LINK_IDLE := hidle
              rw [if_pos hidle, if_pos hidle2]
              exact ⟨q2, rfl, hs2'⟩
            · have hidle2 : ¬ _genieGetLinkState (withQueue q2 s2) = GENIE_LINK_IDLE := hidle
              rw [if_neg hidle, if_neg hidle2]
              exact _genieWaitForIdle_loop_sameQueued K e hpow fuel timeout q2 s2 hs2'
      · rw [if_neg hlt, if_neg hlt]
        exact ⟨q, rfl, h1.keep rfl rfl⟩

/-- The idle wait on two queues that hold the same frames. -/
theorem _genieWaitForIdle_sameQueued (K : GenieConsts) (e : Nat)
    (hpow : K.MAX_GENIE_EVENTS = 2 ^ e) (q : genieEventQueueStruct) (s : GenieState)
    (h : SameQueued K s q) :
    ∃ q2, _genieWaitForIdle K (withQueue q s) =
        Run.over (withQueue q2) (withQueue q2) (_genieWaitForIdle K s) ∧
      SameQueued K (Run.finalState (_genieWaitForIdle K s)) q2 := by
  unfold _genieWaitForIdle
  rw [millis_withQueue]
  cases hm : millis s with
  | error e =>
    obtain ⟨f, t⟩ := e
    have ht := millis_fault_keep s t f hm
    subst ht
    exact ⟨q, rfl, h⟩
  | ok p =>
    obtain ⟨t0, s1⟩ := p
    have hk := millis_keep s s1 t0 hm
    exact _genieWaitForIdle_loop_sameQueued K e hpow _ _ q s1 (h.keep hk.1 hk.2)

/-- After the flush any two queue records of the declared sizes hold the same
frames: none. -/
theorem _genieFlushEventQueue_sameQueued (K : GenieConsts) (e : Nat)
    (hpow : K.MAX_GENIE_EVENTS = 2 ^ e) (q : genieEventQueueStruct) (s : GenieState)
    (hlay : s.Layout K) (hq1 : q.frames.length = K.MAX_GENIE_EVENTS)
    (hq2 : ∀ f ∈ q.frames, f.length = GENIE_FRAME_SIZE) :
    SameQueued K (_genieFlushEventQueue s) (_genieFlushEventQueue (withQueue q s))._genieEventQueue := by
  have hM : 0 < K.MAX_GENIE_EVENTS := by rw [hpow]; exact Nat.two_pow_pos e
  obtain ⟨_, l2, l3, l4⟩ := hlay
  refine ⟨rfl, ⟨l3, l4, hM, ?_⟩, ⟨hq1, hq2, hM, ?_⟩, ?_, l2⟩
  · show 0 = (0 + 0) % K.MAX_GENIE_EVENTS
    simp
  · show 0 = (0 + 0) % K.MAX_GENIE_EVENTS
    simp
  · simp [queued, withQueue, _genieFlushEventQueue]

/-- `genieReadObject` started on any two queue records of the declared sizes
gives the same result, and the queues hold the same frames at its end. -/
theorem genieReadObject_sameQueued (K : GenieConsts) (e : Nat)
    (hpow : K.MAX_GENIE_EVENTS = 2 ^ e) (object index : Nat) (q : genieEventQueueStruct)
    (s : GenieState)
    (hlay : s.Layout K) (hq1 : q.frames.length = K.MAX_GENIE_EVENTS)
    (hq2 : ∀ f ∈ q.frames, f.length = GENIE_FRAME_SIZE) :
    ∃ q2, genieReadObject K object index (withQueue q s) =
        Run.over (fun p => (withQueue q2 p.1, p.2)) (withQueue q2)
          (genieReadObject K object index s) ∧
      SameQueued K (Run.endState (genieReadObject K object index s)) q2 := by
  have hf := _genieFlushEventQueue_sameQueued K e hpow q s hlay hq1 hq2
  obtain ⟨q2, hw, hs⟩ := _genieWaitForIdle_sameQueued K e hpow _ (_genieFlushEventQueue s) hf
  have hw2 : _genieWaitForIdle K (_genieFlushEventQueue (withQueue q s)) =
      Run.over (withQueue q2) (withQueue q2) (_genieWaitForIdle K (_genieFlushEventQueue s)) := hw
  unfold genieReadObject
  rw [hw2]
  cases hwait : _genieWaitForIdle K (_genieFlushEventQueue s) with
  | error e =>
    obtain ⟨f, t⟩ := e
    rw [hwait] at hs
    exact ⟨q2, rfl, hs⟩
  | ok s1 =>
    rw [hwait] at hs
    have hs1 : SameQueued K s1 q2 := hs
    simp only [Run.over]
    refine ⟨q2, ?_, ?_⟩
    · rw [show ({ withQueue q2 s1 with _genieError := K.ERROR_NONE } : GenieState) =
        withQueue q2 { s1 with _genieError := K.ERROR_NONE } from rfl]
      simp only [_geniePutchar_withQueue, _geniePushLinkState_withQueue]
      cases _geniePushLinkState GENIE_LINK_WF_RXREPORT
        (_geniePutchar (toU8 (toU8 (toU8 K.GENIE_READ_OBJ ^^^ toU16 object) ^^^ toU16 index))
          (_geniePutchar (toU16 index) (_geniePutchar (toU16 object)
            (_geniePutchar K.GENIE_READ_OBJ { s1 with _genieError := K.ERROR_NONE })))) with
      | error e => rfl
      | ok t => rfl
    · rw [endState_map_state]
      have hp := _geniePushLinkState_keep GENIE_LINK_WF_RXREPORT
        (_geniePutchar (toU8 (toU8 (toU8 K.GENIE_READ_OBJ ^^^ toU16 object) ^^^ toU16 index))
          (_geniePutchar (toU16 index) (_geniePutchar (toU16 object)
            (_geniePutchar K.GENIE_READ_OBJ { s1 with _genieError := K.ERROR_NONE }))))
      have k1 := _geniePutchar_keep K.GENIE_READ_OBJ { s1 with _genieError := K.ERROR_NONE }
      have k2 := _geniePutchar_keep (toU16 object)
        (_geniePutchar K.GENIE_READ_OBJ { s1 with _genieError := K.ERROR_NONE })
      have k3 := _geniePutchar_keep (toU16 index) (_geniePutchar (toU16 object)
        (_geniePutchar K.GENIE_READ_OBJ { s1 with _genieError := K.ERROR_NONE }))
      have k4 := _geniePutchar_keep
        (toU8 (toU8 (toU8 K.GENIE_READ_OBJ ^^^ toU16 object) ^^^ toU16 index))
        (_geniePutchar (toU16 index) (_geniePutchar (toU16 object)
          (_geniePutchar K.GENIE_READ_OBJ { s1 with _genieError := K.ERROR_NONE })))
      exact hs1.keep
        (hp.1.trans (k4.1.trans (k3.1.trans (k2.1.trans k1.1))))
        (hp.2.trans (k4.2.trans (k3.2.trans (k2.2.trans k1.2))))

/-- Dequeueing from two queues that hold the same frames returns the same. -/
theorem dequeueTimes_sameQueued (K : GenieConsts) (e : Nat) (hpow : K.MAX_GENIE_EVENTS = 2 ^ e) :
    ∀ (n : Nat) (buff : List Nat) (s t : GenieState), QueueInv K s → QueueInv K t →
      t._genieEventQueue.n_events = s._genieEventQueue.n_events → queued K t = queued K s →
      buff.length = GENIE_FRAME_SIZE →
      (dequeueTimes K n buff t).1 = (dequeueTimes K n buff s).1
  | 0, _, _, _, _, _, _, _, _ => rfl
  | n + 1, buff, s, t, hs, ht, hn, hq, hb => by
    by_cases h0 : s._genieEventQueue.n_events = 0
    · have h0t : t._genieEventQueue.n_events = 0 := by rw [hn]; exact h0
      simp only [dequeueTimes, genieDequeueEvent_empty K s buff h0,
        genieDequeueEvent_empty K t buff h0t]
      rw [dequeueTimes_sameQueued K e hpow n buff s t hs ht hn hq hb]
    · obtain ⟨f, a1, a2, a3, a4, a5⟩ := genieDequeueEvent_queued K e hpow s buff hs hb
        (Nat.pos_of_ne_zero h0)
      obtain ⟨g, b1, b2, b3, b4, b5⟩ := genieDequeueEvent_queued K e hpow t buff ht hb
        (by rw [hn]; exact Nat.pos_of_ne_zero h0)
      have hfg : g :: queued K (genieDequeueEvent K buff t).1 =
          f :: queued K (genieDequeueEvent K buff s).1 := by rw [← a1, ← b1, hq]
      injection hfg with hfg1 hfg2
      have hb1 : (genieDequeueEvent K buff s).2.1 = f := by rw [a2]
      have hb2 : (genieDequeueEvent K buff t).2.1 = f := by rw [b2, hfg1]
      have hr1 : (genieDequeueEvent K buff s).2.2 = true := by rw [a2]
      have hr2 : (genieDequeueEvent K buff t).2.2 = true := by rw [b2]
      simp only [dequeueTimes, hb1, hb2, hr1, hr2]
      rw [dequeueTimes_sameQueued K e hpow n f (genieDequeueEvent K buff s).1
        (genieDequeueEvent K buff t).1 a4 b4 (by rw [a5, b5, hn]) hfg2 a3]

/-! ## The event queue across a wait during which nothing arrives -/

theorem head_none_of_all_none (l : List (Option Nat)) (h : ∀ x ∈ l, x = none) :
    l.head? = none ∨ l.head? = some none := by
  cases l with
  | nil => exact .inl rfl
  | cons x xs =>
    right
    rw [h x (List.mem_cons_self _ _)]
    rfl

theorem millis_ok_eq (s t : GenieState) (n : Nat) (h : millis s = .ok (n, t)) :
    t = { s with clockScript := s.clockScript.tail } := by
  simp only [millis] at h
  split at h
  · rename_i t1 rest hc
    cases h
    rw [hc]
    rfl
  · cases h

/-- With nothing queued and nothing arriving, the loop of the idle wait ends
with the event queue as it was, however it ends. -/
theorem _genieWaitForIdle_loop_quiet_queue (K : GenieConsts) :
    ∀ (fuel timeout : Nat) (s : GenieState), s.getCharBound = true →
      (∀ x ∈ s.rxScript, x = none) → s._genieEventQueue.n_events = 0 →
      (Run.finalState (_genieWaitForIdle_loop K fuel timeout s))._genieEventQueue =
        s._genieEventQueue
  | 0, _, _, _, _, _ => rfl
  | fuel + 1, timeout, s, hget, hrx, hq => by
    rw [_genieWaitForIdle_loop_succ]
    cases hm : millis s with
    | error e =>
      obtain ⟨f, t⟩ := e
      have ht := millis_fault_keep s t f hm
      subst ht
      rfl
    | ok p =>
      obtain ⟨now, s1⟩ := p
      have hs1 := millis_ok_eq s s1 now hm
      subst hs1
      simp only []
      have hd := genieDoEvents_quiet K { s with clockScript := s.clockScript.tail } hget
        (head_none_of_all_none _ hrx) hq
      by_cases hlt : now < timeout
      · rw [if_pos hlt, hd]
        simp only []
        by_cases hr : K.GENIE_EVENT_NONE = K.GENIE_EVENT_RXCHAR
        · rw [if_pos hr]
          cases hm2 : millis { s with
              clockScript := s.clockScript.tail, _genieError := K.ERROR_NOCHAR,
              rxScript := s.rxScript.tail } with
          | error e =>
            obtain ⟨f, t⟩ := e
            have ht := millis_fault_keep _ t f hm2
            subst ht
            rfl
          | ok p =>
            obtain ⟨t2, s3⟩ := p
            have hs3 := millis_ok_eq _ s3 t2 hm2
            subst hs3
            simp only []
            split_ifs
            · rfl
            · exact _genieWaitForIdle_loop_quiet_queue K fuel _ _ hget
                (fun x hx => hrx x (List.mem_of_mem_tail hx)) hq
        · rw [if_neg hr]
          split_ifs
          · rfl
          · exact _genieWaitForIdle_loop_quiet_queue K fuel timeout
              { s with
                  clockScript := s.clockScript.tail, _genieError := K.ERROR_NOCHAR,
                  rxScript := s.rxScript.tail }
              hget (fun x hx => hrx x (List.mem_of_mem_tail hx)) hq
      · rw [if_neg hlt]
        rfl

/-- With nothing queued and nothing arriving, the idle wait ends with the event
queue as it was. -/
theorem _genieWaitForIdle_quiet_queue (K : GenieConsts) (s : GenieState)
    (hget : s.getCharBound = true) (hrx : ∀ x ∈ s.rxScript, x = none)
    (hq : s._genieEventQueue.n_events = 0) :
    (Run.finalState (_genieWaitForIdle K s))._genieEventQueue = s._genieEventQueue := by
  unfold _genieWaitForIdle
  cases hc : s.clockScript with
  | nil =>
    have hm : millis s = .error (.clockExhausted, s) := by simp [millis, hc]
    rw [hm]
    rfl
  | cons t0 rest =>
    rw [millis_cons s t0 rest hc]
    exact _genieWaitForIdle_loop_quiet_queue K _ _ { s with clockScript := rest } hget hrx hq

/-- With nothing arriving, `genieReadObject` ends with the event queue as the
flush left it, however it ends. -/
theorem genieReadObject_quiet_queue (K : GenieConsts) (object index : Nat) (s : GenieState)
    (hget : s.getCharBound = true) (hrx : ∀ x ∈ s.rxScript, x = none) :
    (Run.endState (genieReadObject K object index s))._genieEventQueue =
      (_genieFlushEventQueue s)._genieEventQueue := by
  have hw := _genieWaitForIdle_quiet_queue K (_genieFlushEventQueue s) hget hrx rfl
  unfold genieReadObject
  cases hwait : _genieWaitForIdle K (_genieFlushEventQueue s) with
  | error e =>
    obtain ⟨f, t⟩ := e
    rw [hwait] at hw
    exact hw
  | ok s1 =>
    rw [hwait] at hw
    simp only []
    rw [endState_map_state, (_geniePushLinkState_keep _ _).1, (_geniePutchar_keep _ _).1,
      (_geniePutchar_keep _ _).1, (_geniePutchar_keep _ _).1, (_geniePutchar_keep _ _).1]
    exact hw

/-- With nothing arriving, room on the link state stack and a clock that passes
the deadline, the idle wait that `genieReadObject` starts with returns, the link
state stack as it was. -/
theorem _genieWaitForIdle_quiet_returns (K : GenieConsts)
    (hres : K.GENIE_EVENT_NONE ≠ K.GENIE_EVENT_RXCHAR) (s : GenieState) (t0 tn : Nat)
    (ts rest : List Nat)
    (hget : s.getCharBound = true) (hrx : ∀ x ∈ s.rxScript, x = none)
    (hq : s._genieEventQueue.n_events = 0)
    (hclock : s.clockScript = t0 :: (ts ++ tn :: rest))
    (hbelow : ∀ t ∈ ts, t % 2 ^ 32 < timeoutAfter s (t0 % 2 ^ 32))
    (hpast : ¬ tn % 2 ^ 32 < timeoutAfter s (t0 % 2 ^ 32)) :
    ∃ s1, _genieWaitForIdle K s = .ok s1 ∧ stackView s1 = stackView s := by
  by_cases hidle : _genieGetLinkState s = GENIE_LINK_IDLE
  · cases ts with
    | nil =>
      exact ⟨_, _genieWaitForIdle_immediate_timeout K s t0 tn rest (by simpa using hclock) hpast,
        rfl⟩
    | cons t1 ts1 =>
      exact ⟨_, _genieWaitForIdle_idle K s t0 t1 (ts1 ++ tn :: rest) hres hidle hget
        (head_none_of_all_none _ hrx) hq (by simpa using hclock)
        (hbelow t1 (List.mem_cons_self _ _)), rfl⟩
  · obtain ⟨s1, h, _, hst, _⟩ := _genieWaitForIdle_quiet K hres s t0 tn ts rest hclock hget hrx
      hidle (fun h => absurd h (by rw [hq]; exact Nat.lt_irrefl 0)) hbelow hpast
    exact ⟨s1, h, hst⟩

theorem endState_over (q : genieEventQueueStruct) {α : Type} (r : Run (GenieState × α)) :
    Run.endState (Run.over (fun p => (withQueue q p.1, p.2)) (withQueue q) r) =
      withQueue q (Run.endState r) := by
  cases r with
  | error e => rfl
  | ok p => rfl

/-! ## What an encoder sends and pushes after its idle wait -/

theorem _geniePushLinkState_sp (n : Nat) (s : GenieState) :
    (Run.finalState (_geniePushLinkState n s))._genieLinkState = s._genieLinkState + 1 := by
  simp only [_geniePushLinkState, _genieSetLinkState]
  split
  · split <;> rfl
  · rfl

theorem _geniePutchar_sp (c : Nat) (s : GenieState) :
    (_geniePutchar c s)._genieLinkState = s._genieLinkState :=
  congrArg Prod.snd (_geniePutchar_stackView c s)

theorem genieWriteObject_toU16 (K : GenieConsts) (object index data : Nat) (s : GenieState) :
    genieWriteObject K object index data s = genieWriteObject K object index (toU16 data) s := by
  have h : toU16 (toU16 data) = toU16 data := Nat.mod_mod _ _
  simp only [genieWriteObject, h]

/-- The transmit log after `genieReadObject` on a link with a transmit handler
bound and an idle wait that returns. -/
theorem genieReadObject_txLog (K : GenieConsts) (hK : K.WellFormed) (object index : Nat)
    (s s1 : GenieState) (hput : s.putCharBound = true)
    (hwait : _genieWaitForIdle K (_genieFlushEventQueue s) = .ok s1) :
    (Run.endState (genieReadObject K object index s)).txLog =
      s.txLog ++ [K.GENIE_READ_OBJ, object % 256, index % 256,
        K.GENIE_READ_OBJ ^^^ (object % 256) ^^^ (index % 256)] := by
  have hR : K.GENIE_READ_OBJ < 256 := hK.2.2.2.2.2.2.2.2.2.2.1
  have hv := _genieWaitForIdle_txView K _ s1 hwait
  simp only [txView, Prod.mk.injEq] at hv
  obtain ⟨hlog, hb⟩ := hv
  have hb1 : s1.putCharBound = true := by rw [hb]; exact hput
  have hlog1 : s1.txLog = s.txLog := hlog
  simp only [genieReadObject, hwait, endState_map_state, _geniePushLinkState_txLog]
  simp only [_geniePutchar, hb1, if_true, hlog1, List.append_assoc, List.singleton_append,
    toU8_xor_toU8, toU8_toU8, toU8_toU16, toU8_of_lt _ hR]
  simp [toU8]

/-- The transmit log after `genieWriteContrast` on a link with a transmit
handler bound and an idle wait that returns. -/
theorem genieWriteContrast_txLog (K : GenieConsts) (hK : K.WellFormed) (value : Nat)
    (s s1 : GenieState) (hput : s.putCharBound = true)
    (hwait : _genieWaitForIdle K s = .ok s1) :
    (Run.finalState (genieWriteContrast K value s)).txLog =
      s.txLog ++ [K.GENIE_WRITE_CONTRAST, value % 256,
        K.GENIE_WRITE_CONTRAST ^^^ (value % 256)] := by
  have hC : K.GENIE_WRITE_CONTRAST < 256 := hK.2.2.2.2.2.2.2.2.2.2.2.2.2.2.1
  have hv := _genieWaitForIdle_txView K _ s1 hwait
  simp only [txView, Prod.mk.injEq] at hv
  obtain ⟨hlog, hb⟩ := hv
  have hb1 : s1.putCharBound = true := by rw [hb]; exact hput
  simp only [genieWriteContrast, hwait, _geniePushLinkState_txLog]
  simp only [_geniePutchar, hb1, if_true, hlog, List.append_assoc, List.singleton_append,
    toU8_mod_uint K hK, toU8_xor_toU8, toU8_toU8, toU8_toU16, toU8_of_lt _ hC]
  simp [toU8]

theorem _genieWriteStrX_loop_sp (K : GenieConsts) (bs : List Nat) (checksum : Nat)
    (s : GenieState) :
    (_genieWriteStrX_loop K bs checksum s).2._genieLinkState = s._genieLinkState :=
  congrArg Prod.snd (_genieWriteStrX_loop_stackView K bs checksum s)

theorem sendsAndPushes_intro (K : GenieConsts) (s s1 t : GenieState) (completed : Bool)
    (bytes : List Nat) (reply : Nat)
    (hw : _genieWaitForIdle K s = .ok s1)
    (htx : s.putCharBound = true → t.txLog = s.txLog ++ bytes)
    (hsp : t._genieLinkState = s1._genieLinkState + 1)
    (hroom : s1._genieLinkStates.length = LINK_STACK_SIZE →
      s1._genieLinkState + 1 < LINK_STACK_SIZE →
      completed = true ∧ _genieGetLinkState t = reply ∧
      ∀ i, i ≤ s1._genieLinkState → t._genieLinkStates.getD i 0 = s1._genieLinkStates.getD i 0) :
    sendsAndPushes K s t completed bytes reply := by
  have hlog : s1.txLog = s.txLog := congrArg Prod.fst (_genieWaitForIdle_txView K s s1 hw)
  simp only [sendsAndPushes, hw]
  exact ⟨_genieWaitForIdle_exit K s s1 hw, hlog, fun h => by rw [hlog]; exact htx h, hsp, hroom⟩

/-! ## The clock script and the timeout across a poll -/

theorem _genieGetchar_clock (K : GenieConsts) (s : GenieState) :
    (_genieGetchar K s).2.clockScript = s.clockScript ∧
      (_genieGetchar K s).2._genieTimeout = s._genieTimeout := by
  simp only [_genieGetchar, _genieGetchar_Serial]
  split
  · split <;> exact ⟨rfl, rfl⟩
  · exact ⟨rfl, rfl⟩

theorem callUserHandler_clock (s : GenieState) :
    (Run.finalState (callUserHandler s)).clockScript = s.clockScript ∧
      (Run.finalState (callUserHandler s))._genieTimeout = s._genieTimeout := by
  simp only [callUserHandler]
  split <;> exact ⟨rfl, rfl⟩

theorem _geniePushLinkState_clock (n : Nat) (s : GenieState) :
    (Run.finalState (_geniePushLinkState n s)).clockScript = s.clockScript ∧
      (Run.finalState (_geniePushLinkState n s))._genieTimeout = s._genieTimeout := by
  simp only [_geniePushLinkState, _genieSetLinkState]
  split
  · split <;> exact ⟨rfl, rfl⟩
  · exact ⟨rfl, rfl⟩

theorem _geniePopLinkState_clock (s : GenieState) :
    (_geniePopLinkState s).clockScript = s.clockScript ∧
      (_geniePopLinkState s)._genieTimeout = s._genieTimeout := by
  simp only [_geniePopLinkState]
  split <;> exact ⟨rfl, rfl⟩

theorem _genieEnqueueEvent_clock (K : GenieConsts) (data : List Nat) (s : GenieState) :
    (_genieEnqueueEvent K data s).1.clockScript = s.clockScript ∧
      (_genieEnqueueEvent K data s).1._genieTimeout = s._genieTimeout := by
  simp only [_genieEnqueueEvent]
  split <;> exact ⟨rfl, rfl⟩

theorem genieDoEvents_switch_clock (K : GenieConsts) (c : Nat) (s : GenieState) :
    match genieDoEvents_switch K c s with
    | .ok x => x.state.clockScript = s.clockScript ∧ x.state._genieTimeout = s._genieTimeout
    | .error (_, t) => t.clockScript = s.clockScript ∧ t._genieTimeout = s._genieTimeout := by
  have hpush : ∀ n (u : GenieState), u.clockScript = s.clockScript →
      u._genieTimeout = s._genieTimeout →
      match (_geniePushLinkState n u).map SwitchExit.accumulate with
      | .ok x => x.state.clockScript = s.clockScript ∧ x.state._genieTimeout = s._genieTimeout
      | .error (_, t) => t.clockScript = s.clockScript ∧ t._genieTimeout = s._genieTimeout := by
    intro n u h1 h2
    have hk := _geniePushLinkState_clock n u
    cases hp : _geniePushLinkState n u with
    | error e =>
      rw [hp] at hk
      exact ⟨hk.1.trans h1, hk.2.trans h2⟩
    | ok v =>
      rw [hp] at hk
      exact ⟨hk.1.trans h1, hk.2.trans h2⟩
  have hpop := _geniePopLinkState_clock s
  unfold genieDoEvents_switch
  split_ifs <;>
    first
      | exact ⟨rfl, rfl⟩
      | exact hpush _ s rfl rfl
      | exact hpush _ _ hpop.1 hpop.2
      | exact hpop

theorem genieDoEvents_accumulate_clock (K : GenieConsts) (c : Nat) (s : GenieState) :
    (Run.endState (genieDoEvents_accumulate K c s)).clockScript = s.clockScript ∧
      (Run.endState (genieDoEvents_accumulate K c s))._genieTimeout = s._genieTimeout := by
  by_cases hst : _genieGetLinkState s = GENIE_LINK_RXREPORT ∨
      _genieGetLinkState s = GENIE_LINK_RXEVENT
  · by_cases h6 : s.rxframe_count < 6
    · by_cases h5 : s.rxframe_count = 5
      · by_cases hcs : toU8 (s.checksum ^^^ c) = 0
        · rw [genieDoEvents_accumulate_last_good K c s hst h5 hcs]
          have hp := _geniePopLinkState_clock
            { (_genieEnqueueEvent K (s.rx_data.set 5 c)
                { s with checksum := 0, rx_data := s.rx_data.set 5 c }).1 with rxframe_count := 0 }
          have he := _genieEnqueueEvent_clock K (s.rx_data.set 5 c)
            { s with checksum := 0, rx_data := s.rx_data.set 5 c }
          exact ⟨hp.1.trans he.1, hp.2.trans he.2⟩
        · rw [genieDoEvents_accumulate_last_bad K c s hst h5 hcs]
          exact ⟨rfl, rfl⟩
      · rw [genieDoEvents_accumulate_mid K c s hst (by omega)]
        exact ⟨rfl, rfl⟩
    · rw [genieDoEvents_accumulate_overflow K c s hst (by omega)]
      exact ⟨rfl, rfl⟩
  · unfold genieDoEvents_accumulate
    rw [if_neg hst]
    exact ⟨rfl, rfl⟩

/-- A call of `genieDoEvents` reads no clock and leaves the timeout alone. -/
theorem genieDoEvents_clock (K : GenieConsts) (s : GenieState) :
    (Run.endState (genieDoEvents K s)).clockScript = s.clockScript ∧
      (Run.endState (genieDoEvents K s))._genieTimeout = s._genieTimeout := by
  have hg := _genieGetchar_clock K s
  unfold genieDoEvents
  simp only []
  split_ifs
  · rw [endState_map_state]
    have hc := callUserHandler_clock (_genieGetchar K s).2
    exact ⟨hc.1.trans hg.1, hc.2.trans hg.2⟩
  · exact hg
  · have hsk := genieDoEvents_switch_clock K (_genieGetchar K s).1 (_genieGetchar K s).2
    cases hsw : genieDoEvents_switch K (_genieGetchar K s).1 (_genieGetchar K s).2 with
    | error e =>
      obtain ⟨f, t⟩ := e
      rw [hsw] at hsk
      exact ⟨hsk.1.trans hg.1, hsk.2.trans hg.2⟩
    | ok x =>
      rw [hsw] at hsk
      cases x with
      | returned s2 => exact ⟨hsk.1.trans hg.1, hsk.2.trans hg.2⟩
      | accumulate s2 =>
        have ha := genieDoEvents_accumulate_clock K (_genieGetchar K s).1 s2
        exact ⟨ha.1.trans (hsk.1.trans hg.1), ha.2.trans (hsk.2.trans hg.2)⟩

/-! ## The rest of a wait after a poll -/

theorem millis_ok_length (s t : GenieState) (n : Nat) (h : millis s = .ok (n, t)) :
    t.clockScript.length + 1 = s.clockScript.length := by
  simp only [millis] at h
  split at h
  · rename_i t1 rest hc
    cases h
    rw [hc]
    rfl
  · cases h

/-- The loop of the idle wait does not depend on its fuel once the fuel exceeds
the number of clock readings left: every iteration reads the clock. -/
theorem _genieWaitForIdle_loop_fuel (K : GenieConsts) :
    ∀ (f g timeout : Nat) (s : GenieState), s.clockScript.length < f →
      s.clockScript.length < g →
      _genieWaitForIdle_loop K f timeout s = _genieWaitForIdle_loop K g timeout s
  | 0, _, _, _, hf, _ => absurd hf (Nat.not_lt_zero _)
  | _, 0, _, _, _, hg => absurd hg (Nat.not_lt_zero _)
  | f + 1, g + 1, timeout, s, hf, hg => by
    rw [_genieWaitForIdle_loop_succ, _genieWaitForIdle_loop_succ]
    cases hm : millis s with
    | error e => rfl
    | ok p =>
      obtain ⟨now, s1⟩ := p
      have hl1 := millis_ok_length s s1 now hm
      simp only []
      split_ifs with hlt
      · have hc := genieDoEvents_clock K s1
        cases hd : genieDoEvents K s1 with
        | error e => rfl
        | ok p =>
          obtain ⟨s2, r⟩ := p
          rw [hd] at hc
          have hc2 : s2.clockScript = s1.clockScript := hc.1
          simp only []
          split_ifs with hr hidle
          · cases hm2 : millis s2 with
            | error e => rfl
            | ok p =>
              obtain ⟨t, s3⟩ := p
              have hl3 := millis_ok_length s2 s3 t hm2
              simp only []
              split_ifs with hidle
              · rfl
              · exact _genieWaitForIdle_loop_fuel K f g _ s3 (by rw [hc2] at hl3; omega)
                  (by rw [hc2] at hl3; omega)
          · rfl
          · exact _genieWaitForIdle_loop_fuel K f g timeout s2 (by rw [hc2]; omega)
              (by rw [hc2]; omega)
      · rfl

/-- The deadline where the sum of entry time and timeout stays below
`2 ^ 32`. -/
theorem timeoutAfter_no_wrap (s : GenieState) (t0 : Nat) (h0 : t0 < 2 ^ 32)
    (hT : 0 ≤ s._genieTimeout) (hsum : (t0 : Int) + s._genieTimeout < 2 ^ 32) :
    (timeoutAfter s (t0 % 2 ^ 32) : Int) = t0 + s._genieTimeout := by
  rw [Nat.mod_eq_of_lt h0]
  simp only [timeoutAfter]
  have hnn : (0 : Int) ≤ (t0 : Int) + s._genieTimeout := by omega
  rw [Int.emod_eq_of_lt hnn hsum, Int.toNat_of_nonneg hnn]

/-- The deadline where the sum of entry time and timeout reaches `2 ^ 32`: it
wraps to a value below the entry time, and the first check of the loop fails at
any reading that has not wrapped yet. -/
theorem _genieWaitForIdle_wrapped (K : GenieConsts) (s : GenieState) (t0 t1 : Nat)
    (rest : List Nat)
    (hclock : s.clockScript = t0 :: t1 :: rest)
    (hmono : t0 ≤ t1) (ht1 : t1 < 2 ^ 32)
    (hT : 0 < s._genieTimeout) (hTlt : s._genieTimeout < 2 ^ 32)
    (hwrap : (2 : Int) ^ 32 ≤ t0 + s._genieTimeout) :
    _genieWaitForIdle K s =
      .ok { s with clockScript := rest, _genieError := K.ERROR_TIMEOUT } := by
  apply _genieWaitForIdle_immediate_timeout K s t0 t1 rest hclock
  have ht0 : t0 < 2 ^ 32 := by omega
  rw [Nat.mod_eq_of_lt ht1, Nat.mod_eq_of_lt ht0]
  simp only [timeoutAfter]
  have h32 : (2 : Int) ^ 32 = 4294967296 := by norm_num
  have hn32 : (2 : Nat) ^ 32 = 4294967296 := by norm_num
  rw [h32] at hwrap hTlt ⊢
  rw [hn32] at ht1 ht0
  omega

/-! ## Claims C1 to C3: frames arriving byte by byte -/

/-- C1: for every 6-byte frame `F` whose bytes XOR to zero, if the current link
state is `GENIE_LINK_RXREPORT` or `GENIE_LINK_RXEVENT` with `rxframe_count = 0`,
there is an entry beneath the top of the stack and the event queue is not at
capacity, then six calls of `genieDoEvents` that read the bytes of `F` enqueue
exactly one frame, equal to `F` byte for byte, leave `rxframe_count` at zero
and make the entry that was beneath the receiving state the current one. -/
theorem C1_valid_frame_delivered (K : GenieConsts) (hK : K.WellFormed) (s : GenieState)
    (F : List Nat) (rest : List (Option Nat))
    (hlay : s.Layout K) (hget : s.getCharBound = true)
    (hlen : F.length = 6) (hbytes : ∀ b ∈ F, b < 256) (hxor : xorAll F = 0)
    (hstate : _genieGetLinkState s = GENIE_LINK_RXREPORT ∨ _genieGetLinkState s = GENIE_LINK_RXEVENT)
    (hcount : s.rxframe_count = 0)
    (hsp : 0 < s._genieLinkState)
    (hroom : s._genieEventQueue.n_events < K.MAX_GENIE_EVENTS - 2)
    (hwr : s._genieEventQueue.wr_index < K.MAX_GENIE_EVENTS)
    (hrx : s.rxScript = F.map some ++ rest) :
    ∃ s1, genieDoEventsTimes K 6 s = .ok s1 ∧
      s1._genieEventQueue.n_events = s._genieEventQueue.n_events + 1 ∧
      s1._genieEventQueue.frames = s._genieEventQueue.frames.set s._genieEventQueue.wr_index F ∧
      s1._genieEventQueue.frames.getD s._genieEventQueue.wr_index [] = F ∧
      s1._genieEventQueue.rd_index = s._genieEventQueue.rd_index ∧
      s1._genieEventQueue.wr_index =
        (s._genieEventQueue.wr_index + 1) &&& (K.MAX_GENIE_EVENTS - 1) ∧
      s1.rxframe_count = 0 ∧
      s1._genieLinkState = s._genieLinkState - 1 ∧
      _genieGetLinkState s1 = s._genieLinkStates.getD (s._genieLinkState - 1) 0 ∧
      (∀ i, i < s._genieLinkState → s1._genieLinkStates.getD i 0 = s._genieLinkStates.getD i 0) ∧
      s1.rxScript = rest := by
  obtain ⟨hl1, hl2, hl3, hl4⟩ := hlay
  refine ⟨_, genieDoEventsTimes_frame_closed K hK s F rest hlen hbytes hxor hstate hcount hget hrx hl2, ?_⟩
  have hslot : (s._genieEventQueue.frames.getD s._genieEventQueue.wr_index []).length = 6 := by
    have hi : s._genieEventQueue.wr_index < s._genieEventQueue.frames.length := by omega
    rw [List.getD_eq_getElem _ _ hi]
    exact hl4 _ (List.getElem_mem hi)
  have hm : memcpy (s._genieEventQueue.frames.getD s._genieEventQueue.wr_index []) F
      GENIE_FRAME_SIZE = F := by
    unfold memcpy GENIE_FRAME_SIZE
    rw [List.take_of_length_le (le_of_eq hlen), List.drop_of_length_le (le_of_eq hslot),
      List.append_nil]
  have hwr2 : s._genieEventQueue.wr_index < s._genieEventQueue.frames.length := by omega
  simp only [_genieEnqueueEvent, hroom, if_true, hm, _geniePopLinkState, hsp, gt_iff_lt,
    _genieGetLinkState]
  refine ⟨trivial, trivial, ?_, trivial, trivial, trivial, trivial, ?_, ?_, trivial⟩
  · simp [List.getD, hwr2]
  · apply getD_set_ne; omega
  · intro i hi; apply getD_set_ne; omega

/-- Witness of C1: the event frame `[7, 1, 2, 3, 4, 3]` received from
`GENIE_LINK_RXEVENT` over idle is queued and the link is idle again. -/
theorem C1_valid_frame_delivered_witness :
    ∃ s1, genieDoEventsTimes visiGenie 6 (linkUpIn GENIE_LINK_RXEVENT [7, 1, 2, 3, 4, 3]) = .ok s1 ∧
      s1._genieEventQueue.n_events = 1 ∧
      s1._genieEventQueue.frames.getD 0 [] = [7, 1, 2, 3, 4, 3] ∧
      s1.rxframe_count = 0 ∧
      _genieGetLinkState s1 = GENIE_LINK_IDLE := by
  obtain ⟨s1, h, hn, _, hf, _, _, hc, _, hst, _, _⟩ :=
    C1_valid_frame_delivered visiGenie (by decide) (linkUpIn GENIE_LINK_RXEVENT [7, 1, 2, 3, 4, 3])
      [7, 1, 2, 3, 4, 3] [] (by decide) (by decide) (by decide) (by decide) (by decide)
      (by decide) (by decide) (by decide) (by decide) (by decide) (by decide)
  exact ⟨s1, h, hn, hf, hc, hst⟩

/-- C2: for every 6-byte sequence whose bytes XOR to a non-zero value, fed to
`genieDoEvents` one byte per call from `GENIE_LINK_RXREPORT` or
`GENIE_LINK_RXEVENT` with `rxframe_count = 0`, the event queue (frames, read
index, write index, `n_events`) is unchanged after the sixth byte and
`_genieError` is `ERROR_BAD_CS` after that call. -/
theorem C2_bad_checksum_not_delivered (K : GenieConsts) (hK : K.WellFormed) (s : GenieState)
    (F : List Nat) (rest : List (Option Nat))
    (hget : s.getCharBound = true)
    (hlen : F.length = 6) (hbytes : ∀ b ∈ F, b < 256) (hxor : xorAll F ≠ 0)
    (hstate : _genieGetLinkState s = GENIE_LINK_RXREPORT ∨ _genieGetLinkState s = GENIE_LINK_RXEVENT)
    (hcount : s.rxframe_count = 0)
    (hrx : s.rxScript = F.map some ++ rest) :
    ∃ s1, genieDoEventsTimes K 6 s = .ok s1 ∧
      s1._genieEventQueue = s._genieEventQueue ∧ s1._genieError = K.ERROR_BAD_CS := by
  match F, hlen with
  | [b0, b1, b2, b3, b4, b5], _ =>
    have hb := hbytes
    simp only [List.mem_cons, List.mem_singleton, forall_eq_or_imp, forall_eq, List.not_mem_nil,
      false_imp_iff, implies_true, and_true] at hb
    obtain ⟨h0, h1, h2, h3, h4, h5⟩ := hb
    have hrun := genieDoEventsTimes_rxStore K hK 1 [b0, b1, b2, b3, b4] s (some b5 :: rest) hstate
      hget (by simpa using hrx) (fun b hb => hbytes b (by simp at hb ⊢; tauto)) (by simp [hcount])
    have hx := xor5_byte b0 b1 b2 b3 b4 h0 h1 h2 h3 h4
    have e5 := genieDoEvents_rxReject K hK
      ([b0, b1, b2, b3, b4].foldl (fun t b => rxStore K b t) s) b5 rest
      hstate hget (by simp [rxStore, hrx]) h5 (by simp [rxStore, hcount])
      (by
        simp only [List.foldl, rxStore, hcount]
        simp only [Nat.zero_add, Nat.reduceAdd, OfNat.ofNat_ne_zero, one_ne_zero, if_true, if_false, hx.1]
        rw [toU8_xor _ b5 hx.2 h5]
        simpa [xorAll] using hxor)
    have h6 : (6 : Nat) = [b0, b1, b2, b3, b4].length + 1 := rfl
    rw [h6, hrun, genieDoEventsTimes_succ, e5]
    exact ⟨_, rfl, rfl, rfl⟩

/-- Witness of C2: the report frame `[5, 1, 2, 3, 4, 9]`, whose bytes XOR to 8,
is not queued and leaves `ERROR_BAD_CS`. -/
theorem C2_bad_checksum_not_delivered_witness :
    ∃ s1, genieDoEventsTimes visiGenie 6 (linkUpIn GENIE_LINK_RXREPORT [5, 1, 2, 3, 4, 9]) = .ok s1 ∧
      s1._genieEventQueue = (linkUpIn GENIE_LINK_RXREPORT [5, 1, 2, 3, 4, 9])._genieEventQueue ∧
      s1._genieError = -8 :=
  C2_bad_checksum_not_delivered visiGenie (by decide)
    (linkUpIn GENIE_LINK_RXREPORT [5, 1, 2, 3, 4, 9]) [5, 1, 2, 3, 4, 9] []
    (by decide) (by decide) (by decide) (by decide) (by decide) (by decide) (by decide)

/-- Counterexample to C3 as stated: with the event queue at capacity, in
`GENIE_LINK_WFAN` with room on the stack, the valid event frame
`[7, 0, 0, 0, 0, 7]` is not enqueued: after the six calls the queue is as
before and `_genieError` is `ERROR_REPLY_OVR` (the link state is restored). -/
theorem C3_counterexample :
    (_genieGetLinkState (linkUpFull GENIE_LINK_WFAN [7, 0, 0, 0, 0, 7]) = GENIE_LINK_WFAN ∧
      (linkUpFull GENIE_LINK_WFAN [7, 0, 0, 0, 0, 7])._genieLinkState + 1 < LINK_STACK_SIZE ∧
      xorAll [7, 0, 0, 0, 0, 7] = 0 ∧ visiGenie.GENIE_REPORT_EVENT = 7) ∧
    ∃ s1, genieDoEventsTimes visiGenie 6 (linkUpFull GENIE_LINK_WFAN [7, 0, 0, 0, 0, 7]) = .ok s1 ∧
      s1._genieEventQueue = (linkUpFull GENIE_LINK_WFAN [7, 0, 0, 0, 0, 7])._genieEventQueue ∧
      s1._genieError = visiGenie.ERROR_REPLY_OVR ∧
      _genieGetLinkState s1 = GENIE_LINK_WFAN :=
  ⟨by decide, _, rfl, by decide, by decide, by decide⟩

/-- C3 (amended): in `GENIE_LINK_WFAN` or `GENIE_LINK_WF_RXREPORT`, with room for
one more stack entry and the event queue not at capacity, a 6-byte frame that
starts with the report-event marker and XORs to zero, fed one byte per call of
`genieDoEvents`, is enqueued, and the run ends with the interrupted state
current again (so not idle), the stack depth and every entry up to it as
before. -/
theorem C3_event_interrupts_wait (K : GenieConsts) (hK : K.WellFormed) (s : GenieState)
    (F : List Nat) (rest : List (Option Nat))
    (hlay : s.Layout K) (hget : s.getCharBound = true)
    (hlen : F.length = 6) (hbytes : ∀ b ∈ F, b < 256) (hxor : xorAll F = 0)
    (hmark : F.head? = some K.GENIE_REPORT_EVENT)
    (hS : _genieGetLinkState s = GENIE_LINK_WFAN ∨ _genieGetLinkState s = GENIE_LINK_WF_RXREPORT)
    (hstack : s._genieLinkState + 1 < LINK_STACK_SIZE)
    (hroom : s._genieEventQueue.n_events < K.MAX_GENIE_EVENTS - 2)
    (hwr : s._genieEventQueue.wr_index < K.MAX_GENIE_EVENTS)
    (hrx : s.rxScript = F.map some ++ rest) :
    ∃ s1, genieDoEventsTimes K 6 s = .ok s1 ∧
      s1._genieEventQueue.n_events = s._genieEventQueue.n_events + 1 ∧
      s1._genieEventQueue.frames = s._genieEventQueue.frames.set s._genieEventQueue.wr_index F ∧
      s1._genieEventQueue.frames.getD s._genieEventQueue.wr_index [] = F ∧
      s1._genieEventQueue.rd_index = s._genieEventQueue.rd_index ∧
      s1._genieEventQueue.wr_index =
        (s._genieEventQueue.wr_index + 1) &&& (K.MAX_GENIE_EVENTS - 1) ∧
      _genieGetLinkState s1 = _genieGetLinkState s ∧
      _genieGetLinkState s1 ≠ GENIE_LINK_IDLE ∧
      s1._genieLinkState = s._genieLinkState ∧
      (∀ i, i ≤ s._genieLinkState → s1._genieLinkStates.getD i 0 = s._genieLinkStates.getD i 0) := by
  match F, hlen with
  | [b0, b1, b2, b3, b4, b5], hlen =>
    simp only [List.head?_cons, Option.some.injEq] at hmark
    subst hmark
    have hrx1 : s.rxScript = some K.GENIE_REPORT_EVENT ::
        (some b1 :: some b2 :: some b3 :: some b4 :: some b5 :: rest) := by simpa using hrx
    have hp := _genieGetLinkState_rxPushed s hlay.1 hstack
    have e1 := genieDoEvents_interrupt K hK s _ hS hlay.1 hstack hget hrx1
    have e2 := genieDoEvents_rxStore K hK (rxPushed s) K.GENIE_REPORT_EVENT _ (Or.inr hp) hget hrx1
      hK.2.2.1 (by simp [rxPushed])
    have e : genieDoEventsTimes K 6 s = genieDoEventsTimes K 6 (rxPushed s) := by
      rw [genieDoEventsTimes_succ, genieDoEventsTimes_succ, e1, e2]
    obtain ⟨s1, h, hn, hf, hg, hrd, hw, _, hsp, hcur, hbelow, _⟩ :=
      genieDoEventsTimes_frame K hK (rxPushed s) [K.GENIE_REPORT_EVENT, b1, b2, b3, b4, b5] rest
        (Layout_rxPushed K s hlay) hget hlen hbytes hxor (Or.inr hp) rfl (Nat.succ_pos _) hroom hwr hrx
    have hsame : ∀ i, i ≤ s._genieLinkState →
        (rxPushed s)._genieLinkStates.getD i 0 = s._genieLinkStates.getD i 0 := by
      intro i hi; simp only [rxPushed]; apply getD_set_ne; omega
    have hcur2 : _genieGetLinkState s1 = _genieGetLinkState s := by
      rw [hcur]; exact hsame _ (le_refl _)
    refine ⟨s1, e ▸ h, hn, hf, hg, hrd, hw, hcur2, ?_, hsp, ?_⟩
    · rw [hcur2]; rcases hS with h | h <;> rw [h] <;> decide
    · intro i hi
      rw [hbelow i (Nat.lt_succ_of_le hi)]
      exact hsame i hi

/-- Witness of C3 (amended): the event frame `[7, 0, 0, 0, 0, 7]` arriving while
an Ack is awaited is queued and the link is back in `GENIE_LINK_WFAN`. -/
theorem C3_event_interrupts_wait_witness :
    ∃ s1, genieDoEventsTimes visiGenie 6 (linkUpIn GENIE_LINK_WFAN [7, 0, 0, 0, 0, 7]) = .ok s1 ∧
      s1._genieEventQueue.n_events = 1 ∧
      s1._genieEventQueue.frames.getD 0 [] = [7, 0, 0, 0, 0, 7] ∧
      _genieGetLinkState s1 = GENIE_LINK_WFAN ∧
      s1._genieLinkState = 2 := by
  obtain ⟨s1, h, hn, _, hf, _, _, hst, _, hsp, _⟩ :=
    C3_event_interrupts_wait visiGenie (by decide) (linkUpIn GENIE_LINK_WFAN [7, 0, 0, 0, 0, 7])
      [7, 0, 0, 0, 0, 7] [] (by decide) (by decide) (by decide) (by decide) (by decide)
      (by decide) (by decide) (by decide) (by decide) (by decide) (by decide)
  exact ⟨s1, h, hn, hf, hst, hsp⟩

/-! ## Claims C4 and C5: the event queue -/

/-- C4: the event queue is FIFO. For every `k ≤ MAX_GENIE_EVENTS - 2` frames,
enqueueing them in order with `_genieEnqueueEvent` into an empty queue whose
read and write index are equal at any position (so index wrap-around is
included) succeeds every time, and `k` calls of `genieDequeueEvent` then return
`TRUE` each time and yield the same frames in the same order; one further
`genieDequeueEvent` returns `FALSE` and leaves the caller's buffer and the state
unchanged. -/
theorem C4_event_queue_fifo (K : GenieConsts) (e : Nat) (hpow : K.MAX_GENIE_EVENTS = 2 ^ e)
    (s : GenieState) (fs : List (List Nat)) (buff : List Nat)
    (hlay : s.Layout K)
    (hempty : s._genieEventQueue.n_events = 0)
    (hidx : s._genieEventQueue.rd_index = s._genieEventQueue.wr_index)
    (hrd : s._genieEventQueue.rd_index < K.MAX_GENIE_EVENTS)
    (hk : fs.length ≤ K.MAX_GENIE_EVENTS - 2)
    (hfs : ∀ f ∈ fs, f.length = GENIE_FRAME_SIZE)
    (hbuff : buff.length = GENIE_FRAME_SIZE) :
    (enqueueAll K fs s).2 = fs.map (fun _ => true) ∧
    (dequeueTimes K fs.length buff (enqueueAll K fs s).1).1 = fs.map (fun f => (f, true)) ∧
    ∀ b : List Nat,
      genieDequeueEvent K b (dequeueTimes K fs.length buff (enqueueAll K fs s).1).2 =
        ((dequeueTimes K fs.length buff (enqueueAll K fs s).1).2, b, false) := by
  have hinv : QueueInv K s :=
    ⟨hlay.2.2.1, hlay.2.2.2, hrd, by rw [hempty, Nat.add_zero, Nat.mod_eq_of_lt hrd, hidx]⟩
  obtain ⟨a1, a2, a3, a4⟩ := enqueueAll_queued K e hpow fs s hinv hfs (by rw [hempty]; omega)
  obtain ⟨b1, b2⟩ := dequeueTimes_queued K e hpow fs.length buff (enqueueAll K fs s).1 a2 hbuff
    (by rw [a3, hempty]; omega)
  have hq : queued K s = [] := by simp [queued, hempty]
  refine ⟨a1, ?_, fun b => genieDequeueEvent_empty K _ b b2⟩
  rw [b1, a4, hq, List.nil_append]

/-- Witness of C4: three frames queued from slot 15 (the write index wraps to 0)
come back in the order they went in. -/
theorem C4_event_queue_fifo_witness :
    (dequeueTimes visiGenie 3 [0, 0, 0, 0, 0, 0]
        (enqueueAll visiGenie [[7, 1, 2, 3, 4, 3], [7, 0, 0, 0, 0, 7], [5, 1, 1, 0, 9, 12]]
          linkUpWrap).1).1 =
      [([7, 1, 2, 3, 4, 3], true), ([7, 0, 0, 0, 0, 7], true), ([5, 1, 1, 0, 9, 12], true)] :=
  (C4_event_queue_fifo visiGenie 4 (by decide) linkUpWrap
    [[7, 1, 2, 3, 4, 3], [7, 0, 0, 0, 0, 7], [5, 1, 1, 0, 9, 12]] [0, 0, 0, 0, 0, 0]
    (by decide) (by decide) (by decide) (by decide) (by decide) (by decide) (by decide)).2.1

/-- C5: with the event queue at capacity (`n_events = MAX_GENIE_EVENTS - 2`),
`_genieEnqueueEvent` of any frame returns `FALSE`, sets `_genieError` to
`ERROR_REPLY_OVR` and leaves the queue record (every stored frame, the read
index, the write index and `n_events`) unchanged, so any number of later
dequeues yields what it would have yielded without the rejected call. -/
theorem C5_full_queue_rejects (K : GenieConsts) (s : GenieState) (data : List Nat)
    (hfull : s._genieEventQueue.n_events = K.MAX_GENIE_EVENTS - 2) :
    (_genieEnqueueEvent K data s).2 = false ∧
    (_genieEnqueueEvent K data s).1._genieError = K.ERROR_REPLY_OVR ∧
    (_genieEnqueueEvent K data s).1._genieEventQueue = s._genieEventQueue ∧
    ∀ (n : Nat) (buff : List Nat),
      (dequeueTimes K n buff (_genieEnqueueEvent K data s).1).1 = (dequeueTimes K n buff s).1 := by
  have h : _genieEnqueueEvent K data s = ({ s with _genieError := K.ERROR_REPLY_OVR }, false) := by
    simp [_genieEnqueueEvent, hfull, _handleError]
  rw [h]
  exact ⟨rfl, rfl, rfl, fun n buff =>
    (dequeueTimes_congr K n buff { s with _genieError := K.ERROR_REPLY_OVR } s rfl).1⟩

/-- Witness of C5: a frame offered to the queue holding 14 events is refused. -/
theorem C5_full_queue_rejects_witness :
    (_genieEnqueueEvent visiGenie [7, 0, 0, 0, 0, 7] (linkUpFull GENIE_LINK_IDLE [])).2 = false ∧
    (_genieEnqueueEvent visiGenie [7, 0, 0, 0, 0, 7]
      (linkUpFull GENIE_LINK_IDLE [])).1._genieEventQueue.n_events = 14 := by
  obtain ⟨h1, _, h3, _⟩ := C5_full_queue_rejects visiGenie (linkUpFull GENIE_LINK_IDLE [])
    [7, 0, 0, 0, 0, 7] (by decide)
  exact ⟨h1, by rw [h3]; decide⟩

/-! ## Claims C6 to C10: command encoders and their replies -/

/-- C6: for every object, index and 16-bit data value, `genieWriteObject`
transmits exactly six bytes in this order: the write-object opcode, the low byte
of object, the low byte of index, the high byte of data, the low byte of data,
and a checksum equal to the XOR of the five bytes before it, so that the six
bytes XOR to zero; for object 3, index 0 and data `0xABCD` the bytes are
`[WRITE_OBJ, 3, 0, 0xAB, 0xCD, WRITE_OBJ ^ 3 ^ 0 ^ 0xAB ^ 0xCD]`. The link is
one with a transmit handler bound, and the idle wait that precedes the
transmission returns. -/
theorem C6_write_object_bytes (K : GenieConsts) (hK : K.WellFormed) (object index data : Nat)
    (s s1 : GenieState) (hdata : data < 65536)
    (hput : s.putCharBound = true) (hwait : _genieWaitForIdle K s = .ok s1) :
    (Run.finalState (genieWriteObject K object index data s)).txLog =
      s.txLog ++ [K.GENIE_WRITE_OBJ, object % 256, index % 256, data / 256, data % 256,
        K.GENIE_WRITE_OBJ ^^^ (object % 256) ^^^ (index % 256) ^^^ (data / 256) ^^^ (data % 256)] ∧
    xorAll [K.GENIE_WRITE_OBJ, object % 256, index % 256, data / 256, data % 256,
        K.GENIE_WRITE_OBJ ^^^ (object % 256) ^^^ (index % 256) ^^^ (data / 256) ^^^ (data % 256)] = 0 ∧
    (Run.finalState (genieWriteObject K 3 0 0xABCD s)).txLog =
      s.txLog ++ [K.GENIE_WRITE_OBJ, 3, 0, 0xAB, 0xCD,
        K.GENIE_WRITE_OBJ ^^^ 3 ^^^ 0 ^^^ 0xAB ^^^ 0xCD] := by
  have hW : K.GENIE_WRITE_OBJ < 256 := hK.2.2.2.2.2.2.2.2.2.2.2.1
  have hv := _genieWaitForIdle_txView K s s1 hwait
  simp only [txView, Prod.mk.injEq] at hv
  obtain ⟨hlog, hb⟩ := hv
  rw [hput] at hb
  have main : ∀ o i d : Nat, d < 65536 →
      (Run.finalState (genieWriteObject K o i d s)).txLog =
        s.txLog ++ [K.GENIE_WRITE_OBJ, o % 256, i % 256, d / 256, d % 256,
          K.GENIE_WRITE_OBJ ^^^ (o % 256) ^^^ (i % 256) ^^^ (d / 256) ^^^ (d % 256)] := by
    intro o i d hd16
    have hd : toU16 d = d := Nat.mod_eq_of_lt hd16
    have hmsb : d / 256 < 256 := by rw [Nat.div_lt_iff_lt_mul (by decide)]; omega
    simp only [genieWriteObject, hwait, _geniePushLinkState_txLog]
    simp only [_geniePutchar, hb, if_true, hlog, List.append_assoc, List.singleton_append,
      toU8_xor_toU8, toU8_toU8, toU8_toU16, lowByte_eq, highByte_eq d hd16, hd,
      toU8_of_lt _ hW, toU8_of_lt _ hmsb]
    simp [toU8]
  refine ⟨main object index data hdata, ?_, ?_⟩
  · simp [xorAll]
  · exact main 3 0 0xABCD (by decide)

/-- Witness of C6: on the idle sample link the command for object 3, index 0,
data `0xABCD` goes out as `[1, 3, 0, 0xAB, 0xCD, 100]`. -/
theorem C6_write_object_bytes_witness :
    (Run.finalState (genieWriteObject visiGenie 3 0 0xABCD linkUpIdle)).txLog =
      [1, 3, 0, 0xAB, 0xCD, 100] :=
  (C6_write_object_bytes visiGenie (by decide) 3 0 0xABCD linkUpIdle _ (by decide) (by decide)
    rfl).1

/-- C7: for every index and every string of length `n ≤ 255`, `genieWriteStr`
(and `genieWriteStrU` with its own opcode) transmits exactly `n + 4` bytes: the
opcode, the low byte of index, the length byte `n`, the `n` bytes of the string
in order, and a checksum equal to the 8-bit XOR of all the bytes before it. The
model of the checksum sign-extends the characters of 0x80 and above to the
width of `unsigned int` before the XOR. The link is one with a transmit handler
bound, and the idle wait that precedes the transmission returns. -/
theorem C7_write_str_bytes (K : GenieConsts) (hK : K.WellFormed) (index : Nat)
    (string : List Nat) (s s1 : GenieState)
    (hlen : strlen string ≤ 255)
    (hput : s.putCharBound = true) (hwait : _genieWaitForIdle K s = .ok s1) :
    (Run.endState (genieWriteStr K index string s)).txLog =
      s.txLog ++ ([K.GENIE_WRITE_STR, index % 256, strlen string] ++ cstring string ++
        [xorAll ([K.GENIE_WRITE_STR, index % 256, strlen string] ++ cstring string)]) ∧
    (Run.endState (genieWriteStrU K index string s)).txLog =
      s.txLog ++ ([K.GENIE_WRITE_STRU, index % 256, strlen string] ++ cstring string ++
        [xorAll ([K.GENIE_WRITE_STRU, index % 256, strlen string] ++ cstring string)]) ∧
    ([K.GENIE_WRITE_STR, index % 256, strlen string] ++ cstring string ++
        [xorAll ([K.GENIE_WRITE_STR, index % 256, strlen string] ++ cstring string)]).length =
      strlen string + 4 := by
  have h1 : K.GENIE_WRITE_STR < 256 := hK.2.2.2.2.2.2.2.2.2.2.2.2.1
  have h2 : K.GENIE_WRITE_STRU < 256 := hK.2.2.2.2.2.2.2.2.2.2.2.2.2.1
  have hi : toU16 index % 256 = index % 256 := toU8_toU16 index
  refine ⟨?_, ?_, ?_⟩
  · unfold genieWriteStr
    rw [endState_map (_genieWriteStrX K K.GENIE_WRITE_STR (toU16 index) string s)
        (fun r => (r.1, (r.2 % 65536).toNat)) (fun _ => rfl),
      _genieWriteStrX_bytes K hK _ _ string s s1 h1 hlen hput hwait, hi]
  · unfold genieWriteStrU
    rw [endState_map (_genieWriteStrX K K.GENIE_WRITE_STRU (toU16 index) string s)
        (fun r => (r.1, (r.2 % 65536).toNat)) (fun _ => rfl),
      _genieWriteStrX_bytes K hK _ _ string s s1 h2 hlen hput hwait, hi]
  · simp [strlen]

/-- Witness of C7: `genieWriteStr (1, "HI")` sends
`[WRITE_STR, 1, 2, 'H', 'I', WRITE_STR ^ 1 ^ 2 ^ 'H' ^ 'I']`, and
`genieWriteStrU` of a string with the character 0xC8 sends that byte and folds
its low byte into the checksum. -/
theorem C7_write_str_bytes_witness :
    (Run.endState (genieWriteStr visiGenie 1 [72, 73] linkUpIdle)).txLog =
      [2, 1, 2, 72, 73, 2 ^^^ 1 ^^^ 2 ^^^ 72 ^^^ 73] ∧
    (Run.endState (genieWriteStrU visiGenie 1 [72, 200] linkUpIdle)).txLog =
      [3, 1, 2, 72, 200, 3 ^^^ 1 ^^^ 2 ^^^ 72 ^^^ 200] :=
  ⟨(C7_write_str_bytes visiGenie (by decide) 1 [72, 73] linkUpIdle _ (by decide) (by decide)
      rfl).1,
    (C7_write_str_bytes visiGenie (by decide) 1 [72, 200] linkUpIdle _ (by decide) (by decide)
      rfl).2.1⟩

/-- C8: while the current link state is `GENIE_LINK_WFAN` with an entry beneath
it, an Ack or a Nak byte makes `genieDoEvents` pop the stack, so that the entry
beneath becomes current, enqueue nothing and return `GENIE_EVENT_RXCHAR`; after
an Ack `_genieError` is `ERROR_NONE`, after a Nak it is `ERROR_NAK`. -/
theorem C8_ack_nak_pop (K : GenieConsts) (hK : K.WellFormed) (s : GenieState)
    (c : Nat) (rest : List (Option Nat))
    (hstate : _genieGetLinkState s = GENIE_LINK_WFAN)
    (hsp : 0 < s._genieLinkState)
    (hget : s.getCharBound = true)
    (hc : c = K.GENIE_ACK ∨ c = K.GENIE_NAK)
    (hrx : s.rxScript = some c :: rest) :
    ∃ s1, genieDoEvents K s = .ok (s1, K.GENIE_EVENT_RXCHAR) ∧
      s1._genieLinkState = s._genieLinkState - 1 ∧
      _genieGetLinkState s1 = s._genieLinkStates.getD (s._genieLinkState - 1) 0 ∧
      (∀ i, i < s._genieLinkState → s1._genieLinkStates.getD i 0 = s._genieLinkStates.getD i 0) ∧
      s1._genieEventQueue = s._genieEventQueue ∧
      (c = K.GENIE_ACK → s1._genieError = K.ERROR_NONE) ∧
      (c = K.GENIE_NAK → s1._genieError = K.ERROR_NAK) := by
  obtain ⟨p1, p2, p3, p4, p5⟩ :=
    _geniePopLinkState_spec { s with _genieError := K.ERROR_NONE, rxScript := rest } hsp
  rcases hc with hc | hc
  · subst hc
    exact ⟨_, genieDoEvents_ack K hK s rest hstate hget hrx, p1, p2, p3, p4, fun _ => p5,
      fun h => absurd h hK.2.2.2.2.1⟩
  · subst hc
    exact ⟨_, genieDoEvents_nak K hK s rest hstate hget hrx, p1, p2, p3, p4,
      fun h => absurd h.symm hK.2.2.2.2.1, fun _ => rfl⟩

/-- Witness of C8: `genieWriteObject` issued on the idle sample link, then an
Ack: the link is idle again and no error is recorded. -/
theorem C8_ack_nak_pop_witness :
    ∃ s1, genieDoEvents visiGenie
        (Run.finalState (genieWriteObject visiGenie 3 0 0xABCD linkUpAck)) = .ok (s1, 1) ∧
      _genieGetLinkState s1 = GENIE_LINK_IDLE ∧ s1._genieError = 0 := by
  obtain ⟨s1, h, _, h2, _, _, h3, _⟩ := C8_ack_nak_pop visiGenie (by decide)
    (Run.finalState (genieWriteObject visiGenie 3 0 0xABCD linkUpAck)) 6 []
    (by decide) (by decide) (by decide) (by decide) (by decide)
  exact ⟨s1, h, h2, h3 rfl⟩

/-- C9: for every string longer than 255 bytes, `_genieWriteStrX` returns -1
without changing the state, so `genieWriteStr` and `genieWriteStrU` report
failure (the -1 converted to `uint16_t`), transmit no byte and leave the link
state stack, the event queue and the frame accumulator unchanged. -/
theorem C9_long_string_rejected (K : GenieConsts) (index : Nat) (string : List Nat)
    (s : GenieState) (hlen : 255 < strlen string) :
    _genieWriteStrX K K.GENIE_WRITE_STR (toU16 index) string s = .ok (s, -1) ∧
    _genieWriteStrX K K.GENIE_WRITE_STRU (toU16 index) string s = .ok (s, -1) ∧
    genieWriteStr K index string s = .ok (s, 65535) ∧
    genieWriteStrU K index string s = .ok (s, 65535) := by
  have h : ∀ code, _genieWriteStrX K code (toU16 index) string s = .ok (s, -1) := by
    intro code
    simp [_genieWriteStrX, hlen]
  refine ⟨h _, h _, ?_, ?_⟩
  · unfold genieWriteStr; rw [h]; rfl
  · unfold genieWriteStrU; rw [h]; rfl

set_option maxRecDepth 20000 in
/-- Witness of C9: a string of 256 characters `'A'` is refused. -/
theorem C9_long_string_rejected_witness :
    genieWriteStr visiGenie 1 (List.replicate 256 65) linkUpIdle = .ok (linkUpIdle, 65535) :=
  (C9_long_string_rejected visiGenie 1 (List.replicate 256 65) linkUpIdle (by decide)).2.2.1

/-- C10 (code at the failing input): after `genieBegin`, three
`genieWriteObject` commands that the display does not answer leave the stack
pointer at the last entry `_genieLinkStates[4]`; the fourth command transmits
its six bytes and then `_geniePushLinkState` stores `GENIE_LINK_WFAN` one entry
past the end of the array. -/
theorem C10_push_past_stack_end :
    ∃ s3, (genieWriteObject visiGenie 3 0 1 linkUpSilent >>= genieWriteObject visiGenie 3 0 1
        >>= genieWriteObject visiGenie 3 0 1) = .ok s3 ∧
      s3._genieLinkStates = [0, 0, 1, 1, 1] ∧ s3._genieLinkState = 4 ∧
      ∃ st, genieWriteObject visiGenie 3 0 1 s3 = .error (.linkStackOverflow, st) ∧
        st._genieLinkState = 5 ∧ st._genieLinkStates = [0, 0, 1, 1, 1] ∧
        st.txLog = s3.txLog ++ [1, 3, 0, 0, 1, 3] :=
  ⟨_, rfl, by decide, by decide, _, rfl, by decide, by decide, by decide⟩

/-! ## Claims C13, C14 and C19: polls without a byte, discarded bytes -/

/-- Counterexample to C14 as stated: the byte `0x41` arriving on the idle link
is unexpected there, and after the call `_genieError` is `ERROR_NONE`. -/
theorem C14_counterexample :
    unexpectedByte visiGenie (_genieGetLinkState (linkUpIn GENIE_LINK_IDLE [0x41])) 0x41 ∧
    ∃ s1, genieDoEvents visiGenie (linkUpIn GENIE_LINK_IDLE [0x41]) =
        .ok (s1, visiGenie.GENIE_EVENT_RXCHAR) ∧
      s1._genieError = visiGenie.ERROR_NONE :=
  ⟨by decide, _, rfl, by decide⟩

/-- C14 (amended): a byte that is not acceptable in the current link state (any
byte other than the report-event marker in idle; any byte other than Ack, Nak
and the report-event marker while waiting for Ack or Nak; any byte other than
the two report markers while waiting for a report) is consumed without an error
being recorded: `genieDoEvents` returns `GENIE_EVENT_RXCHAR` and `_genieError`
is `ERROR_NONE` after the call. -/
theorem C14_unexpected_byte_no_error (K : GenieConsts) (hK : K.WellFormed) (s : GenieState)
    (c : Nat) (rest : List (Option Nat))
    (hget : s.getCharBound = true) (hrx : s.rxScript = some c :: rest) (hc : c < 256)
    (hu : unexpectedByte K (_genieGetLinkState s) c) :
    ∃ s1, genieDoEvents K s = .ok (s1, K.GENIE_EVENT_RXCHAR) ∧ s1._genieError = K.ERROR_NONE :=
  ⟨_, genieDoEvents_unexpected K hK s c rest hget hrx hc hu, rfl⟩

/-- Witness of C14 (amended): the report-object marker arriving while an Ack is
awaited leaves `ERROR_NONE`. -/
theorem C14_unexpected_byte_no_error_witness :
    ∃ s1, genieDoEvents visiGenie (linkUpIn GENIE_LINK_WFAN [5]) = .ok (s1, 1) ∧
      s1._genieError = 0 :=
  C14_unexpected_byte_no_error visiGenie (by decide) (linkUpIn GENIE_LINK_WFAN [5]) 5 []
    (by decide) (by decide) (by decide) (by decide)

/-- C19: a byte that is a protocol violation for the current state causes no
state change: in idle for every byte other than the report-event marker, while
waiting for Ack or Nak for every byte other than Ack, Nak and the report-event
marker (the report-object marker included), and while waiting for a report for
every byte other than the two report markers (Ack and Nak included),
`genieDoEvents` returns `GENIE_EVENT_RXCHAR` and leaves the link state stack
(pointer and contents), the frame accumulator and the event queue unchanged. -/
theorem C19_unexpected_byte_no_change (K : GenieConsts) (hK : K.WellFormed) (s : GenieState)
    (c : Nat) (rest : List (Option Nat))
    (hget : s.getCharBound = true) (hrx : s.rxScript = some c :: rest) (hc : c < 256)
    (hu : unexpectedByte K (_genieGetLinkState s) c) :
    ∃ s1, genieDoEvents K s = .ok (s1, K.GENIE_EVENT_RXCHAR) ∧
      s1._genieLinkStates = s._genieLinkStates ∧ s1._genieLinkState = s._genieLinkState ∧
      s1.rxframe_count = s.rxframe_count ∧ s1.rx_data = s.rx_data ∧ s1.checksum = s.checksum ∧
      s1._genieEventQueue = s._genieEventQueue :=
  ⟨_, genieDoEvents_unexpected K hK s c rest hget hrx hc hu, rfl, rfl, rfl, rfl, rfl, rfl⟩

/-- Witness of C19: an Ack arriving while a report is awaited changes neither
the stack nor the frame byte index nor the queue. -/
theorem C19_unexpected_byte_no_change_witness :
    ∃ s1, genieDoEvents visiGenie (linkUpIn GENIE_LINK_WF_RXREPORT [6]) = .ok (s1, 1) ∧
      s1._genieLinkStates = [0, 0, 2, 0, 0] ∧ s1._genieLinkState = 2 ∧ s1.rxframe_count = 0 ∧
      s1._genieEventQueue = linkUp._genieEventQueue := by
  obtain ⟨s1, h, h1, h2, h3, _, _, h6⟩ := C19_unexpected_byte_no_change visiGenie (by decide)
    (linkUpIn GENIE_LINK_WF_RXREPORT [6]) 6 [] (by decide) (by decide) (by decide) (by decide)
  exact ⟨s1, h, h1, h2, h3, h6⟩

/-! ## Claims C18 and C20: report frames and bad checksums -/

/-- Counterexample to C18 as stated: with the event queue at capacity the valid
report frame `[5, 0, 0, 0, 0, 5]`, received while a report is awaited, is not
enqueued: after the six calls the queue is as before and `_genieError` is
`ERROR_REPLY_OVR` (the entry beneath has become current). -/
theorem C18_counterexample :
    (_genieGetLinkState (linkUpFull GENIE_LINK_WF_RXREPORT [5, 0, 0, 0, 0, 5]) =
        GENIE_LINK_WF_RXREPORT ∧
      0 < (linkUpFull GENIE_LINK_WF_RXREPORT [5, 0, 0, 0, 0, 5])._genieLinkState ∧
      xorAll [5, 0, 0, 0, 0, 5] = 0 ∧ visiGenie.GENIE_REPORT_OBJ = 5) ∧
    ∃ s6, genieDoEventsTimes visiGenie 6 (linkUpFull GENIE_LINK_WF_RXREPORT [5, 0, 0, 0, 0, 5]) =
        .ok s6 ∧
      s6._genieEventQueue =
        (linkUpFull GENIE_LINK_WF_RXREPORT [5, 0, 0, 0, 0, 5])._genieEventQueue ∧
      s6._genieError = visiGenie.ERROR_REPLY_OVR ∧
      _genieGetLinkState s6 = GENIE_LINK_IDLE :=
  ⟨by decide, _, rfl, by decide, by decide, by decide⟩

/-- C18 (amended): when the current link state is `GENIE_LINK_WF_RXREPORT` with
an entry beneath it and the byte read is the report-object marker,
`genieDoEvents` replaces the top of the stack by `GENIE_LINK_RXREPORT` at the
same depth, leaves every entry beneath unchanged, stores the marker as byte 0
of `rx_data` and leaves `rxframe_count` at 1; with the event queue not at
capacity, feeding the remaining five bytes of a frame that XORs to zero then
enqueues the whole 6-byte frame and makes the entry beneath the current
state. -/
theorem C18_report_header (K : GenieConsts) (hK : K.WellFormed) (s : GenieState)
    (F : List Nat) (rest : List (Option Nat))
    (hlay : s.Layout K) (hget : s.getCharBound = true)
    (hlen : F.length = 6) (hbytes : ∀ b ∈ F, b < 256) (hxor : xorAll F = 0)
    (hmark : F.head? = some K.GENIE_REPORT_OBJ)
    (hstate : _genieGetLinkState s = GENIE_LINK_WF_RXREPORT)
    (hsp : 0 < s._genieLinkState)
    (hroom : s._genieEventQueue.n_events < K.MAX_GENIE_EVENTS - 2)
    (hwr : s._genieEventQueue.wr_index < K.MAX_GENIE_EVENTS)
    (hrx : s.rxScript = F.map some ++ rest) :
    ∃ s1, genieDoEvents K s = .ok (s1, K.GENIE_EVENT_RXCHAR) ∧
      s1._genieLinkState = s._genieLinkState ∧
      _genieGetLinkState s1 = GENIE_LINK_RXREPORT ∧
      (∀ i, i < s._genieLinkState → s1._genieLinkStates.getD i 0 = s._genieLinkStates.getD i 0) ∧
      s1.rx_data.getD 0 0 = K.GENIE_REPORT_OBJ ∧
      s1.rxframe_count = 1 ∧
      s1._genieEventQueue = s._genieEventQueue ∧
      ∃ s6, genieDoEventsTimes K 5 s1 = .ok s6 ∧
        s6._genieEventQueue.n_events = s._genieEventQueue.n_events + 1 ∧
        s6._genieEventQueue.frames =
          s._genieEventQueue.frames.set s._genieEventQueue.wr_index F ∧
        s6._genieEventQueue.frames.getD s._genieEventQueue.wr_index [] = F ∧
        s6._genieEventQueue.rd_index = s._genieEventQueue.rd_index ∧
        s6._genieEventQueue.wr_index =
          (s._genieEventQueue.wr_index + 1) &&& (K.MAX_GENIE_EVENTS - 1) ∧
        s6._genieLinkState = s._genieLinkState - 1 ∧
        _genieGetLinkState s6 = s._genieLinkStates.getD (s._genieLinkState - 1) 0 := by
  match F, hlen with
  | [b0, b1, b2, b3, b4, b5], hlen =>
    simp only [List.head?_cons, Option.some.injEq] at hmark
    subst hmark
    have hrx1 : s.rxScript = some K.GENIE_REPORT_OBJ ::
        (some b1 :: some b2 :: some b3 :: some b4 :: some b5 :: rest) := by simpa using hrx
    have hin : s._genieLinkState < s._genieLinkStates.length := by
      rw [hlay.1]; exact sp_in_stack s hlay.1 (by rw [hstate]; decide)
    have hp := _genieGetLinkState_rxReplaced s hin
    have e1 := genieDoEvents_report_header K hK s _ hstate hlay.1 hsp hget hrx1
    have e2 := genieDoEvents_rxStore K hK (rxReplaced s) K.GENIE_REPORT_OBJ _ (Or.inl hp) hget
      hrx1 hK.2.2.2.1 (by simp [rxReplaced])
    obtain ⟨s6, h, hn, hf, hg, hrd, hw, _, hsp6, hcur, _, _⟩ :=
      genieDoEventsTimes_frame K hK (rxReplaced s) [K.GENIE_REPORT_OBJ, b1, b2, b3, b4, b5] rest
        (Layout_rxReplaced K s hlay) hget hlen hbytes hxor (Or.inl hp) rfl hsp hroom hwr hrx
    rw [genieDoEventsTimes_succ, e2] at h
    have hbelow : ∀ i, i < s._genieLinkState →
        (rxReplaced s)._genieLinkStates.getD i 0 = s._genieLinkStates.getD i 0 := by
      intro i hi; simp only [rxReplaced]; apply getD_set_ne; omega
    have h0 : 0 < s.rx_data.length := by rw [hlay.2.1]; decide
    refine ⟨_, e1, rfl, hp, hbelow, ?_, rfl, rfl, s6, h, hn, hf, hg, hrd, hw, hsp6, ?_⟩
    · simp [rxStore, rxReplaced, List.getD, h0]
    · rw [hcur]; exact hbelow (s._genieLinkState - 1) (by omega)

/-- Witness of C18 (amended): a report frame answering a read issued from
idle: after the marker the link is receiving a report at depth 2, after the
sixth byte the frame is queued and the link is idle. -/
theorem C18_report_header_witness :
    ∃ s1, genieDoEvents visiGenie (linkUpIn GENIE_LINK_WF_RXREPORT [5, 1, 2, 3, 4, 1]) =
        .ok (s1, 1) ∧
      _genieGetLinkState s1 = GENIE_LINK_RXREPORT ∧ s1._genieLinkState = 2 ∧
      s1.rxframe_count = 1 ∧
      ∃ s6, genieDoEventsTimes visiGenie 5 s1 = .ok s6 ∧
        s6._genieEventQueue.frames.getD 0 [] = [5, 1, 2, 3, 4, 1] ∧
        _genieGetLinkState s6 = GENIE_LINK_IDLE := by
  obtain ⟨s1, h, h1, h2, _, _, h5, _, s6, g, _, _, g3, _, _, _, g7⟩ :=
    C18_report_header visiGenie (by decide) (linkUpIn GENIE_LINK_WF_RXREPORT [5, 1, 2, 3, 4, 1])
      [5, 1, 2, 3, 4, 1] [] (by decide) (by decide) (by decide) (by decide) (by decide)
      (by decide) (by decide) (by decide) (by decide) (by decide) (by decide)
  exact ⟨s1, h, h2, h1, h5, s6, g, g3, g7⟩

/-- C20 (what the code does): when the byte at the last frame position
(`rxframe_count = 5`) arrives in `GENIE_LINK_RXREPORT` or `GENIE_LINK_RXEVENT`
and the running XOR with that byte is non-zero, `genieDoEvents` sets
`ERROR_BAD_CS`, leaves the link state stack unchanged and then still executes
`rxframe_count++`: the frame byte index is 6 after the call, not 5. -/
theorem C20_index_advances_on_bad_checksum (K : GenieConsts) (hK : K.WellFormed)
    (s : GenieState) (b : Nat) (rest : List (Option Nat))
    (hstate : _genieGetLinkState s = GENIE_LINK_RXREPORT ∨ _genieGetLinkState s = GENIE_LINK_RXEVENT)
    (hget : s.getCharBound = true) (hrx : s.rxScript = some b :: rest) (hb : b < 256)
    (hcount : s.rxframe_count = 5) (hcs : toU8 (s.checksum ^^^ b) ≠ 0) :
    ∃ s1, genieDoEvents K s = .ok (s1, K.GENIE_EVENT_RXCHAR) ∧
      s1.rxframe_count = 6 ∧ s1.rxframe_count ≠ 5 ∧
      s1._genieError = K.ERROR_BAD_CS ∧
      s1._genieLinkStates = s._genieLinkStates ∧ s1._genieLinkState = s._genieLinkState ∧
      s1._genieEventQueue = s._genieEventQueue :=
  ⟨rxReject K b s, genieDoEvents_rxReject K hK s b rest hstate hget hrx hb hcount hcs,
    rfl, by simp [rxReject], rfl, rfl, rfl, rfl⟩

/-- Witness of C20: the sixth byte 9 of the report frame `[5, 1, 2, 3, 4, 9]`
(running XOR 8) leaves the frame byte index at 6. -/
theorem C20_index_advances_on_bad_checksum_witness :
    ∃ s1, genieDoEvents visiGenie linkUpLastByte = .ok (s1, 1) ∧
      s1.rxframe_count = 6 ∧ s1._genieLinkStates = [0, 0, 3, 0, 0] ∧ s1._genieLinkState = 2 := by
  obtain ⟨s1, h, h1, _, _, h4, h5, _⟩ := C20_index_advances_on_bad_checksum visiGenie (by decide)
    linkUpLastByte 9 [] (by decide) (by decide) (by decide) (by decide) (by decide) (by decide)
  exact ⟨s1, h, h1, h4, h5⟩

/-! ## Claim C17: the data field of a frame -/

/-- C17: `genieGetEventData` returns the data field of a frame read big-endian,
`data_msb * 256 + data_lsb` (the fourth and the fifth byte); hence for every
16-bit value `d` the six bytes that `genieWriteObject` transmits for the data
`d`, taken as a frame, give back `d`, also for `d ≥ 0x8000`. -/
theorem C17_event_data_round_trip (K : GenieConsts) (hK : K.WellFormed)
    (e : List Nat) (object index d : Nat) (s s1 : GenieState)
    (h3 : e.getD 3 0 < 256) (h4 : e.getD 4 0 < 256)
    (hd : d < 65536)
    (hput : s.putCharBound = true) (hwait : _genieWaitForIdle K s = .ok s1) :
    genieGetEventData e = e.getD 3 0 * 256 + e.getD 4 0 ∧
    genieGetEventData
      ((Run.finalState (genieWriteObject K object index d s)).txLog.drop s.txLog.length) = d ∧
    ((Run.finalState (genieWriteObject K object index d s)).txLog.drop s.txLog.length).getD 3 0 =
      d / 256 ∧
    ((Run.finalState (genieWriteObject K object index d s)).txLog.drop s.txLog.length).getD 4 0 =
      d % 256 := by
  have ht := genieWriteObject_txLog K hK object index d s s1 hd hput hwait
  have hmsb : d / 256 < 256 := by rw [Nat.div_lt_iff_lt_mul (by decide)]; omega
  refine ⟨genieGetEventData_bytes e _ _ rfl rfl h3 h4, ?_, ?_, ?_⟩
  · rw [ht, List.drop_left]
    rw [genieGetEventData_bytes
      [K.GENIE_WRITE_OBJ, object % 256, index % 256, d / 256, d % 256,
        K.GENIE_WRITE_OBJ ^^^ (object % 256) ^^^ (index % 256) ^^^ (d / 256) ^^^ (d % 256)]
      (d / 256) (d % 256) rfl rfl hmsb (Nat.mod_lt _ (by decide))]
    omega
  · rw [ht, List.drop_left]; rfl
  · rw [ht, List.drop_left]; rfl

/-- Witness of C17: the data `0xABCD` written on the idle sample link reads
back as `0xABCD` from the transmitted frame. -/
theorem C17_event_data_round_trip_witness :
    genieGetEventData [7, 1, 2, 0xAB, 0xCD, 0] = 0xAB * 256 + 0xCD ∧
    genieGetEventData
      ((Run.finalState (genieWriteObject visiGenie 3 0 0xABCD linkUpIdle)).txLog.drop 0) =
      0xABCD := by
  obtain ⟨h1, h2, _⟩ := C17_event_data_round_trip visiGenie (by decide) [7, 1, 2, 0xAB, 0xCD, 0]
    3 0 0xABCD linkUpIdle _ (by decide) (by decide) (by decide) (by decide) rfl
  exact ⟨h1, h2⟩

/-! ## Claim C15: the deadline of the idle wait near the wrap of the clock -/

/-- C15 (not wrap-safe): when the idle wait is entered at a clock reading `t0`
with `t0 + _genieTimeout` at or above `2 ^ 32`, the deadline wraps to a value
below `t0`; the next reading `t1` with `t0 ≤ t1 < 2 ^ 32` is not below it, so
the wait sets `ERROR_TIMEOUT` without one call of `genieDoEvents`, whatever the
link state (an idle link included) and whatever is pending on the port. -/
theorem C15_deadline_wraps (K : GenieConsts) (s : GenieState) (t0 t1 : Nat) (rest : List Nat)
    (hclock : s.clockScript = t0 :: t1 :: rest)
    (hmono : t0 ≤ t1) (ht1 : t1 < 2 ^ 32)
    (hT : 0 < s._genieTimeout) (hTlt : s._genieTimeout < 2 ^ 32)
    (hwrap : (2 : Int) ^ 32 ≤ t0 + s._genieTimeout) :
    _genieWaitForIdle K s =
      .ok { s with clockScript := rest, _genieError := K.ERROR_TIMEOUT } := by
  apply _genieWaitForIdle_immediate_timeout K s t0 t1 rest hclock
  have ht0 : t0 < 2 ^ 32 := by omega
  rw [Nat.mod_eq_of_lt ht1, Nat.mod_eq_of_lt ht0]
  simp only [timeoutAfter]
  have h32 : (2 : Int) ^ 32 = 4294967296 := by norm_num
  have hn32 : (2 : Nat) ^ 32 = 4294967296 := by norm_num
  rw [h32] at hwrap hTlt ⊢
  rw [hn32] at ht1 ht0
  omega

/-- C15, evaluated: the idle sample link with nothing pending, entered 100 ms
before the wrap with a timeout of 500 ms, returns from the wait with
`ERROR_TIMEOUT`, the port script untouched. -/
theorem C15_deadline_wraps_witness :
    _genieGetLinkState linkUpNearWrap = GENIE_LINK_IDLE ∧ linkUpNearWrap.rxScript = [] ∧
    linkUpNearWrap._genieTimeout = 500 ∧
    _genieWaitForIdle visiGenie linkUpNearWrap =
      .ok { linkUpNearWrap with clockScript := [], _genieError := visiGenie.ERROR_TIMEOUT } :=
  ⟨by decide, rfl, rfl,
    C15_deadline_wraps visiGenie linkUpNearWrap 4294967196 4294967197 [] rfl (by decide)
      (by decide) (by decide) (by decide) (by decide)⟩

/-! ## Claim C11: the error code on return from an encoder -/

/-- C11 (error not reset by three encoders): when the idle wait returns the
state `s1`, `genieWriteContrast`, `genieWriteStr` and `genieWriteStrU` (for a
string of at most 255 bytes) end with the error code the wait left in `s1`,
while `genieWriteObject` and `genieReadObject` end with `ERROR_NONE`. -/
theorem C11_error_left_by_wait (K : GenieConsts) (object index data value : Nat)
    (string : List Nat) (s s1 s1r : GenieState)
    (hlen : strlen string ≤ 255)
    (hwait : _genieWaitForIdle K s = .ok s1)
    (hwaitr : _genieWaitForIdle K (_genieFlushEventQueue s) = .ok s1r) :
    (Run.finalState (genieWriteContrast K value s))._genieError = s1._genieError ∧
    (Run.endState (genieWriteStr K index string s))._genieError = s1._genieError ∧
    (Run.endState (genieWriteStrU K index string s))._genieError = s1._genieError ∧
    (Run.finalState (genieWriteObject K object index data s))._genieError = K.ERROR_NONE ∧
    (Run.endState (genieReadObject K object index s))._genieError = K.ERROR_NONE := by
  refine ⟨?_, ?_, ?_, ?_, ?_⟩
  · simp only [genieWriteContrast, hwait]
    rw [_geniePushLinkState_genieError, _geniePutchar_genieError, _geniePutchar_genieError,
      _geniePutchar_genieError]
  · unfold genieWriteStr
    rw [endState_map (_genieWriteStrX K K.GENIE_WRITE_STR (toU16 index) string s)
      (fun r => (r.1, (r.2 % 65536).toNat)) (fun _ => rfl)]
    exact _genieWriteStrX_genieError K _ _ string s s1 hlen hwait
  · unfold genieWriteStrU
    rw [endState_map (_genieWriteStrX K K.GENIE_WRITE_STRU (toU16 index) string s)
      (fun r => (r.1, (r.2 % 65536).toNat)) (fun _ => rfl)]
    exact _genieWriteStrX_genieError K _ _ string s s1 hlen hwait
  · simp only [genieWriteObject, hwait]
    rw [_geniePushLinkState_genieError]
    simp only [_geniePutchar_genieError]
  · simp only [genieReadObject, hwaitr]
    rw [endState_map_state, _geniePushLinkState_genieError]
    simp only [_geniePutchar_genieError]

/-- C11, evaluated: on the sample link whose wait for an Ack times out,
`genieWriteContrast (7)` sends its three bytes and returns with
`ERROR_TIMEOUT`, and `genieWriteStr (0, "A")` does likewise. -/
theorem C11_error_left_by_wait_witness :
    (Run.finalState (genieWriteContrast visiGenie 7 linkUpTimedOut))._genieError =
      visiGenie.ERROR_TIMEOUT ∧
    (Run.finalState (genieWriteContrast visiGenie 7 linkUpTimedOut)).txLog = [4, 7, 3] ∧
    (Run.endState (genieWriteStr visiGenie 0 [65] linkUpTimedOut))._genieError =
      visiGenie.ERROR_TIMEOUT ∧
    (Run.finalState (genieWriteObject visiGenie 3 0 1 linkUpTimedOut))._genieError =
      visiGenie.ERROR_NONE :=
  have h := C11_error_left_by_wait visiGenie 3 0 1 7 [65] linkUpTimedOut
    { linkUpTimedOut with clockScript := [], _genieError := visiGenie.ERROR_TIMEOUT }
    { linkUpTimedOut with clockScript := [], _genieError := visiGenie.ERROR_TIMEOUT }
    (by decide) rfl rfl
  ⟨h.1, rfl, h.2.1, h.2.2.2.1⟩

/-! ## Claim C21: stores into the frame buffer -/

/-- C21 (a store outside the frame buffer): in idle or in a waiting state, with
room on the link state stack, an event frame whose six bytes do not XOR to zero
leaves the link in `GENIE_LINK_RXEVENT` with `rxframe_count = 6`, which is not
below `GENIE_FRAME_SIZE`; the next byte read is then stored at `rx_data[6]`,
outside the 6-byte buffer. The end of a frame with a bad checksum is the only
way there: a call of `genieDoEvents` entered with the index at 5 or below stores
inside the buffer and leaves the index at 5 or below, or at 6 with
`ERROR_BAD_CS` set. -/
theorem C21_store_past_buffer (K : GenieConsts) (hK : K.WellFormed)
    (s : GenieState) (F : List Nat) (c : Nat) (rest : List (Option Nat))
    (hS : _genieGetLinkState s = GENIE_LINK_IDLE ∨ _genieGetLinkState s = GENIE_LINK_WFAN ∨
      _genieGetLinkState s = GENIE_LINK_WF_RXREPORT)
    (hstack : s._genieLinkStates.length = LINK_STACK_SIZE)
    (hroom : s._genieLinkState + 1 < LINK_STACK_SIZE)
    (hget : s.getCharBound = true)
    (hlen : F.length = 6) (hbytes : ∀ b ∈ F, b < 256) (hxor : xorAll F ≠ 0)
    (hmark : F.head? = some K.GENIE_REPORT_EVENT) (hc : c < 256)
    (hrx : s.rxScript = F.map some ++ some c :: rest) :
    (∃ s6, genieDoEventsTimes K 6 s = .ok s6 ∧
      s6.rxframe_count = 6 ∧ ¬ s6.rxframe_count < GENIE_FRAME_SIZE ∧
      _genieGetLinkState s6 = GENIE_LINK_RXEVENT ∧ s6._genieError = K.ERROR_BAD_CS ∧
      ∃ s7, genieDoEvents K s6 = .error (.rxDataOverflow, s7) ∧ s7.rxframe_count = 6) ∧
    (∀ u t r, u.rxframe_count ≤ 5 → genieDoEvents K u = .ok (t, r) →
      t.rxframe_count ≤ 5 ∨ (t.rxframe_count = 6 ∧ t._genieError = K.ERROR_BAD_CS)) ∧
    (∀ u f t, u.rxframe_count ≤ 5 → genieDoEvents K u = .error (f, t) →
      f ≠ .rxDataOverflow) := by
  refine ⟨?_, ?_, ?_⟩
  · obtain ⟨s6, h, h1, h2, h3, _, s7, h5, h6⟩ := genieDoEventsTimes_bad_event_frame K hK s F c rest
      hS hstack hroom hget hlen hbytes hxor hmark hc hrx
    exact ⟨s6, h, h1, by rw [h1]; decide, h2, h3, s7, h5, h6⟩
  · intro u t r hu h
    have := genieDoEvents_count K u hu
    rw [h] at this
    exact this
  · intro u f t hu h
    have := genieDoEvents_count K u hu
    rw [h] at this
    exact this

/-- C21, evaluated: on the link as `genieBegin` leaves it, and likewise from the
statics as initialised with a receive handler bound, the bytes
`7, 0, 0, 0, 0, 1` leave `rxframe_count = 6` and the seventh byte is stored
outside `rx_data`. -/
theorem C21_store_past_buffer_witness :
    (∃ s6, genieDoEventsTimes visiGenie 6 linkUpBadFrame = .ok s6 ∧ s6.rxframe_count = 6 ∧
      ∃ s7, genieDoEvents visiGenie s6 = .error (.rxDataOverflow, s7) ∧ s7.rxframe_count = 6) ∧
    (∃ s6, genieDoEventsTimes visiGenie 6 initialBadFrame = .ok s6 ∧ s6.rxframe_count = 6 ∧
      ∃ s7, genieDoEvents visiGenie s6 = .error (.rxDataOverflow, s7) ∧
        s7.rxframe_count = 6) := by
  obtain ⟨⟨s6, h, h1, _, _, _, s7, h5, h6⟩, _⟩ := C21_store_past_buffer visiGenie (by decide)
    linkUpBadFrame [7, 0, 0, 0, 0, 1] 0 [] (by decide) (by decide) (by decide) (by decide)
    (by decide) (by decide) (by decide) (by decide) (by decide) (by decide)
  obtain ⟨⟨t6, g, g1, _, _, _, t7, g5, g6⟩, _⟩ := C21_store_past_buffer visiGenie (by decide)
    initialBadFrame [7, 0, 0, 0, 0, 1] 0 [] (by decide) (by decide) (by decide) (by decide)
    (by decide) (by decide) (by decide) (by decide) (by decide) (by decide)
  exact ⟨⟨s6, h, h1, s7, h5, h6⟩, ⟨t6, g, g1, t7, g5, g6⟩⟩

/-! ## Claim C22: `genieReadObject` discards the pending events -/

/-- C22: `genieReadObject` discards every pending event before it waits or
transmits.
(1) The flush comes first: its result has the read index, the write index and
`n_events` at zero, a dequeue from it returns `FALSE` with the caller's buffer
untouched, and the call is the call made on the flushed state.
(2) No frame queued before the call is returned later: whatever queue record
(of the declared sizes) the call is made with, any number of
`genieDequeueEvent` calls after it return the same frames and values, also when
frames arrive during the call.
(3) If nothing arrives during the call the queue is empty at its end: the
indices and `n_events` are zero and a dequeue returns `FALSE`; and the call
does return `TRUE` when the link state stack has room and the clock passes the
deadline. -/
theorem C22_read_object_flushes (K : GenieConsts) (e : Nat) (hpow : K.MAX_GENIE_EVENTS = 2 ^ e)
    (hres : K.GENIE_EVENT_NONE ≠ K.GENIE_EVENT_RXCHAR)
    (s : GenieState) (object index : Nat) (hlay : s.Layout K) :
    ((_genieFlushEventQueue s)._genieEventQueue.rd_index = 0 ∧
      (_genieFlushEventQueue s)._genieEventQueue.wr_index = 0 ∧
      (_genieFlushEventQueue s)._genieEventQueue.n_events = 0 ∧
      (∀ buff, genieDequeueEvent K buff (_genieFlushEventQueue s) =
        (_genieFlushEventQueue s, buff, false)) ∧
      genieReadObject K object index s =
        genieReadObject K object index (_genieFlushEventQueue s)) ∧
    (∀ q : genieEventQueueStruct, q.frames.length = K.MAX_GENIE_EVENTS →
      (∀ f ∈ q.frames, f.length = GENIE_FRAME_SIZE) →
      ∀ (n : Nat) (buff : List Nat), buff.length = GENIE_FRAME_SIZE →
        (dequeueTimes K n buff
          (Run.endState (genieReadObject K object index (withQueue q s)))).1 =
        (dequeueTimes K n buff (Run.endState (genieReadObject K object index s))).1) ∧
    (s.getCharBound = true → (∀ x ∈ s.rxScript, x = none) →
      ((Run.endState (genieReadObject K object index s))._genieEventQueue.rd_index = 0 ∧
        (Run.endState (genieReadObject K object index s))._genieEventQueue.wr_index = 0 ∧
        (Run.endState (genieReadObject K object index s))._genieEventQueue.n_events = 0 ∧
        ∀ buff, genieDequeueEvent K buff (Run.endState (genieReadObject K object index s)) =
          (Run.endState (genieReadObject K object index s), buff, false)) ∧
      ∀ (t0 tn : Nat) (ts rest : List Nat), s.clockScript = t0 :: (ts ++ tn :: rest) →
        s._genieLinkState + 1 < LINK_STACK_SIZE →
        (∀ t ∈ ts, t % 2 ^ 32 < timeoutAfter s (t0 % 2 ^ 32)) →
        ¬ tn % 2 ^ 32 < timeoutAfter s (t0 % 2 ^ 32) →
        ∃ t, genieReadObject K object index s = .ok (t, true) ∧
          t._genieEventQueue.n_events = 0) := by
  refine ⟨⟨rfl, rfl, rfl, fun buff => genieDequeueEvent_empty K _ buff rfl, rfl⟩, ?_, ?_⟩
  · intro q hq1 hq2 n buff hb
    obtain ⟨q2, hrun, hs⟩ := genieReadObject_sameQueued K e hpow object index q s hlay hq1 hq2
    rw [hrun, endState_over]
    exact dequeueTimes_sameQueued K e hpow n buff _ _ hs.2.1 hs.2.2.1 hs.1 hs.2.2.2.1 hb
  · intro hget hrx
    have hq := genieReadObject_quiet_queue K object index s hget hrx
    have hn : (Run.endState (genieReadObject K object index s))._genieEventQueue.n_events = 0 := by
      rw [hq]; rfl
    refine ⟨⟨by rw [hq]; rfl, by rw [hq]; rfl, hn, fun buff => genieDequeueEvent_empty K _ buff hn⟩,
      ?_⟩
    intro t0 tn ts rest hclock hroom hbelow hpast
    obtain ⟨s1, hwait, hst⟩ := _genieWaitForIdle_quiet_returns K hres (_genieFlushEventQueue s)
      t0 tn ts rest hget hrx rfl hclock hbelow hpast
    have hst1 : s1._genieLinkStates = s._genieLinkStates := congrArg Prod.fst hst
    have hst2 : s1._genieLinkState = s._genieLinkState := congrArg Prod.snd hst
    obtain ⟨t, ht, _⟩ := (encoders_push_with_room K s s1 (by rw [hst1]; exact hlay.1)
      (by rw [hst2]; exact hroom)).2.2.2 object index hwait
    refine ⟨t, ht, ?_⟩
    rw [ht] at hn
    exact hn

/-- Witness of C22: on the idle sample link with three events pending and
nothing arriving, `genieReadObject (3, 0)` returns `TRUE` with the queue empty,
and a dequeue after it returns `FALSE`. -/
theorem C22_read_object_flushes_witness :
    linkUpPending._genieEventQueue.n_events = 3 ∧
    (∃ t, genieReadObject visiGenie 3 0 linkUpPending = .ok (t, true) ∧
      t._genieEventQueue.n_events = 0) ∧
    ∀ buff, genieDequeueEvent visiGenie buff
        (Run.endState (genieReadObject visiGenie 3 0 linkUpPending)) =
      (Run.endState (genieReadObject visiGenie 3 0 linkUpPending), buff, false) :=
  have h := (C22_read_object_flushes visiGenie 4 (by decide) (by decide) linkUpPending 3 0
    (by decide)).2.2 (by decide) (by decide)
  ⟨by decide, h.2 0 600 [1] [] rfl (by decide) (by decide) (by decide), h.1.2.2.2⟩

/-! ## Claim C12: an encoder transmits after its idle wait -/

/-- Counterexample to C12 as stated: on the sample link with `GENIE_LINK_WFAN`
current and nothing arriving, the idle wait of `genieWriteObject (3, 0, 1)`
times out with `GENIE_LINK_WFAN` still current, and the encoder then transmits
its six bytes and pushes a second `GENIE_LINK_WFAN`. -/
theorem C12_counterexample :
    _genieGetLinkState linkUpTimedOut = GENIE_LINK_WFAN ∧
    (∃ s1, _genieWaitForIdle visiGenie linkUpTimedOut = .ok s1 ∧
      _genieGetLinkState s1 = GENIE_LINK_WFAN ∧ s1.txLog = []) ∧
    ∃ t, genieWriteObject visiGenie 3 0 1 linkUpTimedOut = .ok t ∧
      t.txLog = [1, 3, 0, 0, 1, 3] ∧
      t._genieLinkStates = [0, 0, GENIE_LINK_WFAN, GENIE_LINK_WFAN, 0] ∧ t._genieLinkState = 3 :=
  ⟨by decide, ⟨_, rfl, by decide, by decide⟩, _, rfl, by decide, by decide, by decide⟩

/-- C12 (amended): every run of an encoder is one of these. Either its idle
wait returned with the link idle or with `ERROR_TIMEOUT` set, having transmitted
nothing, and the encoder then transmitted its command bytes (appended them to
the transmit log, a transmit handler being bound) and pushed its reply-waiting
state: the stack pointer is one above where the wait left it and, with room on
the stack, the call completes with `GENIE_LINK_WF_RXREPORT` (the read) or
`GENIE_LINK_WFAN` (the writes) current and the entries beneath unchanged. Or the
run stopped at the fault of the wait with the transmit log as before. Or (the
string encoders, for a string longer than 255) it returned 65535 with the state
untouched. `genieReadObject` waits on the state with the event queue
flushed. -/
theorem C12_transmits_after_wait (K : GenieConsts) (hK : K.WellFormed)
    (object index data value : Nat) (string : List Nat) (s : GenieState) :
    (sendsAndPushes K (_genieFlushEventQueue s) (Run.endState (genieReadObject K object index s))
        (genieReadObject K object index s).toBool
        [K.GENIE_READ_OBJ, object % 256, index % 256,
          K.GENIE_READ_OBJ ^^^ (object % 256) ^^^ (index % 256)] GENIE_LINK_WF_RXREPORT ∨
      stoppedInWait K (_genieFlushEventQueue s) (genieReadObject K object index s)) ∧
    (sendsAndPushes K s (Run.finalState (genieWriteObject K object index data s))
        (genieWriteObject K object index data s).toBool
        [K.GENIE_WRITE_OBJ, object % 256, index % 256, toU16 data / 256, toU16 data % 256,
          K.GENIE_WRITE_OBJ ^^^ (object % 256) ^^^ (index % 256) ^^^ (toU16 data / 256) ^^^
            (toU16 data % 256)] GENIE_LINK_WFAN ∨
      stoppedInWait K s (genieWriteObject K object index data s)) ∧
    (sendsAndPushes K s (Run.finalState (genieWriteContrast K value s))
        (genieWriteContrast K value s).toBool
        [K.GENIE_WRITE_CONTRAST, value % 256, K.GENIE_WRITE_CONTRAST ^^^ (value % 256)]
        GENIE_LINK_WFAN ∨
      stoppedInWait K s (genieWriteContrast K value s)) ∧
    (sendsAndPushes K s (Run.endState (genieWriteStr K index string s))
        (genieWriteStr K index string s).toBool
        ([K.GENIE_WRITE_STR, index % 256, strlen string] ++ cstring string ++
          [xorAll ([K.GENIE_WRITE_STR, index % 256, strlen string] ++ cstring string)])
        GENIE_LINK_WFAN ∨
      stoppedInWait K s (genieWriteStr K index string s) ∨
      (255 < strlen string ∧ genieWriteStr K index string s = .ok (s, 65535))) ∧
    (sendsAndPushes K s (Run.endState (genieWriteStrU K index string s))
        (genieWriteStrU K index string s).toBool
        ([K.GENIE_WRITE_STRU, index % 256, strlen string] ++ cstring string ++
          [xorAll ([K.GENIE_WRITE_STRU, index % 256, strlen string] ++ cstring string)])
        GENIE_LINK_WFAN ∨
      stoppedInWait K s (genieWriteStrU K index string s) ∨
      (255 < strlen string ∧ genieWriteStrU K index string s = .ok (s, 65535))) := by
  have hi : toU16 index % 256 = index % 256 := toU8_toU16 index
  have hstr : ∀ code, code < 256 →
      sendsAndPushes K s
          (Run.endState ((_genieWriteStrX K code (toU16 index) string s).map
            fun r => (r.1, (r.2 % 65536).toNat)))
          ((_genieWriteStrX K code (toU16 index) string s).map
            fun r => (r.1, (r.2 % 65536).toNat)).toBool
          ([code, index % 256, strlen string] ++ cstring string ++
            [xorAll ([code, index % 256, strlen string] ++ cstring string)]) GENIE_LINK_WFAN ∨
        stoppedInWait K s ((_genieWriteStrX K code (toU16 index) string s).map
          fun r => (r.1, (r.2 % 65536).toNat)) ∨
        (255 < strlen string ∧
          (_genieWriteStrX K code (toU16 index) string s).map
            (fun r => (r.1, (r.2 % 65536).toNat)) = .ok (s, 65535)) := by
    intro code hcode
    by_cases hlen : 255 < strlen string
    · refine .inr (.inr ⟨hlen, ?_⟩)
      simp only [_genieWriteStrX, gt_iff_lt, if_pos hlen]
      rfl
    · have hle : strlen string ≤ 255 := by omega
      cases hw : _genieWaitForIdle K s with
      | error e =>
        obtain ⟨fl, t⟩ := e
        refine .inr (.inl ⟨(fl, t), hw, ?_,
          congrArg Prod.fst (_genieWaitForIdle_fault_txView K _ t fl hw)⟩)
        simp only [_genieWriteStrX, gt_iff_lt, if_neg hlen, hw]
        rfl
      | ok s1 =>
        refine .inl (sendsAndPushes_intro K _ s1 _ _ _ _ hw (fun hput => ?_) ?_ ?_)
        · rw [endState_map (_genieWriteStrX K code (toU16 index) string s)
            (fun r => (r.1, (r.2 % 65536).toNat)) (fun _ => rfl), ← hi]
          exact _genieWriteStrX_bytes K hK code (toU16 index) string s s1 hcode hle hput hw
        · rw [endState_map (_genieWriteStrX K code (toU16 index) string s)
            (fun r => (r.1, (r.2 % 65536).toNat)) (fun _ => rfl)]
          simp only [_genieWriteStrX, gt_iff_lt, if_neg hlen, hw, endState_map_state,
            _geniePushLinkState_sp, _geniePutchar_sp, _genieWriteStrX_loop_sp]
        · intro hl hroom
          obtain ⟨t, ht, _, h2, h3⟩ := (encoders_push_with_room K s s1 hl hroom).2.2.1 code
            (toU16 index) string hle hw
          rw [ht]
          exact ⟨rfl, h2, h3⟩
  refine ⟨?_, ?_, ?_, hstr K.GENIE_WRITE_STR hK.2.2.2.2.2.2.2.2.2.2.2.2.1,
    hstr K.GENIE_WRITE_STRU hK.2.2.2.2.2.2.2.2.2.2.2.2.2.1⟩
  · cases hw : _genieWaitForIdle K (_genieFlushEventQueue s) with
    | error e =>
      obtain ⟨f, t⟩ := e
      exact .inr ⟨(f, t), hw, by simp only [genieReadObject, hw],
        congrArg Prod.fst (_genieWaitForIdle_fault_txView K _ t f hw)⟩
    | ok s1 =>
      refine .inl (sendsAndPushes_intro K _ s1 _ _ _ _ hw
        (fun hput => genieReadObject_txLog K hK object index s s1 hput hw) ?_ ?_)
      · simp only [genieReadObject, hw, endState_map_state, _geniePushLinkState_sp,
          _geniePutchar_sp]
      · intro hlen hroom
        obtain ⟨t, ht, _, h2, h3⟩ := (encoders_push_with_room K s s1 hlen hroom).2.2.2 object
          index hw
        rw [ht]
        exact ⟨rfl, h2, h3⟩
  · cases hw : _genieWaitForIdle K s with
    | error e =>
      obtain ⟨f, t⟩ := e
      exact .inr ⟨(f, t), hw, by simp only [genieWriteObject, hw],
        congrArg Prod.fst (_genieWaitForIdle_fault_txView K _ t f hw)⟩
    | ok s1 =>
      refine .inl (sendsAndPushes_intro K _ s1 _ _ _ _ hw (fun hput => ?_) ?_ ?_)
      · rw [genieWriteObject_toU16]
        exact genieWriteObject_txLog K hK object index (toU16 data) s s1
          (Nat.mod_lt _ (by decide)) hput hw
      · simp only [genieWriteObject, hw, _geniePushLinkState_sp, _geniePutchar_sp]
      · intro hlen hroom
        obtain ⟨t, ht, _, h2, h3⟩ := (encoders_push_with_room K s s1 hlen hroom).1 object index
          data hw
        rw [ht]
        exact ⟨rfl, h2, h3⟩
  · cases hw : _genieWaitForIdle K s with
    | error e =>
      obtain ⟨f, t⟩ := e
      exact .inr ⟨(f, t), hw, by simp only [genieWriteContrast, hw],
        congrArg Prod.fst (_genieWaitForIdle_fault_txView K _ t f hw)⟩
    | ok s1 =>
      refine .inl (sendsAndPushes_intro K _ s1 _ _ _ _ hw
        (fun hput => genieWriteContrast_txLog K hK value s s1 hput hw) ?_ ?_)
      · simp only [genieWriteContrast, hw, _geniePushLinkState_sp, _geniePutchar_sp]
      · intro hlen hroom
        obtain ⟨t, ht, _, h2, h3⟩ := (encoders_push_with_room K s s1 hlen hroom).2.1 value hw
        rw [ht]
        exact ⟨rfl, h2, h3⟩

/-- C12 (amended), evaluated on the sample link whose wait for an Ack times
out: the idle wait of `genieWriteObject (3, 0, 1)` returns with `ERROR_TIMEOUT`
and `GENIE_LINK_WFAN` current, and the encoder then appends its six bytes and
completes with a second `GENIE_LINK_WFAN` pushed. -/
theorem C12_transmits_after_wait_witness :
    sendsAndPushes visiGenie linkUpTimedOut
      (Run.finalState (genieWriteObject visiGenie 3 0 1 linkUpTimedOut)) true
      [1, 3, 0, 0, 1, 3] GENIE_LINK_WFAN ∧
    (Run.finalState (_genieWaitForIdle visiGenie linkUpTimedOut))._genieError =
      visiGenie.ERROR_TIMEOUT ∧
    _genieGetLinkState (Run.finalState (_genieWaitForIdle visiGenie linkUpTimedOut)) =
      GENIE_LINK_WFAN ∧
    (Run.finalState (genieWriteObject visiGenie 3 0 1 linkUpTimedOut)).txLog =
      [1, 3, 0, 0, 1, 3] :=
  ⟨(C12_transmits_after_wait visiGenie (by decide) 3 0 1 0 [] linkUpTimedOut).2.1.resolve_right
      (by rintro ⟨e, -, h, -⟩; cases h),
    by decide, by decide, by decide⟩

/-! ## Claim C16: the deadline rule of the idle wait -/

/-- C16 (the deadline rule as coded, and where it leaves the claim):
`_genieWaitForIdle`, entered at the clock reading `t0`, sets the deadline
`timeoutAfter s t0`.
(1) Where entry time plus timeout stays below `2 ^ 32` the deadline is that sum.
(2) The loop polls only below the deadline: if the reading it takes first is
not below the deadline it sets `ERROR_TIMEOUT` without a call of
`genieDoEvents`.
(3) If that reading is below the deadline and the poll leaves the link idle, the
wait returns the state the poll left (after one more clock reading when a byte
was consumed) and sets no error of its own.
(4) Every poll that consumes a byte and leaves the link busy restarts the
deadline, whatever the poll did with the byte: the rest of the wait is the wait
entered afresh, in the state the poll left, at the clock reading taken after the
poll.
(5) A poll that consumes nothing and leaves the link busy keeps the deadline:
the rest of the wait is the wait as entered at `t0` in the state the poll left.
(6) On a port that delivers nothing and a link that is not idle the wait polls
once per reading below the deadline and sets `ERROR_TIMEOUT` at the first
reading not below it, the stack, the queue and the transmit log as before.
(7) After a byte consumed below the deadline, with the link busy and nothing
arriving any more, `ERROR_TIMEOUT` is set at the first reading not below the
restarted deadline.
(8) Whenever the wait returns, the link is idle or `ERROR_TIMEOUT` is set.
(9) Where entry time plus timeout reaches `2 ^ 32` the deadline wraps below the
entry time: `ERROR_TIMEOUT` is set at the first check, at a reading less than
the timeout period after entry and without one poll, whatever the link
state. -/
theorem C16_deadline_rule (K : GenieConsts)
    (hres : K.GENIE_EVENT_NONE ≠ K.GENIE_EVENT_RXCHAR) (s : GenieState) (t0 : Nat)
    (clock : List Nat) (hclock : s.clockScript = t0 :: clock) :
    (t0 < 2 ^ 32 → 0 ≤ s._genieTimeout → (t0 : Int) + s._genieTimeout < 2 ^ 32 →
      (timeoutAfter s (t0 % 2 ^ 32) : Int) = t0 + s._genieTimeout) ∧
    (∀ t1 rest, clock = t1 :: rest → ¬ t1 % 2 ^ 32 < timeoutAfter s (t0 % 2 ^ 32) →
      _genieWaitForIdle K s =
        .ok { s with clockScript := rest, _genieError := K.ERROR_TIMEOUT }) ∧
    (∀ t1 rest s2 r, clock = t1 :: rest → t1 % 2 ^ 32 < timeoutAfter s (t0 % 2 ^ 32) →
      genieDoEvents K { s with clockScript := rest } = .ok (s2, r) →
      _genieGetLinkState s2 = GENIE_LINK_IDLE →
      (r ≠ K.GENIE_EVENT_RXCHAR → _genieWaitForIdle K s = .ok s2) ∧
      (r = K.GENIE_EVENT_RXCHAR → ∀ t2 rest2, s2.clockScript = t2 :: rest2 →
        _genieWaitForIdle K s = .ok { s2 with clockScript := rest2 })) ∧
    (∀ t1 rest s2, clock = t1 :: rest → t1 % 2 ^ 32 < timeoutAfter s (t0 % 2 ^ 32) →
      genieDoEvents K { s with clockScript := rest } = .ok (s2, K.GENIE_EVENT_RXCHAR) →
      _genieGetLinkState s2 ≠ GENIE_LINK_IDLE →
      _genieWaitForIdle K s = _genieWaitForIdle K s2) ∧
    (∀ t1 rest s2 r, clock = t1 :: rest → t1 % 2 ^ 32 < timeoutAfter s (t0 % 2 ^ 32) →
      genieDoEvents K { s with clockScript := rest } = .ok (s2, r) →
      r ≠ K.GENIE_EVENT_RXCHAR → _genieGetLinkState s2 ≠ GENIE_LINK_IDLE →
      _genieWaitForIdle K s = _genieWaitForIdle K { s2 with clockScript := t0 :: rest }) ∧
    (∀ ts tn rest, clock = ts ++ tn :: rest →
      s.getCharBound = true → (∀ x ∈ s.rxScript, x = none) →
      _genieGetLinkState s ≠ GENIE_LINK_IDLE →
      (0 < s._genieEventQueue.n_events → s.userHandlerBound = true) →
      (∀ t ∈ ts, t % 2 ^ 32 < timeoutAfter s (t0 % 2 ^ 32)) →
      ¬ tn % 2 ^ 32 < timeoutAfter s (t0 % 2 ^ 32) →
      ∃ t, _genieWaitForIdle K s = .ok t ∧ t._genieError = K.ERROR_TIMEOUT ∧
        stackView t = stackView s ∧ t._genieEventQueue = s._genieEventQueue ∧
        t.txLog = s.txLog ∧ t.clockScript = rest ∧ t.rxScript = s.rxScript.drop ts.length) ∧
    (∀ t1 t2 ts tn rest s2, clock = t1 :: t2 :: (ts ++ tn :: rest) →
      t1 % 2 ^ 32 < timeoutAfter s (t0 % 2 ^ 32) →
      genieDoEvents K { s with clockScript := t2 :: (ts ++ tn :: rest) } =
        .ok (s2, K.GENIE_EVENT_RXCHAR) →
      _genieGetLinkState s2 ≠ GENIE_LINK_IDLE →
      s2.getCharBound = true → (∀ x ∈ s2.rxScript, x = none) →
      (0 < s2._genieEventQueue.n_events → s2.userHandlerBound = true) →
      (∀ t ∈ ts, t % 2 ^ 32 < timeoutAfter s (t2 % 2 ^ 32)) →
      ¬ tn % 2 ^ 32 < timeoutAfter s (t2 % 2 ^ 32) →
      ∃ t, _genieWaitForIdle K s = .ok t ∧ t._genieError = K.ERROR_TIMEOUT ∧
        stackView t = stackView s2 ∧ t._genieEventQueue = s2._genieEventQueue ∧
        t.txLog = s2.txLog ∧ t.clockScript = rest ∧
        t.rxScript = s2.rxScript.drop ts.length) ∧
    (∀ t, _genieWaitForIdle K s = .ok t →
      _genieGetLinkState t = GENIE_LINK_IDLE ∨ t._genieError = K.ERROR_TIMEOUT) ∧
    (∀ t1 rest, clock = t1 :: rest → t0 ≤ t1 → t1 < 2 ^ 32 →
      0 < s._genieTimeout → s._genieTimeout < 2 ^ 32 →
      (2 : Int) ^ 32 ≤ t0 + s._genieTimeout →
      ((t1 : Int) - t0 < s._genieTimeout) ∧
      _genieWaitForIdle K s =
        .ok { s with clockScript := rest, _genieError := K.ERROR_TIMEOUT }) := by
  have hentry : ∀ t1 rest, clock = t1 :: rest →
      _genieWaitForIdle K s =
        _genieWaitForIdle_loop K (rest.length + 1 + 1) (timeoutAfter s (t0 % 2 ^ 32))
          { s with clockScript := t1 :: rest } := by
    intro t1 rest hc
    simp only [_genieWaitForIdle, millis_cons s t0 _ (hc ▸ hclock), List.length_cons]
    rfl
  have hrestart : ∀ t1 rest s2, clock = t1 :: rest →
      t1 % 2 ^ 32 < timeoutAfter s (t0 % 2 ^ 32) →
      genieDoEvents K { s with clockScript := rest } = .ok (s2, K.GENIE_EVENT_RXCHAR) →
      _genieGetLinkState s2 ≠ GENIE_LINK_IDLE →
      _genieWaitForIdle K s = _genieWaitForIdle K s2 := by
    intro t1 rest s2 hc hfirst hd hbusy
    have hk := genieDoEvents_clock K { s with clockScript := rest }
    rw [hd] at hk
    have hc2 : s2.clockScript = rest := hk.1
    rw [hentry t1 rest hc, _genieWaitForIdle_loop_succ,
      millis_cons { s with clockScript := t1 :: rest } t1 rest rfl]
    simp only [if_pos hfirst, hd, if_true]
    unfold _genieWaitForIdle
    cases hm : millis s2 with
    | error e => rfl
    | ok p =>
      obtain ⟨t2, s3⟩ := p
      have hl3 := millis_ok_length s2 s3 t2 hm
      have hs3 := millis_ok_eq s2 s3 t2 hm
      simp only []
      have hb3 : ¬ _genieGetLinkState s3 = GENIE_LINK_IDLE := by
        rw [hs3]; exact hbusy
      rw [if_neg hb3]
      exact _genieWaitForIdle_loop_fuel K _ _ _ s3 (by rw [hc2] at hl3; omega) (by omega)
  refine ⟨timeoutAfter_no_wrap s t0, ?_, ?_, hrestart, ?_, ?_, ?_, ?_, ?_⟩
  · intro t1 rest hc hpast
    exact _genieWaitForIdle_immediate_timeout K s t0 t1 rest (hc ▸ hclock) hpast
  · intro t1 rest s2 r hc hfirst hd hidle
    exact _genieWaitForIdle_first_poll_idle K s s2 t0 t1 r rest (hc ▸ hclock) hfirst hd hidle
  · intro t1 rest s2 r hc hfirst hd hr hbusy
    have hk := genieDoEvents_clock K { s with clockScript := rest }
    rw [hd] at hk
    have hc2 : s2.clockScript = rest := hk.1
    have ht2 : s2._genieTimeout = s._genieTimeout := hk.2
    have hw2 : _genieWaitForIdle K { s2 with clockScript := t0 :: rest } =
        _genieWaitForIdle_loop K (rest.length + 1) (timeoutAfter s (t0 % 2 ^ 32))
          { s2 with clockScript := rest } := by
      simp only [_genieWaitForIdle,
        millis_cons { s2 with clockScript := t0 :: rest } t0 rest rfl]
      simp only [timeoutAfter, ht2]
    rw [hentry t1 rest hc, hw2, _genieWaitForIdle_loop_succ,
      millis_cons { s with clockScript := t1 :: rest } t1 rest rfl]
    simp only [if_pos hfirst, hd, if_neg hr, if_neg hbusy]
    have hs2 : ({ s2 with clockScript := rest } : GenieState) = s2 := by
      rw [← hc2]
    rw [hs2]
  · intro ts tn rest hc hget hrx hbusy hh hbelow hpast
    exact _genieWaitForIdle_quiet K hres s t0 tn ts rest (hc ▸ hclock) hget hrx hbusy hh hbelow
      hpast
  · intro t1 t2 ts tn rest s2 hc hfirst hd hbusy hget hrx hh hbelow hpast
    have hk := genieDoEvents_clock K { s with clockScript := t2 :: (ts ++ tn :: rest) }
    rw [hd] at hk
    have hc2 : s2.clockScript = t2 :: (ts ++ tn :: rest) := hk.1
    have ht2 : s2._genieTimeout = s._genieTimeout := hk.2
    have hD : ∀ n, timeoutAfter s2 n = timeoutAfter s n := by
      intro n; simp only [timeoutAfter, ht2]
    rw [hrestart t1 _ s2 hc hfirst hd hbusy]
    exact _genieWaitForIdle_quiet K hres s2 t2 tn ts rest hc2 hget hrx hbusy hh
      (fun t ht => by rw [hD]; exact hbelow t ht) (by rw [hD]; exact hpast)
  · intro t ht
    exact _genieWaitForIdle_exit K s t ht
  · intro t1 rest hc hmono ht1 hT hTlt hwrap
    refine ⟨?_, _genieWaitForIdle_wrapped K s t0 t1 rest (hc ▸ hclock) hmono ht1 hT hTlt hwrap⟩
    have h32 : (2 : Int) ^ 32 = 4294967296 := by norm_num
    have hn32 : (2 : Nat) ^ 32 = 4294967296 := by norm_num
    rw [h32] at hwrap
    rw [hn32] at ht1
    omega

/-- C16, evaluated. On the sample link that waits for an Ack, entered 100 ms
before the clock wraps with a timeout of 500 ms, `ERROR_TIMEOUT` is set at the
reading taken 1 ms later, without a poll. On the sample link in the middle of an
event frame, entered at 0 ms, the frame byte consumed at the reading 400
restarts the deadline at 401 + 500: the poll at 800 still takes place and
`ERROR_TIMEOUT` is set at the reading 901, the frame byte index at 2. -/
theorem C16_deadline_rule_witness :
    (_genieGetLinkState linkUpBusyNearWrap = GENIE_LINK_WFAN ∧
      linkUpBusyNearWrap._genieTimeout = 500 ∧
      ((4294967197 : Int) - 4294967196 < linkUpBusyNearWrap._genieTimeout) ∧
      _genieWaitForIdle visiGenie linkUpBusyNearWrap =
        .ok { linkUpBusyNearWrap with
                clockScript := [], _genieError := visiGenie.ERROR_TIMEOUT }) ∧
    (∃ t, _genieWaitForIdle visiGenie linkUpMidFrame = .ok t ∧
      t._genieError = visiGenie.ERROR_TIMEOUT ∧ t.clockScript = [] ∧
      _genieGetLinkState t = GENIE_LINK_RXEVENT) ∧
    (Run.finalState (_genieWaitForIdle visiGenie linkUpMidFrame)).clockScript = [] ∧
    (Run.finalState (_genieWaitForIdle visiGenie linkUpMidFrame)).rxframe_count = 2 ∧
    (Run.finalState (_genieWaitForIdle visiGenie linkUpBusyNearWrap))._genieError =
      visiGenie.ERROR_TIMEOUT := by
  have h9 := (C16_deadline_rule visiGenie (by decide) linkUpBusyNearWrap 4294967196
    [4294967197] rfl).2.2.2.2.2.2.2.2 4294967197 [] rfl (by decide) (by decide) (by decide)
    (by decide) (by decide)
  obtain ⟨t, ht, herr, hst, _, _, hclk, _⟩ :=
    (C16_deadline_rule visiGenie (by decide) linkUpMidFrame 0 [400, 401, 800, 901]
      rfl).2.2.2.2.2.2.1 400 401 [800] 901 []
      (Run.endState (genieDoEvents visiGenie { linkUpMidFrame with clockScript := [401, 800, 901] }))
      rfl (by decide) rfl (by decide) (by decide) (by decide) (by decide) (by decide) (by decide)
  have hl1 : t._genieLinkStates = [0, 0, 4, 0, 0] := congrArg Prod.fst hst
  have hl2 : t._genieLinkState = 2 := congrArg Prod.snd hst
  refine ⟨⟨by decide, rfl, h9.1, h9.2⟩, ⟨t, ht, herr, hclk, ?_⟩, by decide, by decide, by decide⟩
  simp [_genieGetLinkState, hl1, hl2, GENIE_LINK_RXEVENT]

end Genie
